import Mathlib

/-!
Shallow embedding of the `orderbook-rust` core (src/types/mod.rs,
src/orderbook/mod.rs, src/market_data/mod.rs) and proofs of the spec claims.

Modelling conventions:
* `u64` prices and quantities become `Nat`.  All subtractions in the source
  are guarded by the invariants proved below, so truncated `Nat` subtraction
  agrees with the machine arithmetic on every reachable state; `u64`
  wrap-around on addition is not modelled (quantities stay below 2^64 in all
  runs considered).
* `Uuid` identifiers become `Nat`.  The ambient `Uuid::new_v4()` supply is
  modelled by a counter field `nextId` on the book: each call to the
  generator returns the current counter and bumps it.
* `BTreeMap<Price, PriceLevel>` becomes a list of levels sorted by strictly
  ascending price (the iteration order of the Rust map); `first_key_value`
  is the head, `last_key_value` the last element.
* `HashMap<OrderId, OrderEntry>` becomes an association list.  The
  `price_level_index` field of `OrderEntry` is always 0 and never read in
  the source, so the entry is just the stored `Arc<Order>`.
* Wall-clock data (timestamps, latency durations) is dropped: no claim
  observes it.  The statistics counters are kept.
* Rust methods taking `&mut self` that can fail return
  `Except OrderBookError α × State`: the second component is the state at
  the moment of return, also on the error path (matching in-place mutation).
  Error branches in the source that mutate nothing return the input state.
* The matching loop of `match_orders` runs on fuel
  `ordersCountLs ladder + remaining`; `matchLoopAsks_measure` below shows a
  successful iteration strictly decreases that measure, so the fuel never
  runs out and the embedding computes exactly what the unbounded `while`
  loop computes.
-/

set_option autoImplicit false

namespace OrderbookRust

/-- `u64::MAX`, the aggressive price substituted for Market buys.
The source aliases `Price = u64`, `Quantity = u64`, `OrderId = Uuid`; all
three become `Nat` here (spelled out, not aliased, so linear-arithmetic
automation sees the bare type). -/
def U64_MAX : Nat := 18446744073709551615

inductive Side where
  | Buy
  | Sell
deriving DecidableEq, Repr

inductive OrderType where
  | Limit
  | Market
  | ImmediateOrCancel
  | FillOrKill
  | GoodTillCancel
  | GoodForDay
deriving DecidableEq, Repr

/-- `Order` from src/types/mod.rs (timestamp dropped: wall clock). -/
structure Order where
  id : Nat
  side : Side
  order_type : OrderType
  price : Nat
  quantity : Nat
  remaining_quantity : Nat
  user_id : Option String
deriving DecidableEq, Repr

/-- `Trade` from src/types/mod.rs (fresh uuid `id` and timestamp dropped:
no claim observes them). -/
structure Trade where
  buy_order_id : Nat
  sell_order_id : Nat
  price : Nat
  quantity : Nat
deriving DecidableEq, Repr

/-- `Trade::new`. -/
def Trade.new (buy_order_id sell_order_id : Nat) (price : Nat)
    (quantity : Nat) : Trade :=
  { buy_order_id := buy_order_id, sell_order_id := sell_order_id,
    price := price, quantity := quantity }

structure LevelInfo where
  price : Nat
  quantity : Nat
  order_count : Nat
deriving DecidableEq, Repr

inductive OrderBookError where
  | OrderNotFound (order_id : Nat)
  | InvalidPrice (price : Nat)
  | InvalidQuantity (quantity : Nat)
  | OrderAlreadyExists (order_id : Nat)
  | SequenceGap (expected actual : Nat)
  | MarketDataError
deriving DecidableEq, Repr

/-- `MarketDataStats` counters (durations dropped: wall clock). -/
structure MarketDataStats where
  messages_processed : Nat
  new_orders : Nat
  cancellations : Nat
  modifications : Nat
  trades : Nat
  snapshots : Nat
  errors : Nat
  sequence_gaps : Nat
deriving DecidableEq, Repr

def MarketDataStats.default : MarketDataStats :=
  { messages_processed := 0, new_orders := 0, cancellations := 0,
    modifications := 0, trades := 0, snapshots := 0, errors := 0,
    sequence_gaps := 0 }

/-- `PriceLevel` from src/orderbook/mod.rs; the `VecDeque` front is the list
head. -/
structure PriceLevel where
  price : Nat
  orders : List Order
  total_quantity : Nat
deriving DecidableEq, Repr

/-- `PriceLevel::new`. -/
def PriceLevel.new (price : Nat) : PriceLevel :=
  { price := price, orders := [], total_quantity := 0 }

/-- `PriceLevel::add_order`. -/
def PriceLevel.add_order (l : PriceLevel) (o : Order) : PriceLevel :=
  { l with total_quantity := l.total_quantity + o.remaining_quantity,
           orders := l.orders ++ [o] }

/-- Remove the first order with the given id from a queue, returning it. -/
def removeFirstById : List Order → Nat → Option Order × List Order
  | [], _ => (none, [])
  | o :: os, i =>
    if o.id = i then (some o, os)
    else
      let r := removeFirstById os i
      (r.1, o :: r.2)

/-- `PriceLevel::remove_order`. -/
def PriceLevel.remove_order (l : PriceLevel) (order_id : Nat) :
    Option Order × PriceLevel :=
  match removeFirstById l.orders order_id with
  | (some o, os) =>
    (some o, { l with orders := os,
                      total_quantity := l.total_quantity - o.remaining_quantity })
  | (none, _) => (none, l)

/-- `PriceLevel::get_level_info`. -/
def PriceLevel.get_level_info (l : PriceLevel) : LevelInfo :=
  { price := l.price, quantity := l.total_quantity,
    order_count := l.orders.length }

/-! ### Sorted price ladders (the two `BTreeMap`s) -/

/-- Look up the level at a price (`BTreeMap::get`). -/
def ladderGet : List PriceLevel → Nat → Option PriceLevel
  | [], _ => none
  | l :: ls, p => if l.price = p then some l else ladderGet ls p

/-- Replace the level at a price in place (`BTreeMap::get_mut` write-back). -/
def ladderSet : List PriceLevel → Nat → PriceLevel → List PriceLevel
  | [], _, _ => []
  | l :: ls, p, l' => if l.price = p then l' :: ls else l :: ladderSet ls p l'

/-- Delete the level at a price (`BTreeMap::remove`). -/
def ladderRemoveLevel : List PriceLevel → Nat → List PriceLevel
  | [], _ => []
  | l :: ls, p => if l.price = p then ls else l :: ladderRemoveLevel ls p

/-- `entry(price).or_insert_with(PriceLevel::new).add_order(order)` on a
ladder kept in ascending price order. -/
def ladderAdd : List PriceLevel → Nat → Order → List PriceLevel
  | [], p, o => [(PriceLevel.new p).add_order o]
  | l :: ls, p, o =>
    if p < l.price then (PriceLevel.new p).add_order o :: l :: ls
    else if l.price = p then l.add_order o :: ls
    else l :: ladderAdd ls p o

/-- Total number of resting orders across a ladder. -/
def ordersCountLs (ls : List PriceLevel) : Nat :=
  (ls.map (fun l => l.orders.length)).sum

/-! ### The order index (the `HashMap`) -/

def idxGet : List (Nat × Order) → Nat → Option Order
  | [], _ => none
  | (k, v) :: m, i => if k = i then some v else idxGet m i

def idxInsert : List (Nat × Order) → Nat → Order →
    List (Nat × Order)
  | [], i, o => [(i, o)]
  | (k, v) :: m, i, o =>
    if k = i then (i, o) :: m else (k, v) :: idxInsert m i o

def idxRemove : List (Nat × Order) → Nat → List (Nat × Order)
  | [], _ => []
  | (k, v) :: m, i => if k = i then m else (k, v) :: idxRemove m i

def idxContains (m : List (Nat × Order)) (i : Nat) : Bool :=
  (idxGet m i).isSome

/-! ### The book -/

/-- `OrderBook` (day-reset configuration and `is_initialized` dropped: no
operation reads them; `nextId` models the ambient uuid supply). -/
structure OrderBook where
  bids : List PriceLevel
  asks : List PriceLevel
  orders : List (Nat × Order)
  stats : MarketDataStats
  last_sequence_number : Nat
  nextId : Nat
deriving DecidableEq, Repr

/-- `OrderBook::new`. -/
def OrderBook.new : OrderBook :=
  { bids := [], asks := [], orders := [], stats := MarketDataStats.default,
    last_sequence_number := 0, nextId := 0 }

def OrderBook.size (b : OrderBook) : Nat := b.orders.length

def OrderBook.get_best_bid (b : OrderBook) : Option Nat :=
  b.bids.getLast?.map (fun l => l.price)

def OrderBook.get_best_ask (b : OrderBook) : Option Nat :=
  b.asks.head?.map (fun l => l.price)

/-- `OrderBook::clear_all_orders`. -/
def OrderBook.clear_all_orders (b : OrderBook) : OrderBook :=
  { b with bids := [], asks := [], orders := [],
           stats := MarketDataStats.default }

/-- `OrderBook::add_to_book` (the `Result` is always `Ok`). -/
def OrderBook.add_to_book (b : OrderBook) (order : Order) : OrderBook :=
  let b1 := { b with orders := idxInsert b.orders order.id order }
  match order.side with
  | Side.Buy => { b1 with bids := ladderAdd b1.bids order.price order }
  | Side.Sell => { b1 with asks := ladderAdd b1.asks order.price order }

/-- `OrderBook::match_at_price_level_ask`, acting on the ask ladder — the
only field of `self` the source method touches. -/
def matchLevelAsk (asks : List PriceLevel) (price : Nat) (incoming : Order)
    (max_quantity : Nat) : Except OrderBookError Trade × List PriceLevel :=
  match ladderGet asks price with
  | some level =>
    match level.orders with
    | resting :: rest =>
      let trade_quantity := min max_quantity resting.remaining_quantity
      let trade_price := resting.price
      let trade := Trade.new incoming.id resting.id trade_price trade_quantity
      let newOrders :=
        if resting.remaining_quantity = trade_quantity then rest
        else { resting with
                remaining_quantity := resting.remaining_quantity - trade_quantity } :: rest
      let level' := { level with
                       total_quantity := level.total_quantity - trade_quantity,
                       orders := newOrders }
      if level'.orders.isEmpty then
        (Except.ok trade, ladderRemoveLevel asks price)
      else
        (Except.ok trade, ladderSet asks price level')
    | [] => (Except.error (OrderBookError.OrderNotFound incoming.id), asks)
  | none => (Except.error (OrderBookError.OrderNotFound incoming.id), asks)

/-- `OrderBook::match_at_price_level_bid`, acting on the bid ladder.  Note
the maker is the buy side here, so the trade ids are swapped. -/
def matchLevelBid (bids : List PriceLevel) (price : Nat) (incoming : Order)
    (max_quantity : Nat) : Except OrderBookError Trade × List PriceLevel :=
  match ladderGet bids price with
  | some level =>
    match level.orders with
    | resting :: rest =>
      let trade_quantity := min max_quantity resting.remaining_quantity
      let trade_price := resting.price
      let trade := Trade.new resting.id incoming.id trade_price trade_quantity
      let newOrders :=
        if resting.remaining_quantity = trade_quantity then rest
        else { resting with
                remaining_quantity := resting.remaining_quantity - trade_quantity } :: rest
      let level' := { level with
                       total_quantity := level.total_quantity - trade_quantity,
                       orders := newOrders }
      if level'.orders.isEmpty then
        (Except.ok trade, ladderRemoveLevel bids price)
      else
        (Except.ok trade, ladderSet bids price level')
    | [] => (Except.error (OrderBookError.OrderNotFound incoming.id), bids)
  | none => (Except.error (OrderBookError.OrderNotFound incoming.id), bids)

/-- The `while remaining_quantity > 0` loop of `match_orders` for a Buy
incoming order, walking the ask ladder.  The fuel argument only realises
termination; `OrderBook.match_orders` supplies fuel that provably never
runs out. -/
def matchLoopAsks (incoming : Order) :
    Nat → List PriceLevel → Nat →
    Except OrderBookError (List Trade) × List PriceLevel
  | 0, asks, _ => (Except.ok [], asks)
  | fuel + 1, asks, remaining =>
    if remaining > 0 then
      match asks.head? with
      | none => (Except.ok [], asks)
      | some level =>
        if incoming.price ≥ level.price ∨ incoming.order_type = OrderType.Market then
          match matchLevelAsk asks level.price incoming remaining with
          | (Except.error e, asks') => (Except.error e, asks')
          | (Except.ok trade, asks') =>
            match matchLoopAsks incoming fuel asks' (remaining - trade.quantity) with
            | (Except.error e, asks'') => (Except.error e, asks'')
            | (Except.ok trades, asks'') => (Except.ok (trade :: trades), asks'')
        else (Except.ok [], asks)
    else (Except.ok [], asks)

/-- The matching loop for a Sell incoming order, walking the bid ladder
(best bid = last key of the ascending map). -/
def matchLoopBids (incoming : Order) :
    Nat → List PriceLevel → Nat →
    Except OrderBookError (List Trade) × List PriceLevel
  | 0, bids, _ => (Except.ok [], bids)
  | fuel + 1, bids, remaining =>
    if remaining > 0 then
      match bids.getLast? with
      | none => (Except.ok [], bids)
      | some level =>
        if incoming.price ≤ level.price ∨ incoming.order_type = OrderType.Market then
          match matchLevelBid bids level.price incoming remaining with
          | (Except.error e, bids') => (Except.error e, bids')
          | (Except.ok trade, bids') =>
            match matchLoopBids incoming fuel bids' (remaining - trade.quantity) with
            | (Except.error e, bids'') => (Except.error e, bids'')
            | (Except.ok trades, bids'') => (Except.ok (trade :: trades), bids'')
        else (Except.ok [], bids)
    else (Except.ok [], bids)

/-- `OrderBook::match_orders`. -/
def OrderBook.match_orders (b : OrderBook) (incoming : Order) :
    Except OrderBookError (List Trade) × OrderBook :=
  match incoming.side with
  | Side.Buy =>
    let r := matchLoopAsks incoming
      (ordersCountLs b.asks + incoming.remaining_quantity)
      b.asks incoming.remaining_quantity
    (r.1, { b with asks := r.2 })
  | Side.Sell =>
    let r := matchLoopBids incoming
      (ordersCountLs b.bids + incoming.remaining_quantity)
      b.bids incoming.remaining_quantity
    (r.1, { b with bids := r.2 })

/-- Sum of the quantities of a list of trades. -/
def sumQ (trades : List Trade) : Nat :=
  (trades.map (fun t => t.quantity)).sum

/-- `OrderBook::add_to_book_and_match`. -/
def OrderBook.add_to_book_and_match (b : OrderBook) (order : Order) :
    Except OrderBookError (List Trade) × OrderBook :=
  match b.match_orders order with
  | (Except.error e, b') => (Except.error e, b')
  | (Except.ok trades, b') =>
    let total_traded := sumQ trades
    let remaining_quantity := order.remaining_quantity - total_traded
    if remaining_quantity > 0 then
      (Except.ok trades,
       b'.add_to_book { order with remaining_quantity := remaining_quantity })
    else
      (Except.ok trades, b')

/-- `OrderBook::match_market_order`. -/
def OrderBook.match_market_order (b : OrderBook) (order : Order) :
    Except OrderBookError (List Trade) × OrderBook :=
  let aggressive_price : Nat :=
    match order.side with
    | Side.Buy => U64_MAX
    | Side.Sell => 0
  b.match_orders { order with price := aggressive_price }

/-- `OrderBook::get_available_quantity_for_order`. -/
def OrderBook.get_available_quantity_for_order (b : OrderBook) (order : Order) : Nat :=
  match order.side with
  | Side.Buy =>
    ((b.asks.filter (fun l => l.price ≤ order.price)).map
      (fun l => l.total_quantity)).sum
  | Side.Sell =>
    ((b.bids.filter (fun l => order.price ≤ l.price)).map
      (fun l => l.total_quantity)).sum

/-- `OrderBook::match_fill_or_kill`. -/
def OrderBook.match_fill_or_kill (b : OrderBook) (order : Order) :
    Except OrderBookError (List Trade) × OrderBook :=
  if b.get_available_quantity_for_order order ≥ order.quantity then
    b.match_orders order
  else
    (Except.ok [], b)

/-- `OrderBook::match_immediate_or_cancel`. -/
def OrderBook.match_immediate_or_cancel (b : OrderBook) (order : Order) :
    Except OrderBookError (List Trade) × OrderBook :=
  b.match_orders order

/-- `OrderBook::add_order`. -/
def OrderBook.add_order (b : OrderBook) (order : Order) :
    Except OrderBookError (List Trade) × OrderBook :=
  if idxContains b.orders order.id then
    (Except.error (OrderBookError.OrderAlreadyExists order.id), b)
  else if order.price = 0 ∧ order.order_type ≠ OrderType.Market then
    (Except.error (OrderBookError.InvalidPrice order.price), b)
  else if order.quantity = 0 then
    (Except.error (OrderBookError.InvalidQuantity order.quantity), b)
  else
    let result :=
      match order.order_type with
      | OrderType.Market => b.match_market_order order
      | OrderType.FillOrKill => b.match_fill_or_kill order
      | OrderType.ImmediateOrCancel => b.match_immediate_or_cancel order
      | _ => b.add_to_book_and_match order
    match result with
    | (Except.error e, b') => (Except.error e, b')
    | (Except.ok trades, b') =>
      (Except.ok trades,
       { b' with stats :=
          { b'.stats with new_orders := b'.stats.new_orders + 1 } })

/-- The ladder-side body of `cancel_order`: remove the order from the level
at the given price (if that level exists) and drop the level if it became
empty. -/
def ladderCancel (ls : List PriceLevel) (price : Nat) (order_id : Nat) :
    List PriceLevel :=
  match ladderGet ls price with
  | none => ls
  | some l =>
    let l' := (l.remove_order order_id).2
    if l'.orders.isEmpty then ladderRemoveLevel ls price
    else ladderSet ls price l'

/-- `OrderBook::cancel_order`. -/
def OrderBook.cancel_order (b : OrderBook) (order_id : Nat) :
    Except OrderBookError Unit × OrderBook :=
  match idxGet b.orders order_id with
  | none => (Except.error (OrderBookError.OrderNotFound order_id), b)
  | some order =>
    let b1 := { b with orders := idxRemove b.orders order_id }
    let b2 :=
      match order.side with
      | Side.Buy => { b1 with bids := ladderCancel b1.bids order.price order_id }
      | Side.Sell => { b1 with asks := ladderCancel b1.asks order.price order_id }
    (Except.ok (),
     { b2 with stats :=
        { b2.stats with cancellations := b2.stats.cancellations + 1 } })

/-- `OrderBook::modify_order`. -/
def OrderBook.modify_order (b : OrderBook) (order_id : Nat)
    (new_price : Option Nat) (new_quantity : Option Nat) :
    Except OrderBookError (List Trade) × OrderBook :=
  match idxGet b.orders order_id with
  | none => (Except.error (OrderBookError.OrderNotFound order_id), b)
  | some old_order =>
    match b.cancel_order order_id with
    | (Except.error e, b1) => (Except.error e, b1)
    | (Except.ok _, b1) =>
      let new_order : Order :=
        { old_order with
           price := new_price.getD old_order.price,
           remaining_quantity := new_quantity.getD old_order.remaining_quantity,
           id := b1.nextId }
      let b2 := { b1 with nextId := b1.nextId + 1 }
      match b2.add_order new_order with
      | (Except.error e, b3) => (Except.error e, b3)
      | (Except.ok trades, b3) =>
        (Except.ok trades,
         { b3 with stats :=
            { b3.stats with modifications := b3.stats.modifications + 1 } })

/-! ### Market-data messages and the processor (src/market_data/mod.rs,
src/types/mod.rs).  The redundant `message_type` discriminator field and the
timestamps are dropped. -/

structure NewOrderMessage where
  order_id : Nat
  side : Side
  order_type : OrderType
  price : Nat
  quantity : Nat
  sequence_number : Nat
deriving DecidableEq, Repr

structure CancelOrderMessage where
  order_id : Nat
  sequence_number : Nat
deriving DecidableEq, Repr

structure ModifyOrderMessage where
  order_id : Nat
  new_price : Option Nat
  new_quantity : Option Nat
  sequence_number : Nat
deriving DecidableEq, Repr

structure TradeMessage where
  buy_order_id : Nat
  sell_order_id : Nat
  price : Nat
  quantity : Nat
  sequence_number : Nat
deriving DecidableEq, Repr

structure BookSnapshotMessage where
  bids : List LevelInfo
  asks : List LevelInfo
  sequence_number : Nat
deriving DecidableEq, Repr

inductive MarketDataMessage where
  | NewOrder (msg : NewOrderMessage)
  | CancelOrder (msg : CancelOrderMessage)
  | ModifyOrder (msg : ModifyOrderMessage)
  | Trade (msg : TradeMessage)
  | BookSnapshot (msg : BookSnapshotMessage)
deriving DecidableEq, Repr

/-- The sequence-number extraction at the top of `process_market_data`. -/
def MarketDataMessage.sequence_number : MarketDataMessage → Nat
  | NewOrder m => m.sequence_number
  | CancelOrder m => m.sequence_number
  | ModifyOrder m => m.sequence_number
  | Trade m => m.sequence_number
  | BookSnapshot m => m.sequence_number

/-- `MarketDataProcessor` (the book it references is passed explicitly). -/
structure MarketDataProcessor where
  stats : MarketDataStats
deriving DecidableEq, Repr

/-- The `Order::new` calls in `update_orderbook_with_snapshot`, with the
`format!("market_bid_{}", i)` / `format!("market_ask_{}", i)` user tags. -/
def snapshotUserTag : Side → Nat → String
  | Side.Buy, i => "market_bid_" ++ toString i
  | Side.Sell, i => "market_ask_" ++ toString i

/-- One `for (i, lv) in levels.iter().enumerate()` loop of
`update_orderbook_with_snapshot`: build a fresh Limit order per stated level
and `add_order` it, propagating errors. -/
def addSnapshotOrders (side : Side) :
    OrderBook → List LevelInfo → Nat → Except OrderBookError Unit × OrderBook
  | b, [], _ => (Except.ok (), b)
  | b, lv :: rest, i =>
    let order : Order :=
      { id := b.nextId, side := side, order_type := OrderType.Limit,
        price := lv.price, quantity := lv.quantity,
        remaining_quantity := lv.quantity,
        user_id := some (snapshotUserTag side i) }
    let b1 := { b with nextId := b.nextId + 1 }
    match b1.add_order order with
    | (Except.error e, b') => (Except.error e, b')
    | (Except.ok _, b') => addSnapshotOrders side b' rest (i + 1)

/-- `MarketDataProcessor::update_orderbook_with_snapshot`. -/
def update_orderbook_with_snapshot (b : OrderBook) (snapshot : BookSnapshotMessage) :
    Except OrderBookError Unit × OrderBook :=
  let b0 := b.clear_all_orders
  match addSnapshotOrders Side.Buy b0 snapshot.bids 0 with
  | (Except.error e, b') => (Except.error e, b')
  | (Except.ok _, b1) => addSnapshotOrders Side.Sell b1 snapshot.asks 0

/-- `MarketDataProcessor::process_market_data`.  The processor's own stats
and the (mutex-guarded) book are threaded explicitly; the state components
are returned also on the error path, exactly as the in-place mutations of
the source persist past an early `return Err`. -/
def MarketDataProcessor.process_market_data (p : MarketDataProcessor)
    (book : OrderBook) (message : MarketDataMessage) :
    Except OrderBookError Bool × MarketDataProcessor × OrderBook :=
  let sequence_number := message.sequence_number
  if sequence_number ≤ book.last_sequence_number then
    (Except.error (OrderBookError.SequenceGap
        (book.last_sequence_number + 1) sequence_number),
     { p with stats :=
        { p.stats with sequence_gaps := p.stats.sequence_gaps + 1 } },
     book)
  else
    let book1 := { book with last_sequence_number := sequence_number }
    let afterDispatch : Except OrderBookError Unit × MarketDataProcessor × OrderBook :=
      match message with
      | MarketDataMessage.NewOrder m =>
        let order : Order :=
          { id := book1.nextId, side := m.side, order_type := m.order_type,
            price := m.price, quantity := m.quantity,
            remaining_quantity := m.quantity, user_id := none }
        let book2 := { book1 with nextId := book1.nextId + 1 }
        match book2.add_order order with
        | (Except.error e, b') => (Except.error e, p, b')
        | (Except.ok _, b') =>
          (Except.ok (),
           { p with stats :=
              { p.stats with new_orders := p.stats.new_orders + 1 } }, b')
      | MarketDataMessage.CancelOrder m =>
        match book1.cancel_order m.order_id with
        | (Except.error e, b') => (Except.error e, p, b')
        | (Except.ok _, b') =>
          (Except.ok (),
           { p with stats :=
              { p.stats with cancellations := p.stats.cancellations + 1 } }, b')
      | MarketDataMessage.ModifyOrder m =>
        match book1.modify_order m.order_id (some (m.new_price.getD 0)) m.new_quantity with
        | (Except.error e, b') => (Except.error e, p, b')
        | (Except.ok _, b') =>
          (Except.ok (),
           { p with stats :=
              { p.stats with modifications := p.stats.modifications + 1 } }, b')
      | MarketDataMessage.Trade _ =>
        (Except.ok (),
         { p with stats := { p.stats with trades := p.stats.trades + 1 } },
         book1)
      | MarketDataMessage.BookSnapshot m =>
        match update_orderbook_with_snapshot book1 m with
        | (Except.error e, b') => (Except.error e, p, b')
        | (Except.ok _, b') =>
          (Except.ok (),
           { p with stats :=
              { p.stats with snapshots := p.stats.snapshots + 1 } }, b')
    match afterDispatch with
    | (Except.error e, p', b') => (Except.error e, p', b')
    | (Except.ok _, p', b') =>
      (Except.ok true,
       { p' with stats :=
          { p'.stats with
             messages_processed := p'.stats.messages_processed + 1 } }, b')

/-! ### Well-formedness of the book state

These predicates spell out the representation invariants of the Rust data
structures: a `BTreeMap` iterates in strictly ascending key order, a level
caches the sum of its orders' remaining quantities, a level exists only
when non-empty, orders rest at the level keyed by their own price with
positive remaining quantity, and the book is not crossed at rest. -/

/-- Sum of the remaining quantities of a queue of orders. -/
def sumRem (os : List Order) : Nat :=
  (os.map (fun o => o.remaining_quantity)).sum

/-- All resting orders of a ladder, best-level data included, in ladder
order. -/
def ladderOrders (ls : List PriceLevel) : List Order :=
  (ls.map PriceLevel.orders).flatten

/-- Strictly ascending prices: the `BTreeMap` key order. -/
def ladderSorted (ls : List PriceLevel) : Prop :=
  List.Pairwise (fun a b => a.price < b.price) ls

/-- Representation invariant of one price level. -/
structure LevelWF (l : PriceLevel) : Prop where
  qty : l.total_quantity = sumRem l.orders
  prices : ∀ o ∈ l.orders, o.price = l.price
  nonempty : l.orders ≠ []
  pos : ∀ o ∈ l.orders, 0 < o.remaining_quantity

/-- Representation invariant of the whole book. -/
structure BookWF (b : OrderBook) : Prop where
  bidsSorted : ladderSorted b.bids
  asksSorted : ladderSorted b.asks
  bidsWF : ∀ l ∈ b.bids, LevelWF l
  asksWF : ∀ l ∈ b.asks, LevelWF l
  uncrossed : ∀ lb ∈ b.bids, ∀ la ∈ b.asks, lb.price < la.price

/-- Total resting quantity carried by orders with the given identifier,
across both ladders. -/
def idQty (b : OrderBook) (i : Nat) : Nat :=
  sumRem ((ladderOrders b.bids ++ ladderOrders b.asks).filter
    (fun o => o.id == i))

/-- The identifier occurs nowhere in either ladder. -/
def idFree (b : OrderBook) (i : Nat) : Prop :=
  ∀ o ∈ ladderOrders b.bids ++ ladderOrders b.asks, o.id ≠ i

/-- Whether an error is the sequencing error (used to state claim C5). -/
def isSeqGap : OrderBookError → Prop
  | OrderBookError.SequenceGap _ _ => True
  | _ => False

/-- Representation invariant of one ladder. -/
def LadderWF (ls : List PriceLevel) : Prop :=
  ladderSorted ls ∧ ∀ l ∈ ls, LevelWF l

/-- Ask-side liquidity eligible against a buy limit price (the Buy arm of
`get_available_quantity_for_order`). -/
def availAsks (asks : List PriceLevel) (price : Nat) : Nat :=
  ((asks.filter (fun l => l.price ≤ price)).map (fun l => l.total_quantity)).sum

/-- Bid-side liquidity eligible against a sell limit price (the Sell arm of
`get_available_quantity_for_order`). -/
def availBids (bids : List PriceLevel) (price : Nat) : Nat :=
  ((bids.filter (fun l => price ≤ l.price)).map (fun l => l.total_quantity)).sum

/-! ### Concrete example data used to instantiate the claim theorems -/

/-- A resting ask: Sell Limit 5 at 105, id 1. -/
def exAskOrder : Order :=
  { id := 1, side := Side.Sell, order_type := OrderType.Limit, price := 105,
    quantity := 5, remaining_quantity := 5, user_id := none }

/-- A resting bid: Buy Limit 7 at 95, id 2. -/
def exBidOrder : Order :=
  { id := 2, side := Side.Buy, order_type := OrderType.Limit, price := 95,
    quantity := 7, remaining_quantity := 7, user_id := none }

/-- Example book: one bid level at 95, one ask level at 105. -/
def exBook : OrderBook :=
  { bids := [{ price := 95, orders := [exBidOrder], total_quantity := 7 }],
    asks := [{ price := 105, orders := [exAskOrder], total_quantity := 5 }],
    orders := [(1, exAskOrder), (2, exBidOrder)],
    stats := MarketDataStats.default, last_sequence_number := 0, nextId := 3 }

/-- Incoming Buy Limit 5 at 110 (crosses the resting ask fully). -/
def exTaker : Order :=
  { id := 10, side := Side.Buy, order_type := OrderType.Limit, price := 110,
    quantity := 5, remaining_quantity := 5, user_id := none }

/-- Incoming Buy FillOrKill 6 at 110 (more than the available 5). -/
def exFok : Order :=
  { id := 10, side := Side.Buy, order_type := OrderType.FillOrKill,
    price := 110, quantity := 6, remaining_quantity := 6, user_id := none }

/-- Incoming Buy Limit 4 at 100 (does not cross; rests). -/
def exRester : Order :=
  { id := 10, side := Side.Buy, order_type := OrderType.Limit, price := 100,
    quantity := 4, remaining_quantity := 4, user_id := none }

/-- Incoming Buy Limit 1 at 96 (does not cross; becomes the best bid). -/
def exBid96 : Order :=
  { id := 10, side := Side.Buy, order_type := OrderType.Limit, price := 96,
    quantity := 1, remaining_quantity := 1, user_id := none }

/-- Maker for the C2 run: Sell Limit 5 at 100, id 1, into the empty book. -/
def exMakerC2 : Order :=
  { id := 1, side := Side.Sell, order_type := OrderType.Limit, price := 100,
    quantity := 5, remaining_quantity := 5, user_id := none }

/-- Taker for the C2 run: Buy Limit 5 at 100, id 2; fills the maker. -/
def exTakerC2 : Order :=
  { id := 2, side := Side.Buy, order_type := OrderType.Limit, price := 100,
    quantity := 5, remaining_quantity := 5, user_id := none }

/-- The book after the two C2 `add_order` calls. -/
def exBookC2 : OrderBook :=
  (((OrderBook.new).add_order exMakerC2).2.add_order exTakerC2).2

/-- A fresh processor. -/
def exProc : MarketDataProcessor := { stats := MarketDataStats.default }

/-- A stale message (sequence number 0 against a book already at 0). -/
def exGapMsg : MarketDataMessage :=
  MarketDataMessage.NewOrder
    { order_id := 7, side := Side.Buy, order_type := OrderType.Limit,
      price := 100, quantity := 1, sequence_number := 0 }

/-- Priority-scenario order A: Buy Limit 1000 at 100, id 1, first in. -/
def exPrioA : Order :=
  { id := 1, side := Side.Buy, order_type := OrderType.Limit, price := 100,
    quantity := 1000, remaining_quantity := 1000, user_id := none }

/-- Priority-scenario order B: same level, id 2, second in. -/
def exPrioB : Order :=
  { id := 2, side := Side.Buy, order_type := OrderType.Limit, price := 100,
    quantity := 1000, remaining_quantity := 1000, user_id := none }

/-- Book with A queued before B at the single bid level 100. -/
def exPrioBook : OrderBook :=
  { bids := [{ price := 100, orders := [exPrioA, exPrioB],
               total_quantity := 2000 }],
    asks := [], orders := [(1, exPrioA), (2, exPrioB)],
    stats := MarketDataStats.default, last_sequence_number := 0, nextId := 3 }

/-- A crossed snapshot: its bid (100) is priced above its ask (90). -/
def exCrossedSnap : BookSnapshotMessage :=
  { bids := [{ price := 100, quantity := 5, order_count := 1 }],
    asks := [{ price := 90, quantity := 5, order_count := 1 }],
    sequence_number := 1 }

/-- An uncrossed snapshot with positive, pairwise distinct prices. -/
def exGoodSnap : BookSnapshotMessage :=
  { bids := [{ price := 99, quantity := 3, order_count := 2 },
             { price := 100, quantity := 5, order_count := 1 }],
    asks := [{ price := 110, quantity := 7, order_count := 1 }],
    sequence_number := 1 }

/-! ## Lemmas about one matching step -/

theorem matchLevelAsk_head_ok {level : PriceLevel} {ls : List PriceLevel}
    {incoming : Order} {maxq : Nat} {t : Trade} {asks' : List PriceLevel}
    (h : matchLevelAsk (level :: ls) level.price incoming maxq =
      (Except.ok t, asks')) :
    ∃ resting rest, level.orders = resting :: rest ∧
      t = { buy_order_id := incoming.id, sell_order_id := resting.id,
            price := resting.price,
            quantity := min maxq resting.remaining_quantity } ∧
      ((resting.remaining_quantity = t.quantity ∧ rest = [] ∧ asks' = ls) ∨
       (resting.remaining_quantity = t.quantity ∧ rest ≠ [] ∧
         asks' = { level with
                    total_quantity := level.total_quantity - t.quantity,
                    orders := rest } :: ls) ∨
       (resting.remaining_quantity ≠ t.quantity ∧ t.quantity = maxq ∧
         asks' = { level with
                    total_quantity := level.total_quantity - t.quantity,
                    orders := { resting with
                      remaining_quantity :=
                        resting.remaining_quantity - t.quantity } :: rest }
           :: ls)) := by
  cases horders : level.orders with
  | nil =>
    simp [matchLevelAsk, ladderGet, horders] at h
  | cons resting rest =>
    have hget : ladderGet (level :: ls) level.price = some level := by
      simp [ladderGet]
    refine ⟨resting, rest, rfl, ?_⟩
    simp [matchLevelAsk, hget, horders, Trade.new] at h
    by_cases hfill : resting.remaining_quantity ≤ maxq
    · have hmin : maxq ⊓ resting.remaining_quantity = resting.remaining_quantity :=
        inf_eq_right.mpr hfill
      rw [if_pos hfill] at h
      cases hrest : rest with
      | nil =>
        subst hrest
        simp [ladderRemoveLevel] at h
        obtain ⟨ht, hasks⟩ := h
        subst ht
        exact ⟨rfl, Or.inl ⟨hmin.symm, rfl, hasks.symm⟩⟩
      | cons r0 rs =>
        subst hrest
        simp [ladderSet] at h
        obtain ⟨ht, hasks⟩ := h
        subst ht
        exact ⟨rfl, Or.inr (Or.inl ⟨hmin.symm, by simp, hasks.symm⟩)⟩
    · have hlt : maxq < resting.remaining_quantity := lt_of_not_le hfill
      have hmin : maxq ⊓ resting.remaining_quantity = maxq :=
        inf_eq_left.mpr (le_of_lt hlt)
      rw [if_neg hfill] at h
      simp [ladderSet] at h
      obtain ⟨ht, hasks⟩ := h
      subst ht
      refine ⟨rfl, Or.inr (Or.inr ⟨by rw [hmin]; exact ne_of_gt hlt, hmin, hasks.symm⟩)⟩

theorem ladderOrders_cons (l : PriceLevel) (ls : List PriceLevel) :
    ladderOrders (l :: ls) = l.orders ++ ladderOrders ls := by
  simp [ladderOrders]

theorem ladderOrders_nil : ladderOrders [] = [] := by
  simp [ladderOrders]

theorem sumRem_cons (o : Order) (os : List Order) :
    sumRem (o :: os) = o.remaining_quantity + sumRem os := by
  simp [sumRem]

theorem sumRem_append (a b : List Order) :
    sumRem (a ++ b) = sumRem a + sumRem b := by
  simp [sumRem]

theorem sumQ_cons (t : Trade) (ts : List Trade) :
    sumQ (t :: ts) = t.quantity + sumQ ts := by
  simp [sumQ]

theorem matchLevelAsk_head_error {level : PriceLevel} {ls : List PriceLevel}
    {incoming : Order} {maxq : Nat} {e : OrderBookError}
    {asks' : List PriceLevel}
    (h : matchLevelAsk (level :: ls) level.price incoming maxq =
      (Except.error e, asks')) :
    level.orders = [] ∧ asks' = level :: ls := by
  have hget : ladderGet (level :: ls) level.price = some level := by
    simp [ladderGet]
  cases horders : level.orders with
  | nil =>
    simp [matchLevelAsk, hget, horders] at h
    exact ⟨rfl, h.2.symm⟩
  | cons r rest =>
    simp [matchLevelAsk, hget, horders, Trade.new] at h
    by_cases hfill : r.remaining_quantity ≤ maxq
    · rw [if_pos hfill] at h
      split at h <;> simp at h
    · rw [if_neg hfill] at h
      split at h <;> simp at h

theorem matchLevelAsk_measure {level : PriceLevel} {ls : List PriceLevel}
    {incoming : Order} {remaining : Nat} {t : Trade} {asks' : List PriceLevel}
    (hrem : 0 < remaining)
    (h : matchLevelAsk (level :: ls) level.price incoming remaining =
      (Except.ok t, asks')) :
    ordersCountLs asks' + (remaining - t.quantity) <
      ordersCountLs (level :: ls) + remaining := by
  obtain ⟨resting, rest, ho, ht, hcase⟩ := matchLevelAsk_head_ok h
  have htq : t.quantity ≤ remaining := by rw [ht]; exact min_le_left _ _
  have hcnt : ordersCountLs (level :: ls) =
      level.orders.length + ordersCountLs ls := by
    simp [ordersCountLs]
  rcases hcase with ⟨hq, hrest, ha⟩ | ⟨hq, hrest, ha⟩ | ⟨hq, hquant, ha⟩
  · subst ha
    rw [hcnt, ho, hrest]
    simp
    omega
  · subst ha
    rw [hcnt, ho]
    simp [ordersCountLs]
    omega
  · subst ha
    rw [hcnt, ho]
    simp [ordersCountLs]
    omega

theorem matchLevelAsk_head_wf {level : PriceLevel} {ls : List PriceLevel}
    {incoming : Order} {maxq : Nat} {t : Trade} {asks' : List PriceLevel}
    (hwf : LadderWF (level :: ls))
    (h : matchLevelAsk (level :: ls) level.price incoming maxq =
      (Except.ok t, asks')) :
    LadderWF asks' := by
  obtain ⟨resting, rest, ho, ht, hcase⟩ := matchLevelAsk_head_ok h
  obtain ⟨hsorted, hlv⟩ := hwf
  have hlevel : LevelWF level := hlv level (by simp)
  have hrel : ∀ l ∈ ls, level.price < l.price :=
    (List.pairwise_cons.mp hsorted).1
  have htail : ladderSorted ls := (List.pairwise_cons.mp hsorted).2
  have hlvtail : ∀ l ∈ ls, LevelWF l := fun l hl => hlv l (by simp [hl])
  have hqty : level.total_quantity = resting.remaining_quantity + sumRem rest := by
    have := hlevel.qty
    rw [ho] at this
    simpa [sumRem_cons] using this
  have htq_le : t.quantity ≤ resting.remaining_quantity := by
    rw [ht]; exact min_le_right _ _
  rcases hcase with ⟨hq, hrest, ha⟩ | ⟨hq, hrest, ha⟩ | ⟨hq, hquant, ha⟩
  · subst ha
    exact ⟨htail, hlvtail⟩
  · subst ha
    refine ⟨List.pairwise_cons.mpr ⟨fun l hl => hrel l hl, htail⟩, ?_⟩
    intro l hl
    rcases List.mem_cons.mp hl with hl | hl
    · subst hl
      refine ⟨?_, ?_, ?_, ?_⟩
      · show level.total_quantity - t.quantity = sumRem rest
        omega
      · intro o hoo
        exact hlevel.prices o (by rw [ho]; exact List.mem_cons_of_mem _ hoo)
      · simpa using hrest
      · intro o hoo
        exact hlevel.pos o (by rw [ho]; exact List.mem_cons_of_mem _ hoo)
    · exact hlvtail l hl
  · subst ha
    refine ⟨List.pairwise_cons.mpr ⟨fun l hl => hrel l hl, htail⟩, ?_⟩
    intro l hl
    rcases List.mem_cons.mp hl with hl | hl
    · subst hl
      have hlt : t.quantity < resting.remaining_quantity :=
        Nat.lt_of_le_of_ne htq_le (fun hh => hq hh.symm)
      refine ⟨?_, ?_, ?_, ?_⟩
      · show level.total_quantity - t.quantity =
          sumRem ({ resting with
            remaining_quantity := resting.remaining_quantity - t.quantity } :: rest)
        rw [sumRem_cons]
        simp only
        omega
      · intro o hoo
        rcases List.mem_cons.mp hoo with hoo | hoo
        · subst hoo
          show resting.price = level.price
          exact hlevel.prices resting (by rw [ho]; exact List.mem_cons_self _ _)
        · exact hlevel.prices o (by rw [ho]; exact List.mem_cons_of_mem _ hoo)
      · simp
      · intro o hoo
        rcases List.mem_cons.mp hoo with hoo | hoo
        · subst hoo
          show 0 < resting.remaining_quantity - t.quantity
          omega
        · exact hlevel.pos o (by rw [ho]; exact List.mem_cons_of_mem _ hoo)
    · exact hlvtail l hl

theorem matchLevelAsk_head_orders {level : PriceLevel} {ls : List PriceLevel}
    {incoming : Order} {maxq : Nat} {t : Trade} {asks' : List PriceLevel}
    (h : matchLevelAsk (level :: ls) level.price incoming maxq =
      (Except.ok t, asks')) :
    ∀ o ∈ ladderOrders asks', ∃ o₀ ∈ ladderOrders (level :: ls),
      o₀.id = o.id ∧ o₀.price = o.price := by
  obtain ⟨resting, rest, ho, ht, hcase⟩ := matchLevelAsk_head_ok h
  intro o hoo
  rcases hcase with ⟨hq, hrest, ha⟩ | ⟨hq, hrest, ha⟩ | ⟨hq, hquant, ha⟩
  · subst ha
    exact ⟨o, by rw [ladderOrders_cons]; exact List.mem_append_right _ hoo,
      rfl, rfl⟩
  · subst ha
    rw [ladderOrders_cons] at hoo
    rcases List.mem_append.mp hoo with hoo | hoo
    · simp only at hoo
      exact ⟨o, by rw [ladderOrders_cons, ho]
                   exact List.mem_append_left _ (List.mem_cons_of_mem _ hoo),
        rfl, rfl⟩
    · exact ⟨o, by rw [ladderOrders_cons]; exact List.mem_append_right _ hoo,
        rfl, rfl⟩
  · subst ha
    rw [ladderOrders_cons] at hoo
    rcases List.mem_append.mp hoo with hoo | hoo
    · simp only at hoo
      rcases List.mem_cons.mp hoo with hoo | hoo
      · subst hoo
        exact ⟨resting, by rw [ladderOrders_cons, ho]
                           exact List.mem_append_left _ (List.mem_cons_self _ _),
          rfl, rfl⟩
      · exact ⟨o, by rw [ladderOrders_cons, ho]
                     exact List.mem_append_left _ (List.mem_cons_of_mem _ hoo),
          rfl, rfl⟩
    · exact ⟨o, by rw [ladderOrders_cons]; exact List.mem_append_right _ hoo,
        rfl, rfl⟩

theorem matchLevelAsk_head_levels {level : PriceLevel} {ls : List PriceLevel}
    {incoming : Order} {maxq : Nat} {t : Trade} {asks' : List PriceLevel}
    (h : matchLevelAsk (level :: ls) level.price incoming maxq =
      (Except.ok t, asks')) :
    ∀ l' ∈ asks', ∃ l ∈ level :: ls, l'.price = l.price := by
  obtain ⟨resting, rest, ho, ht, hcase⟩ := matchLevelAsk_head_ok h
  intro l' hl'
  rcases hcase with ⟨hq, hrest, ha⟩ | ⟨hq, hrest, ha⟩ | ⟨hq, hquant, ha⟩
  · subst ha
    exact ⟨l', List.mem_cons_of_mem _ hl', rfl⟩
  · subst ha
    rcases List.mem_cons.mp hl' with hl' | hl'
    · subst hl'
      exact ⟨level, List.mem_cons_self _ _, rfl⟩
    · exact ⟨l', List.mem_cons_of_mem _ hl', rfl⟩
  · subst ha
    rcases List.mem_cons.mp hl' with hl' | hl'
    · subst hl'
      exact ⟨level, List.mem_cons_self _ _, rfl⟩
    · exact ⟨l', List.mem_cons_of_mem _ hl', rfl⟩

theorem matchLevelAsk_head_bestMono {level : PriceLevel} {ls : List PriceLevel}
    {incoming : Order} {maxq : Nat} {t : Trade} {asks' : List PriceLevel}
    (hsorted : ladderSorted (level :: ls))
    (h : matchLevelAsk (level :: ls) level.price incoming maxq =
      (Except.ok t, asks')) :
    ∀ l', asks'.head? = some l' → level.price ≤ l'.price := by
  obtain ⟨resting, rest, ho, ht, hcase⟩ := matchLevelAsk_head_ok h
  have hrel : ∀ l ∈ ls, level.price < l.price :=
    (List.pairwise_cons.mp hsorted).1
  intro l' hl'
  rcases hcase with ⟨hq, hrest, ha⟩ | ⟨hq, hrest, ha⟩ | ⟨hq, hquant, ha⟩
  · subst ha
    exact le_of_lt (hrel l' (List.mem_of_mem_head? hl'))
  · subst ha
    simp at hl'
    rw [← hl']
  · subst ha
    simp at hl'
    rw [← hl']

theorem matchLevelAsk_head_trade {level : PriceLevel} {ls : List PriceLevel}
    {incoming : Order} {maxq : Nat} {t : Trade} {asks' : List PriceLevel}
    (hlevel : LevelWF level)
    (h : matchLevelAsk (level :: ls) level.price incoming maxq =
      (Except.ok t, asks')) :
    t.buy_order_id = incoming.id ∧
    ∃ maker ∈ ladderOrders (level :: ls),
      maker.id = t.sell_order_id ∧ maker.price = t.price ∧
      t.price = level.price := by
  obtain ⟨resting, rest, ho, ht, hcase⟩ := matchLevelAsk_head_ok h
  have hmem : resting ∈ ladderOrders (level :: ls) := by
    rw [ladderOrders_cons, ho]
    exact List.mem_append_left _ (List.mem_cons_self _ _)
  have hrp : resting.price = level.price :=
    hlevel.prices resting (by rw [ho]; exact List.mem_cons_self _ _)
  subst ht
  exact ⟨rfl, resting, hmem, rfl, rfl, hrp⟩

theorem matchLoopAsks_main (incoming : Order) :
    ∀ (fuel : Nat) (asks : List PriceLevel) (remaining : Nat)
      (r : Except OrderBookError (List Trade)) (asks' : List PriceLevel),
      LadderWF asks →
      matchLoopAsks incoming fuel asks remaining = (r, asks') →
      LadderWF asks' ∧
      (∀ o ∈ ladderOrders asks', ∃ o₀ ∈ ladderOrders asks,
        o₀.id = o.id ∧ o₀.price = o.price) ∧
      (∀ l' ∈ asks', ∃ l ∈ asks, l'.price = l.price) ∧
      (∀ l', asks'.head? = some l' →
        ∃ l, asks.head? = some l ∧ l.price ≤ l'.price) ∧
      ∃ ts, r = Except.ok ts ∧ sumQ ts ≤ remaining ∧
        ∀ t ∈ ts, t.buy_order_id = incoming.id ∧
          (t.price ≤ incoming.price ∨ incoming.order_type = OrderType.Market) ∧
          ∃ maker ∈ ladderOrders asks,
            maker.id = t.sell_order_id ∧ maker.price = t.price := by
  intro fuel
  induction fuel with
  | zero =>
    intro asks remaining r asks' hwf h
    simp [matchLoopAsks] at h
    obtain ⟨h1, h2⟩ := h
    subst h1
    subst h2
    refine ⟨hwf, fun o hoo => ⟨o, hoo, rfl, rfl⟩,
      fun l' hl' => ⟨l', hl', rfl⟩,
      fun l' hl' => ⟨l', hl', le_refl _⟩,
      [], rfl, by simp [sumQ], by simp⟩
  | succ fuel ih =>
    intro asks remaining r asks' hwf h
    by_cases hrem : remaining > 0
    · cases asks with
      | nil =>
        simp [matchLoopAsks, hrem] at h
        obtain ⟨h1, h2⟩ := h
        subst h1
        subst h2
        exact ⟨hwf, fun o hoo => ⟨o, hoo, rfl, rfl⟩,
          fun l' hl' => ⟨l', hl', rfl⟩,
          fun l' hl' => ⟨l', hl', le_refl _⟩,
          [], rfl, by simp [sumQ], by simp⟩
      | cons level ls0 =>
        simp only [matchLoopAsks, if_pos hrem, List.head?_cons] at h
        by_cases hguard : incoming.price ≥ level.price ∨
            incoming.order_type = OrderType.Market
        · rw [if_pos hguard] at h
          cases hm : matchLevelAsk (level :: ls0) level.price incoming remaining with
          | mk res asks1 =>
            rw [hm] at h
            cases res with
            | error e =>
              exact absurd (matchLevelAsk_head_error hm).1
                ((hwf.2 level (by simp)).nonempty)
            | ok trade =>
              simp only at h
              cases hrec : matchLoopAsks incoming fuel asks1
                  (remaining - trade.quantity) with
              | mk res2 asks2 =>
                rw [hrec] at h
                have hwf1 : LadderWF asks1 := matchLevelAsk_head_wf hwf hm
                obtain ⟨hwf2, hcorr2, hlev2, hbest2, ts2, hts2, hsum2, htr2⟩ :=
                  ih asks1 (remaining - trade.quantity) res2 asks2 hwf1 hrec
                subst hts2
                simp only [Prod.mk.injEq] at h
                obtain ⟨h1, h2⟩ := h
                subst h1
                subst h2
                have hcorr1 := matchLevelAsk_head_orders hm
                have hlev1 := matchLevelAsk_head_levels hm
                have hbest1 := matchLevelAsk_head_bestMono hwf.1 hm
                have htrade := matchLevelAsk_head_trade
                  (hwf.2 level (by simp)) hm
                have htq : trade.quantity ≤ remaining := by
                  obtain ⟨resting, rest, ho, ht, hcase⟩ := matchLevelAsk_head_ok hm
                  rw [ht]
                  exact min_le_left _ _
                refine ⟨hwf2, ?_, ?_, ?_, trade :: ts2, rfl, ?_, ?_⟩
                · intro o hoo
                  obtain ⟨o₁, ho₁, hid, hpr⟩ := hcorr2 o hoo
                  obtain ⟨o₀, ho₀, hid0, hpr0⟩ := hcorr1 o₁ ho₁
                  exact ⟨o₀, ho₀, hid0.trans hid, hpr0.trans hpr⟩
                · intro l' hl'
                  obtain ⟨l₁, hl₁, hp⟩ := hlev2 l' hl'
                  obtain ⟨l₀, hl₀, hp0⟩ := hlev1 l₁ hl₁
                  exact ⟨l₀, hl₀, hp.trans hp0⟩
                · intro l' hl'
                  obtain ⟨l₁, hl₁, hle⟩ := hbest2 l' hl'
                  exact ⟨level, rfl, le_trans (hbest1 l₁ hl₁) hle⟩
                · rw [sumQ_cons]
                  omega
                · intro t ht
                  rcases List.mem_cons.mp ht with ht | ht
                  · subst ht
                    obtain ⟨hbid, maker, hmm, hmid, hmpr, hpl⟩ := htrade
                    refine ⟨hbid, ?_, maker, hmm, hmid, hmpr⟩
                    rcases hguard with hg | hg
                    · exact Or.inl (by rw [hpl]; exact hg)
                    · exact Or.inr hg
                  · obtain ⟨hbid, hbound, maker, hmm, hmid, hmpr⟩ := htr2 t ht
                    obtain ⟨maker₀, hm₀, hid0, hpr0⟩ := hcorr1 maker hmm
                    exact ⟨hbid, hbound, maker₀, hm₀, hid0.trans hmid,
                      hpr0.trans hmpr⟩
        · rw [if_neg hguard] at h
          simp only [Prod.mk.injEq] at h
          obtain ⟨h1, h2⟩ := h
          subst h1
          subst h2
          exact ⟨hwf, fun o hoo => ⟨o, hoo, rfl, rfl⟩,
            fun l' hl' => ⟨l', hl', rfl⟩,
            fun l' hl' => ⟨l', hl', le_refl _⟩,
            [], rfl, by simp [sumQ], by simp⟩
    · simp [matchLoopAsks, hrem] at h
      obtain ⟨h1, h2⟩ := h
      subst h1
      subst h2
      exact ⟨hwf, fun o hoo => ⟨o, hoo, rfl, rfl⟩,
        fun l' hl' => ⟨l', hl', rfl⟩,
        fun l' hl' => ⟨l', hl', le_refl _⟩,
        [], rfl, by simp [sumQ], by simp⟩

theorem matchLevelAsk_head_avail {level : PriceLevel} {ls : List PriceLevel}
    {incoming : Order} {maxq p : Nat} {t : Trade} {asks' : List PriceLevel}
    (hlevel : LevelWF level) (hple : level.price ≤ p)
    (h : matchLevelAsk (level :: ls) level.price incoming maxq =
      (Except.ok t, asks')) :
    availAsks asks' p + t.quantity = availAsks (level :: ls) p := by
  obtain ⟨resting, rest, ho, ht, hcase⟩ := matchLevelAsk_head_ok h
  have hqty : level.total_quantity = resting.remaining_quantity + sumRem rest := by
    have := hlevel.qty
    rw [ho] at this
    simpa [sumRem_cons] using this
  have htq_le : t.quantity ≤ resting.remaining_quantity := by
    rw [ht]; exact min_le_right _ _
  have hbase : availAsks (level :: ls) p =
      level.total_quantity + availAsks ls p := by
    simp [availAsks, List.filter_cons, hple]
  rcases hcase with ⟨hq, hrest, ha⟩ | ⟨hq, hrest, ha⟩ | ⟨hq, hquant, ha⟩
  · subst ha
    rw [hbase]
    subst hrest
    simp [sumRem] at hqty
    omega
  · subst ha
    rw [hbase]
    have : availAsks ({ level with
        total_quantity := level.total_quantity - t.quantity,
        orders := rest } :: ls) p =
        (level.total_quantity - t.quantity) + availAsks ls p := by
      simp [availAsks, List.filter_cons, hple]
    rw [this]
    omega
  · subst ha
    rw [hbase]
    have : availAsks ({ level with
        total_quantity := level.total_quantity - t.quantity,
        orders := { resting with
          remaining_quantity := resting.remaining_quantity - t.quantity }
          :: rest } :: ls) p =
        (level.total_quantity - t.quantity) + availAsks ls p := by
      simp [availAsks, List.filter_cons, hple]
    rw [this]
    omega

theorem matchLoopAsks_fuelPost (incoming : Order) :
    ∀ (fuel : Nat) (asks : List PriceLevel) (remaining : Nat)
      (ts : List Trade) (asks' : List PriceLevel),
      incoming.order_type ≠ OrderType.Market →
      LadderWF asks →
      ordersCountLs asks + remaining ≤ fuel →
      matchLoopAsks incoming fuel asks remaining = (Except.ok ts, asks') →
      availAsks asks' incoming.price + sumQ ts =
        availAsks asks incoming.price ∧
      (sumQ ts = remaining ∨ asks' = [] ∨
        ∃ l, asks'.head? = some l ∧ incoming.price < l.price) := by
  intro fuel
  induction fuel with
  | zero =>
    intro asks remaining ts asks' hmkt hwf hfuel h
    simp [matchLoopAsks] at h
    obtain ⟨h1, h2⟩ := h
    subst h1
    subst h2
    have : remaining = 0 := by omega
    simp [sumQ, this]
  | succ fuel ih =>
    intro asks remaining ts asks' hmkt hwf hfuel h
    by_cases hrem : remaining > 0
    · cases asks with
      | nil =>
        simp [matchLoopAsks, hrem] at h
        obtain ⟨h1, h2⟩ := h
        subst h1
        subst h2
        simp [sumQ]
      | cons level ls0 =>
        simp only [matchLoopAsks, if_pos hrem, List.head?_cons] at h
        by_cases hguard : incoming.price ≥ level.price ∨
            incoming.order_type = OrderType.Market
        · rw [if_pos hguard] at h
          have hple : level.price ≤ incoming.price := by
            rcases hguard with hg | hg
            · exact hg
            · exact absurd hg hmkt
          cases hm : matchLevelAsk (level :: ls0) level.price incoming remaining with
          | mk res asks1 =>
            rw [hm] at h
            cases res with
            | error e =>
              exact absurd (matchLevelAsk_head_error hm).1
                ((hwf.2 level (by simp)).nonempty)
            | ok trade =>
              simp only at h
              cases hrec : matchLoopAsks incoming fuel asks1
                  (remaining - trade.quantity) with
              | mk res2 asks2 =>
                rw [hrec] at h
                cases res2 with
                | error e =>
                  simp at h
                | ok ts2 =>
                  simp only [Prod.mk.injEq] at h
                  obtain ⟨h1, h2⟩ := h
                  injection h1 with hts
                  subst hts
                  subst h2
                  have hwf1 : LadderWF asks1 := matchLevelAsk_head_wf hwf hm
                  have hmeas := matchLevelAsk_measure hrem hm
                  have hfuel1 : ordersCountLs asks1 +
                      (remaining - trade.quantity) ≤ fuel := by omega
                  obtain ⟨havail2, hpost2⟩ := ih asks1
                    (remaining - trade.quantity) ts2 asks2 hmkt hwf1 hfuel1 hrec
                  have havail1 := matchLevelAsk_head_avail
                    (hwf.2 level (by simp)) hple hm
                  have htq : trade.quantity ≤ remaining := by
                    obtain ⟨resting, rest, ho, ht, hcase⟩ :=
                      matchLevelAsk_head_ok hm
                    rw [ht]
                    exact min_le_left _ _
                  constructor
                  · rw [sumQ_cons]
                    omega
                  · rcases hpost2 with hs | he | hl
                    · left
                      rw [sumQ_cons]
                      omega
                    · right; left; exact he
                    · right; right; exact hl
        · rw [if_neg hguard] at h
          simp only [Prod.mk.injEq] at h
          obtain ⟨h1, h2⟩ := h
          injection h1 with hts
          subst hts
          subst h2
          push_neg at hguard
          refine ⟨by simp [sumQ], Or.inr (Or.inr ⟨level, rfl, hguard.1⟩)⟩
    · simp [matchLoopAsks, hrem] at h
      obtain ⟨h1, h2⟩ := h
      subst h1
      subst h2
      have : remaining = 0 := by omega
      simp [sumQ, this]

theorem ladderGet_last {init : List PriceLevel} {level : PriceLevel}
    (hs : ladderSorted (init ++ [level])) :
    ladderGet (init ++ [level]) level.price = some level := by
  induction init with
  | nil => simp [ladderGet]
  | cons a as ihi =>
    have ha : a.price < level.price :=
      (List.pairwise_cons.mp hs).1 level (by simp)
    have hs' : ladderSorted (as ++ [level]) := (List.pairwise_cons.mp hs).2
    simp [ladderGet, Nat.ne_of_lt ha, ihi hs']

theorem ladderSet_last {init : List PriceLevel} {level l' : PriceLevel}
    (hs : ladderSorted (init ++ [level])) :
    ladderSet (init ++ [level]) level.price l' = init ++ [l'] := by
  induction init with
  | nil => simp [ladderSet]
  | cons a as ihi =>
    have ha : a.price < level.price :=
      (List.pairwise_cons.mp hs).1 level (by simp)
    have hs' : ladderSorted (as ++ [level]) := (List.pairwise_cons.mp hs).2
    simp [ladderSet, Nat.ne_of_lt ha, ihi hs']

theorem ladderRemoveLevel_last {init : List PriceLevel} {level : PriceLevel}
    (hs : ladderSorted (init ++ [level])) :
    ladderRemoveLevel (init ++ [level]) level.price = init := by
  induction init with
  | nil => simp [ladderRemoveLevel]
  | cons a as ihi =>
    have ha : a.price < level.price :=
      (List.pairwise_cons.mp hs).1 level (by simp)
    have hs' : ladderSorted (as ++ [level]) := (List.pairwise_cons.mp hs).2
    simp [ladderRemoveLevel, Nat.ne_of_lt ha, ihi hs']

theorem matchLevelBid_last_ok {init : List PriceLevel} {level : PriceLevel}
    {incoming : Order} {maxq : Nat} {t : Trade} {bids' : List PriceLevel}
    (hs : ladderSorted (init ++ [level]))
    (h : matchLevelBid (init ++ [level]) level.price incoming maxq =
      (Except.ok t, bids')) :
    ∃ resting rest, level.orders = resting :: rest ∧
      t = { buy_order_id := resting.id, sell_order_id := incoming.id,
            price := resting.price,
            quantity := min maxq resting.remaining_quantity } ∧
      ((resting.remaining_quantity = t.quantity ∧ rest = [] ∧ bids' = init) ∨
       (resting.remaining_quantity = t.quantity ∧ rest ≠ [] ∧
         bids' = init ++ [{ level with
                    total_quantity := level.total_quantity - t.quantity,
                    orders := rest }]) ∨
       (resting.remaining_quantity ≠ t.quantity ∧ t.quantity = maxq ∧
         bids' = init ++ [{ level with
                    total_quantity := level.total_quantity - t.quantity,
                    orders := { resting with
                      remaining_quantity :=
                        resting.remaining_quantity - t.quantity } :: rest }])) := by
  have hget := ladderGet_last hs
  cases horders : level.orders with
  | nil =>
    simp [matchLevelBid, hget, horders] at h
  | cons resting rest =>
    refine ⟨resting, rest, rfl, ?_⟩
    simp [matchLevelBid, hget, horders, Trade.new] at h
    by_cases hfill : resting.remaining_quantity ≤ maxq
    · have hmin : maxq ⊓ resting.remaining_quantity = resting.remaining_quantity :=
        inf_eq_right.mpr hfill
      rw [if_pos hfill] at h
      cases hrest : rest with
      | nil =>
        subst hrest
        rw [ladderRemoveLevel_last hs] at h
        simp at h
        obtain ⟨ht, hbids⟩ := h
        subst ht
        exact ⟨rfl, Or.inl ⟨hmin.symm, rfl, hbids.symm⟩⟩
      | cons r0 rs =>
        subst hrest
        rw [ladderSet_last hs] at h
        simp at h
        obtain ⟨ht, hbids⟩ := h
        subst ht
        exact ⟨rfl, Or.inr (Or.inl ⟨hmin.symm, by simp, hbids.symm⟩)⟩
    · have hlt : maxq < resting.remaining_quantity := lt_of_not_le hfill
      have hmin : maxq ⊓ resting.remaining_quantity = maxq :=
        inf_eq_left.mpr (le_of_lt hlt)
      rw [if_neg hfill] at h
      rw [ladderSet_last hs] at h
      simp at h
      obtain ⟨ht, hbids⟩ := h
      subst ht
      refine ⟨rfl, Or.inr (Or.inr ⟨by rw [hmin]; exact ne_of_gt hlt, hmin,
        hbids.symm⟩)⟩

theorem matchLevelBid_last_error {init : List PriceLevel} {level : PriceLevel}
    {incoming : Order} {maxq : Nat} {e : OrderBookError}
    {bids' : List PriceLevel}
    (hs : ladderSorted (init ++ [level]))
    (h : matchLevelBid (init ++ [level]) level.price incoming maxq =
      (Except.error e, bids')) :
    level.orders = [] ∧ bids' = init ++ [level] := by
  have hget := ladderGet_last hs
  cases horders : level.orders with
  | nil =>
    simp [matchLevelBid, hget, horders] at h
    exact ⟨rfl, h.2.symm⟩
  | cons r rest =>
    simp [matchLevelBid, hget, horders, Trade.new] at h
    by_cases hfill : r.remaining_quantity ≤ maxq
    · rw [if_pos hfill] at h
      split at h <;> simp at h
    · rw [if_neg hfill] at h
      split at h <;> simp at h

theorem ladderOrders_append (a b : List PriceLevel) :
    ladderOrders (a ++ b) = ladderOrders a ++ ladderOrders b := by
  simp [ladderOrders]

theorem matchLevelBid_measure {init : List PriceLevel} {level : PriceLevel}
    {incoming : Order} {remaining : Nat} {t : Trade} {bids' : List PriceLevel}
    (hs : ladderSorted (init ++ [level])) (hrem : 0 < remaining)
    (h : matchLevelBid (init ++ [level]) level.price incoming remaining =
      (Except.ok t, bids')) :
    ordersCountLs bids' + (remaining - t.quantity) <
      ordersCountLs (init ++ [level]) + remaining := by
  obtain ⟨resting, rest, ho, ht, hcase⟩ := matchLevelBid_last_ok hs h
  have htq : t.quantity ≤ remaining := by rw [ht]; exact min_le_left _ _
  have hcnt : ordersCountLs (init ++ [level]) =
      ordersCountLs init + level.orders.length := by
    simp [ordersCountLs]
  rcases hcase with ⟨hq, hrest, ha⟩ | ⟨hq, hrest, ha⟩ | ⟨hq, hquant, ha⟩
  · subst ha
    rw [hcnt, ho, hrest]
    simp
    omega
  · subst ha
    rw [hcnt, ho]
    simp [ordersCountLs]
    omega
  · subst ha
    rw [hcnt, ho]
    simp [ordersCountLs]
    omega

theorem matchLevelBid_last_wf {init : List PriceLevel} {level : PriceLevel}
    {incoming : Order} {maxq : Nat} {t : Trade} {bids' : List PriceLevel}
    (hwf : LadderWF (init ++ [level]))
    (h : matchLevelBid (init ++ [level]) level.price incoming maxq =
      (Except.ok t, bids')) :
    LadderWF bids' := by
  obtain ⟨hsorted, hlv⟩ := hwf
  obtain ⟨resting, rest, ho, ht, hcase⟩ := matchLevelBid_last_ok hsorted h
  have hlevel : LevelWF level := hlv level (by simp)
  obtain ⟨hsinit, _, hrel⟩ := List.pairwise_append.mp hsorted
  have hlvinit : ∀ l ∈ init, LevelWF l := fun l hl => hlv l (by simp [hl])
  have hqty : level.total_quantity = resting.remaining_quantity + sumRem rest := by
    have := hlevel.qty
    rw [ho] at this
    simpa [sumRem_cons] using this
  have htq_le : t.quantity ≤ resting.remaining_quantity := by
    rw [ht]; exact min_le_right _ _
  rcases hcase with ⟨hq, hrest, ha⟩ | ⟨hq, hrest, ha⟩ | ⟨hq, hquant, ha⟩
  · subst ha
    exact ⟨hsinit, hlvinit⟩
  · subst ha
    refine ⟨List.pairwise_append.mpr ⟨hsinit, List.pairwise_singleton _ _,
      fun a ha lb hlb => by
        rcases List.mem_singleton.mp hlb with rfl
        exact hrel a ha level (by simp)⟩, ?_⟩
    intro l hl
    rcases List.mem_append.mp hl with hl | hl
    · exact hlvinit l hl
    · rcases List.mem_singleton.mp hl with rfl
      refine ⟨?_, ?_, ?_, ?_⟩
      · show level.total_quantity - t.quantity = sumRem rest
        omega
      · intro o hoo
        exact hlevel.prices o (by rw [ho]; exact List.mem_cons_of_mem _ hoo)
      · simpa using hrest
      · intro o hoo
        exact hlevel.pos o (by rw [ho]; exact List.mem_cons_of_mem _ hoo)
  · subst ha
    refine ⟨List.pairwise_append.mpr ⟨hsinit, List.pairwise_singleton _ _,
      fun a ha lb hlb => by
        rcases List.mem_singleton.mp hlb with rfl
        exact hrel a ha level (by simp)⟩, ?_⟩
    intro l hl
    rcases List.mem_append.mp hl with hl | hl
    · exact hlvinit l hl
    · rcases List.mem_singleton.mp hl with rfl
      have hlt : t.quantity < resting.remaining_quantity :=
        Nat.lt_of_le_of_ne htq_le (fun hh => hq hh.symm)
      refine ⟨?_, ?_, ?_, ?_⟩
      · show level.total_quantity - t.quantity =
          sumRem ({ resting with
            remaining_quantity := resting.remaining_quantity - t.quantity } :: rest)
        rw [sumRem_cons]
        simp only
        omega
      · intro o hoo
        rcases List.mem_cons.mp hoo with hoo | hoo
        · subst hoo
          show resting.price = level.price
          exact hlevel.prices resting (by rw [ho]; exact List.mem_cons_self _ _)
        · exact hlevel.prices o (by rw [ho]; exact List.mem_cons_of_mem _ hoo)
      · simp
      · intro o hoo
        rcases List.mem_cons.mp hoo with hoo | hoo
        · subst hoo
          show 0 < resting.remaining_quantity - t.quantity
          omega
        · exact hlevel.pos o (by rw [ho]; exact List.mem_cons_of_mem _ hoo)

theorem matchLevelBid_last_orders {init : List PriceLevel} {level : PriceLevel}
    {incoming : Order} {maxq : Nat} {t : Trade} {bids' : List PriceLevel}
    (hs : ladderSorted (init ++ [level]))
    (h : matchLevelBid (init ++ [level]) level.price incoming maxq =
      (Except.ok t, bids')) :
    ∀ o ∈ ladderOrders bids', ∃ o₀ ∈ ladderOrders (init ++ [level]),
      o₀.id = o.id ∧ o₀.price = o.price := by
  obtain ⟨resting, rest, ho, ht, hcase⟩ := matchLevelBid_last_ok hs h
  intro o hoo
  rcases hcase with ⟨hq, hrest, ha⟩ | ⟨hq, hrest, ha⟩ | ⟨hq, hquant, ha⟩
  · subst ha
    exact ⟨o, by rw [ladderOrders_append]; exact List.mem_append_left _ hoo,
      rfl, rfl⟩
  · subst ha
    rw [ladderOrders_append] at hoo
    rcases List.mem_append.mp hoo with hoo | hoo
    · exact ⟨o, by rw [ladderOrders_append]; exact List.mem_append_left _ hoo,
        rfl, rfl⟩
    · simp [ladderOrders] at hoo
      exact ⟨o, by rw [ladderOrders_append]
                   refine List.mem_append_right _ ?_
                   simp [ladderOrders, ho]
                   exact Or.inr hoo,
        rfl, rfl⟩
  · subst ha
    rw [ladderOrders_append] at hoo
    rcases List.mem_append.mp hoo with hoo | hoo
    · exact ⟨o, by rw [ladderOrders_append]; exact List.mem_append_left _ hoo,
        rfl, rfl⟩
    · simp [ladderOrders] at hoo
      rcases hoo with hoo | hoo
      · subst hoo
        exact ⟨resting, by rw [ladderOrders_append]
                           refine List.mem_append_right _ ?_
                           simp [ladderOrders, ho],
          rfl, rfl⟩
      · exact ⟨o, by rw [ladderOrders_append]
                     refine List.mem_append_right _ ?_
                     simp [ladderOrders, ho]
                     exact Or.inr hoo,
          rfl, rfl⟩

theorem matchLevelBid_last_levels {init : List PriceLevel} {level : PriceLevel}
    {incoming : Order} {maxq : Nat} {t : Trade} {bids' : List PriceLevel}
    (hs : ladderSorted (init ++ [level]))
    (h : matchLevelBid (init ++ [level]) level.price incoming maxq =
      (Except.ok t, bids')) :
    ∀ l' ∈ bids', ∃ l ∈ init ++ [level], l'.price = l.price := by
  obtain ⟨resting, rest, ho, ht, hcase⟩ := matchLevelBid_last_ok hs h
  intro l' hl'
  rcases hcase with ⟨hq, hrest, ha⟩ | ⟨hq, hrest, ha⟩ | ⟨hq, hquant, ha⟩
  · subst ha
    exact ⟨l', List.mem_append_left _ hl', rfl⟩
  · subst ha
    rcases List.mem_append.mp hl' with hl' | hl'
    · exact ⟨l', List.mem_append_left _ hl', rfl⟩
    · rcases List.mem_singleton.mp hl' with rfl
      exact ⟨level, by simp, rfl⟩
  · subst ha
    rcases List.mem_append.mp hl' with hl' | hl'
    · exact ⟨l', List.mem_append_left _ hl', rfl⟩
    · rcases List.mem_singleton.mp hl' with rfl
      exact ⟨level, by simp, rfl⟩

theorem matchLevelBid_last_trade {init : List PriceLevel} {level : PriceLevel}
    {incoming : Order} {maxq : Nat} {t : Trade} {bids' : List PriceLevel}
    (hs : ladderSorted (init ++ [level])) (hlevel : LevelWF level)
    (h : matchLevelBid (init ++ [level]) level.price incoming maxq =
      (Except.ok t, bids')) :
    t.sell_order_id = incoming.id ∧
    ∃ maker ∈ ladderOrders (init ++ [level]),
      maker.id = t.buy_order_id ∧ maker.price = t.price ∧
      t.price = level.price := by
  obtain ⟨resting, rest, ho, ht, hcase⟩ := matchLevelBid_last_ok hs h
  have hmem : resting ∈ ladderOrders (init ++ [level]) := by
    rw [ladderOrders_append]
    refine List.mem_append_right _ ?_
    simp [ladderOrders, ho]
  have hrp : resting.price = level.price :=
    hlevel.prices resting (by rw [ho]; exact List.mem_cons_self _ _)
  subst ht
  exact ⟨rfl, resting, hmem, rfl, rfl, hrp⟩

theorem matchLevelBid_last_avail {init : List PriceLevel} {level : PriceLevel}
    {incoming : Order} {maxq p : Nat} {t : Trade} {bids' : List PriceLevel}
    (hs : ladderSorted (init ++ [level])) (hlevel : LevelWF level)
    (hple : p ≤ level.price)
    (h : matchLevelBid (init ++ [level]) level.price incoming maxq =
      (Except.ok t, bids')) :
    availBids bids' p + t.quantity = availBids (init ++ [level]) p := by
  obtain ⟨resting, rest, ho, ht, hcase⟩ := matchLevelBid_last_ok hs h
  have hqty : level.total_quantity = resting.remaining_quantity + sumRem rest := by
    have := hlevel.qty
    rw [ho] at this
    simpa [sumRem_cons] using this
  have htq_le : t.quantity ≤ resting.remaining_quantity := by
    rw [ht]; exact min_le_right _ _
  have hbase : availBids (init ++ [level]) p =
      availBids init p + level.total_quantity := by
    simp [availBids, List.filter_append, hple]
  rcases hcase with ⟨hq, hrest, ha⟩ | ⟨hq, hrest, ha⟩ | ⟨hq, hquant, ha⟩
  · subst ha
    rw [hbase]
    subst hrest
    simp [sumRem] at hqty
    omega
  · subst ha
    rw [hbase]
    have : availBids (init ++ [{ level with
        total_quantity := level.total_quantity - t.quantity,
        orders := rest }]) p =
        availBids init p + (level.total_quantity - t.quantity) := by
      simp [availBids, List.filter_append, hple]
    rw [this]
    omega
  · subst ha
    rw [hbase]
    have : availBids (init ++ [{ level with
        total_quantity := level.total_quantity - t.quantity,
        orders := { resting with
          remaining_quantity := resting.remaining_quantity - t.quantity }
          :: rest }]) p =
        availBids init p + (level.total_quantity - t.quantity) := by
      simp [availBids, List.filter_append, hple]
    rw [this]
    omega

theorem matchLoopBids_main (incoming : Order) :
    ∀ (fuel : Nat) (bids : List PriceLevel) (remaining : Nat)
      (r : Except OrderBookError (List Trade)) (bids' : List PriceLevel),
      LadderWF bids →
      matchLoopBids incoming fuel bids remaining = (r, bids') →
      LadderWF bids' ∧
      (∀ o ∈ ladderOrders bids', ∃ o₀ ∈ ladderOrders bids,
        o₀.id = o.id ∧ o₀.price = o.price) ∧
      (∀ l' ∈ bids', ∃ l ∈ bids, l'.price = l.price) ∧
      ∃ ts, r = Except.ok ts ∧ sumQ ts ≤ remaining ∧
        ∀ t ∈ ts, t.sell_order_id = incoming.id ∧
          (incoming.price ≤ t.price ∨ incoming.order_type = OrderType.Market) ∧
          ∃ maker ∈ ladderOrders bids,
            maker.id = t.buy_order_id ∧ maker.price = t.price := by
  intro fuel
  induction fuel with
  | zero =>
    intro bids remaining r bids' hwf h
    simp [matchLoopBids] at h
    obtain ⟨h1, h2⟩ := h
    subst h1
    subst h2
    exact ⟨hwf, fun o hoo => ⟨o, hoo, rfl, rfl⟩,
      fun l' hl' => ⟨l', hl', rfl⟩,
      [], rfl, by simp [sumQ], by simp⟩
  | succ fuel ih =>
    intro bids remaining r bids' hwf h
    by_cases hrem : remaining > 0
    · cases hlast : bids.getLast? with
      | none =>
        rw [List.getLast?_eq_none_iff.mp hlast] at h hwf ⊢
        simp [matchLoopBids, hrem] at h
        obtain ⟨h1, h2⟩ := h
        subst h1
        subst h2
        exact ⟨hwf, fun o hoo => ⟨o, hoo, rfl, rfl⟩,
          fun l' hl' => ⟨l', hl', rfl⟩,
          [], rfl, by simp [sumQ], by simp⟩
      | some level =>
        obtain ⟨init, rfl⟩ := List.getLast?_eq_some_iff.mp hlast
        simp only [matchLoopBids, if_pos hrem, hlast] at h
        by_cases hguard : incoming.price ≤ level.price ∨
            incoming.order_type = OrderType.Market
        · rw [if_pos hguard] at h
          cases hm : matchLevelBid (init ++ [level]) level.price incoming
              remaining with
          | mk res bids1 =>
            rw [hm] at h
            cases res with
            | error e =>
              exact absurd (matchLevelBid_last_error hwf.1 hm).1
                ((hwf.2 level (by simp)).nonempty)
            | ok trade =>
              simp only at h
              cases hrec : matchLoopBids incoming fuel bids1
                  (remaining - trade.quantity) with
              | mk res2 bids2 =>
                rw [hrec] at h
                have hwf1 : LadderWF bids1 := matchLevelBid_last_wf hwf hm
                obtain ⟨hwf2, hcorr2, hlev2, ts2, hts2, hsum2, htr2⟩ :=
                  ih bids1 (remaining - trade.quantity) res2 bids2 hwf1 hrec
                subst hts2
                simp only [Prod.mk.injEq] at h
                obtain ⟨h1, h2⟩ := h
                subst h1
                subst h2
                have hcorr1 := matchLevelBid_last_orders hwf.1 hm
                have hlev1 := matchLevelBid_last_levels hwf.1 hm
                have htrade := matchLevelBid_last_trade hwf.1
                  (hwf.2 level (by simp)) hm
                have htq : trade.quantity ≤ remaining := by
                  obtain ⟨resting, rest, ho, ht, hcase⟩ :=
                    matchLevelBid_last_ok hwf.1 hm
                  rw [ht]
                  exact min_le_left _ _
                refine ⟨hwf2, ?_, ?_, trade :: ts2, rfl, ?_, ?_⟩
                · intro o hoo
                  obtain ⟨o₁, ho₁, hid, hpr⟩ := hcorr2 o hoo
                  obtain ⟨o₀, ho₀, hid0, hpr0⟩ := hcorr1 o₁ ho₁
                  exact ⟨o₀, ho₀, hid0.trans hid, hpr0.trans hpr⟩
                · intro l' hl'
                  obtain ⟨l₁, hl₁, hp⟩ := hlev2 l' hl'
                  obtain ⟨l₀, hl₀, hp0⟩ := hlev1 l₁ hl₁
                  exact ⟨l₀, hl₀, hp.trans hp0⟩
                · rw [sumQ_cons]
                  omega
                · intro t ht
                  rcases List.mem_cons.mp ht with ht | ht
                  · subst ht
                    obtain ⟨hsid, maker, hmm, hmid, hmpr, hpl⟩ := htrade
                    refine ⟨hsid, ?_, maker, hmm, hmid, hmpr⟩
                    rcases hguard with hg | hg
                    · exact Or.inl (by rw [hpl]; exact hg)
                    · exact Or.inr hg
                  · obtain ⟨hsid, hbound, maker, hmm, hmid, hmpr⟩ := htr2 t ht
                    obtain ⟨maker₀, hm₀, hid0, hpr0⟩ := hcorr1 maker hmm
                    exact ⟨hsid, hbound, maker₀, hm₀, hid0.trans hmid,
                      hpr0.trans hmpr⟩
        · rw [if_neg hguard] at h
          simp only [Prod.mk.injEq] at h
          obtain ⟨h1, h2⟩ := h
          subst h1
          subst h2
          exact ⟨hwf, fun o hoo => ⟨o, hoo, rfl, rfl⟩,
            fun l' hl' => ⟨l', hl', rfl⟩,
            [], rfl, by simp [sumQ], by simp⟩
    · simp [matchLoopBids, hrem] at h
      obtain ⟨h1, h2⟩ := h
      subst h1
      subst h2
      exact ⟨hwf, fun o hoo => ⟨o, hoo, rfl, rfl⟩,
        fun l' hl' => ⟨l', hl', rfl⟩,
        [], rfl, by simp [sumQ], by simp⟩

theorem matchLoopBids_fuelPost (incoming : Order) :
    ∀ (fuel : Nat) (bids : List PriceLevel) (remaining : Nat)
      (ts : List Trade) (bids' : List PriceLevel),
      incoming.order_type ≠ OrderType.Market →
      LadderWF bids →
      ordersCountLs bids + remaining ≤ fuel →
      matchLoopBids incoming fuel bids remaining = (Except.ok ts, bids') →
      availBids bids' incoming.price + sumQ ts =
        availBids bids incoming.price ∧
      (sumQ ts = remaining ∨ bids' = [] ∨
        ∃ l, bids'.getLast? = some l ∧ l.price < incoming.price) := by
  intro fuel
  induction fuel with
  | zero =>
    intro bids remaining ts bids' hmkt hwf hfuel h
    simp [matchLoopBids] at h
    obtain ⟨h1, h2⟩ := h
    subst h1
    subst h2
    have : remaining = 0 := by omega
    simp [sumQ, this]
  | succ fuel ih =>
    intro bids remaining ts bids' hmkt hwf hfuel h
    by_cases hrem : remaining > 0
    · cases hlast : bids.getLast? with
      | none =>
        rw [List.getLast?_eq_none_iff.mp hlast] at h hwf hfuel ⊢
        simp [matchLoopBids, hrem] at h
        obtain ⟨h1, h2⟩ := h
        subst h1
        subst h2
        simp [sumQ]
      | some level =>
        obtain ⟨init, rfl⟩ := List.getLast?_eq_some_iff.mp hlast
        simp only [matchLoopBids, if_pos hrem, hlast] at h
        by_cases hguard : incoming.price ≤ level.price ∨
            incoming.order_type = OrderType.Market
        · rw [if_pos hguard] at h
          have hple : incoming.price ≤ level.price := by
            rcases hguard with hg | hg
            · exact hg
            · exact absurd hg hmkt
          cases hm : matchLevelBid (init ++ [level]) level.price incoming
              remaining with
          | mk res bids1 =>
            rw [hm] at h
            cases res with
            | error e =>
              exact absurd (matchLevelBid_last_error hwf.1 hm).1
                ((hwf.2 level (by simp)).nonempty)
            | ok trade =>
              simp only at h
              cases hrec : matchLoopBids incoming fuel bids1
                  (remaining - trade.quantity) with
              | mk res2 bids2 =>
                rw [hrec] at h
                cases res2 with
                | error e =>
                  simp at h
                | ok ts2 =>
                  simp only [Prod.mk.injEq] at h
                  obtain ⟨h1, h2⟩ := h
                  injection h1 with hts
                  subst hts
                  subst h2
                  have hwf1 : LadderWF bids1 := matchLevelBid_last_wf hwf hm
                  have hmeas := matchLevelBid_measure hwf.1 hrem hm
                  have hfuel1 : ordersCountLs bids1 +
                      (remaining - trade.quantity) ≤ fuel := by omega
                  obtain ⟨havail2, hpost2⟩ := ih bids1
                    (remaining - trade.quantity) ts2 bids2 hmkt hwf1 hfuel1 hrec
                  have havail1 := matchLevelBid_last_avail hwf.1
                    (hwf.2 level (by simp)) hple hm
                  have htq : trade.quantity ≤ remaining := by
                    obtain ⟨resting, rest, ho, ht, hcase⟩ :=
                      matchLevelBid_last_ok hwf.1 hm
                    rw [ht]
                    exact min_le_left _ _
                  constructor
                  · rw [sumQ_cons]
                    omega
                  · rcases hpost2 with hs | he | hl
                    · left
                      rw [sumQ_cons]
                      omega
                    · right; left; exact he
                    · right; right; exact hl
        · rw [if_neg hguard] at h
          simp only [Prod.mk.injEq] at h
          obtain ⟨h1, h2⟩ := h
          injection h1 with hts
          subst hts
          subst h2
          push_neg at hguard
          refine ⟨by simp [sumQ], Or.inr (Or.inr ⟨level, hlast, hguard.1⟩)⟩
    · simp [matchLoopBids, hrem] at h
      obtain ⟨h1, h2⟩ := h
      subst h1
      subst h2
      have : remaining = 0 := by omega
      simp [sumQ, this]

theorem matchLoopAsks_noCross (incoming : Order) (fuel : Nat)
    (asks : List PriceLevel) (remaining : Nat)
    (hmkt : incoming.order_type ≠ OrderType.Market)
    (hnc : ∀ l ∈ asks, incoming.price < l.price) :
    matchLoopAsks incoming fuel asks remaining = (Except.ok [], asks) := by
  cases fuel with
  | zero => simp [matchLoopAsks]
  | succ fuel =>
    by_cases hrem : remaining > 0
    · cases asks with
      | nil => simp [matchLoopAsks, hrem]
      | cons level ls =>
        have hng : ¬(incoming.price ≥ level.price ∨
            incoming.order_type = OrderType.Market) := by
          push_neg
          exact ⟨hnc level (by simp), hmkt⟩
        simp [matchLoopAsks, hrem, hng]
    · simp [matchLoopAsks, hrem]

theorem matchLoopBids_noCross (incoming : Order) (fuel : Nat)
    (bids : List PriceLevel) (remaining : Nat)
    (hmkt : incoming.order_type ≠ OrderType.Market)
    (hnc : ∀ l ∈ bids, l.price < incoming.price) :
    matchLoopBids incoming fuel bids remaining = (Except.ok [], bids) := by
  cases fuel with
  | zero => simp [matchLoopBids]
  | succ fuel =>
    by_cases hrem : remaining > 0
    · cases hlast : bids.getLast? with
      | none =>
        rw [List.getLast?_eq_none_iff.mp hlast]
        simp [matchLoopBids, hrem]
      | some level =>
        have hng : ¬(incoming.price ≤ level.price ∨
            incoming.order_type = OrderType.Market) := by
          push_neg
          exact ⟨hnc level ((by obtain ⟨init, rfl⟩ := List.getLast?_eq_some_iff.mp hlast; simp)), hmkt⟩
        simp [matchLoopBids, hrem, hlast, hng]
    · simp [matchLoopBids, hrem]

theorem ladderGet_mem {ls : List PriceLevel} {p : Nat} {l : PriceLevel}
    (h : ladderGet ls p = some l) : l ∈ ls ∧ l.price = p := by
  induction ls with
  | nil => simp [ladderGet] at h
  | cons a as iha =>
    by_cases hp : a.price = p
    · simp [ladderGet, hp] at h
      subst h
      exact ⟨by simp, hp⟩
    · simp [ladderGet, hp] at h
      obtain ⟨hm, hpr⟩ := iha h
      exact ⟨by simp [hm], hpr⟩

theorem ladderSet_mem {ls : List PriceLevel} {p : Nat} {lnew l' : PriceLevel}
    (h : l' ∈ ladderSet ls p lnew) : l' = lnew ∨ l' ∈ ls := by
  induction ls with
  | nil => simp [ladderSet] at h
  | cons a as iha =>
    by_cases hp : a.price = p
    · simp [ladderSet, hp] at h
      rcases h with h | h
      · exact Or.inl h
      · exact Or.inr (by simp [h])
    · simp [ladderSet, hp] at h
      rcases h with h | h
      · exact Or.inr (by simp [h])
      · rcases iha h with h | h
        · exact Or.inl h
        · exact Or.inr (by simp [h])

theorem ladderRemoveLevel_sublist (ls : List PriceLevel) (p : Nat) :
    (ladderRemoveLevel ls p).Sublist ls := by
  induction ls with
  | nil => simp [ladderRemoveLevel]
  | cons a as iha =>
    by_cases hp : a.price = p
    · simp [ladderRemoveLevel, hp]
    · simp [ladderRemoveLevel, hp]
      exact iha

theorem ladderSet_sorted {ls : List PriceLevel} {p : Nat} {l lnew : PriceLevel}
    (hs : ladderSorted ls) (hget : ladderGet ls p = some l)
    (hpr : lnew.price = l.price) : ladderSorted (ladderSet ls p lnew) := by
  induction ls with
  | nil => simp [ladderSet, ladderSorted]
  | cons a as iha =>
    obtain ⟨hrel, htail⟩ := List.pairwise_cons.mp hs
    by_cases hp : a.price = p
    · simp [ladderGet, hp] at hget
      subst hget
      simp [ladderSet, hp]
      exact List.pairwise_cons.mpr ⟨fun b hb => by rw [hpr]; exact hrel b hb,
        htail⟩
    · simp [ladderGet, hp] at hget
      simp [ladderSet, hp]
      refine List.pairwise_cons.mpr ⟨?_, iha htail hget⟩
      intro b hb
      rcases ladderSet_mem hb with hb | hb
      · subst hb
        rw [hpr]
        exact hrel l (ladderGet_mem hget).1
      · exact hrel b hb

theorem ladderAdd_mem {ls : List PriceLevel} {p : Nat} {o : Order}
    {l' : PriceLevel} (h : l' ∈ ladderAdd ls p o) :
    l'.price = p ∨ l' ∈ ls := by
  induction ls with
  | nil =>
    simp [ladderAdd] at h
    subst h
    exact Or.inl (by simp [PriceLevel.add_order, PriceLevel.new])
  | cons a as iha =>
    by_cases hlt : p < a.price
    · simp only [ladderAdd, if_pos hlt] at h
      rcases List.mem_cons.mp h with h | h
      · subst h
        exact Or.inl (by simp [PriceLevel.add_order, PriceLevel.new])
      · exact Or.inr h
    · by_cases heq : a.price = p
      · simp only [ladderAdd, if_neg hlt, if_pos heq] at h
        rcases List.mem_cons.mp h with h | h
        · subst h
          exact Or.inl (by simp [PriceLevel.add_order, heq])
        · exact Or.inr (by simp [h])
      · simp only [ladderAdd, if_neg hlt, if_neg heq] at h
        rcases List.mem_cons.mp h with h | h
        · exact Or.inr (by simp [h])
        · rcases iha h with h | h
          · exact Or.inl h
          · exact Or.inr (by simp [h])

theorem ladderAdd_sorted {ls : List PriceLevel} {p : Nat} {o : Order}
    (hs : ladderSorted ls) : ladderSorted (ladderAdd ls p o) := by
  induction ls with
  | nil => simp [ladderAdd, ladderSorted, PriceLevel.add_order, PriceLevel.new]
  | cons a as iha =>
    obtain ⟨hrel, htail⟩ := List.pairwise_cons.mp hs
    by_cases hlt : p < a.price
    · simp only [ladderAdd, if_pos hlt]
      refine List.pairwise_cons.mpr ⟨?_, hs⟩
      intro b hb
      show (PriceLevel.add_order (PriceLevel.new p) o).price < b.price
      have hpp : (PriceLevel.add_order (PriceLevel.new p) o).price = p := by
        simp [PriceLevel.add_order, PriceLevel.new]
      rw [hpp]
      rcases List.mem_cons.mp hb with hb | hb
      · subst hb; exact hlt
      · exact lt_trans hlt (hrel b hb)
    · by_cases heq : a.price = p
      · simp only [ladderAdd, if_neg hlt, if_pos heq]
        refine List.pairwise_cons.mpr ⟨?_, htail⟩
        intro b hb
        show (a.add_order o).price < b.price
        have : (a.add_order o).price = a.price := by simp [PriceLevel.add_order]
        rw [this]
        exact hrel b hb
      · simp only [ladderAdd, if_neg hlt, if_neg heq]
        refine List.pairwise_cons.mpr ⟨?_, iha htail⟩
        intro b hb
        rcases ladderAdd_mem hb with hb | hb
        · rw [hb]
          omega
        · exact hrel b hb

theorem ladderAdd_levelWF {ls : List PriceLevel} {p : Nat} {o : Order}
    (hlv : ∀ l ∈ ls, LevelWF l) (hq : 0 < o.remaining_quantity)
    (hp : o.price = p) : ∀ l ∈ ladderAdd ls p o, LevelWF l := by
  induction ls with
  | nil =>
    intro l hl
    simp [ladderAdd] at hl
    subst hl
    refine ⟨?_, ?_, ?_, ?_⟩
    · simp [PriceLevel.add_order, PriceLevel.new, sumRem]
    · intro x hx
      simp [PriceLevel.add_order, PriceLevel.new] at hx ⊢
      rw [hx, hp]
    · simp [PriceLevel.add_order, PriceLevel.new]
    · intro x hx
      simp [PriceLevel.add_order, PriceLevel.new] at hx
      rw [hx]
      exact hq
  | cons a as iha =>
    intro l hl
    by_cases hlt : p < a.price
    · simp only [ladderAdd, if_pos hlt] at hl
      rcases List.mem_cons.mp hl with h | h
      · subst h
        refine ⟨?_, ?_, ?_, ?_⟩
        · simp [PriceLevel.add_order, PriceLevel.new, sumRem]
        · intro x hx
          simp [PriceLevel.add_order, PriceLevel.new] at hx ⊢
          rw [hx, hp]
        · simp [PriceLevel.add_order, PriceLevel.new]
        · intro x hx
          simp [PriceLevel.add_order, PriceLevel.new] at hx
          rw [hx]
          exact hq
      · exact hlv l h
    · by_cases heq : a.price = p
      · simp only [ladderAdd, if_neg hlt, if_pos heq] at hl
        rcases List.mem_cons.mp hl with h | h
        · subst h
          have ha : LevelWF a := hlv a (by simp)
          refine ⟨?_, ?_, ?_, ?_⟩
          · simp [PriceLevel.add_order, sumRem_append, sumRem, ha.qty]
          · intro x hx
            simp [PriceLevel.add_order] at hx ⊢
            rcases hx with hx | hx
            · exact ha.prices x hx
            · rw [hx, hp, heq]
          · simp [PriceLevel.add_order]
          · intro x hx
            simp [PriceLevel.add_order] at hx
            rcases hx with hx | hx
            · exact ha.pos x hx
            · rw [hx]
              exact hq
        · exact hlv l (by simp [h])
      · simp only [ladderAdd, if_neg hlt, if_neg heq] at hl
        rcases List.mem_cons.mp hl with h | h
        · exact hlv l (by simp [h])
        · exact iha (fun x hx => hlv x (by simp [hx])) l h

theorem ladderOrders_ladderAdd_perm (ls : List PriceLevel) (p : Nat)
    (o : Order) :
    (ladderOrders (ladderAdd ls p o)).Perm (o :: ladderOrders ls) := by
  induction ls with
  | nil =>
    simp [ladderAdd, ladderOrders, PriceLevel.add_order, PriceLevel.new]
  | cons a as iha =>
    by_cases hlt : p < a.price
    · simp only [ladderAdd, if_pos hlt]
      rw [ladderOrders_cons]
      simp [PriceLevel.add_order, PriceLevel.new, ladderOrders_cons]
    · by_cases heq : a.price = p
      · simp only [ladderAdd, if_neg hlt, if_pos heq]
        rw [ladderOrders_cons, ladderOrders_cons]
        show ((PriceLevel.add_order a o).orders ++ ladderOrders as).Perm
          (o :: (a.orders ++ ladderOrders as))
        have : (PriceLevel.add_order a o).orders = a.orders ++ [o] := by
          simp [PriceLevel.add_order]
        rw [this, List.append_assoc]
        show (a.orders ++ (o :: ladderOrders as)).Perm
          (o :: (a.orders ++ ladderOrders as))
        exact List.perm_middle
      · simp only [ladderAdd, if_neg hlt, if_neg heq]
        rw [ladderOrders_cons, ladderOrders_cons]
        exact List.Perm.trans (List.Perm.append_left a.orders iha)
          List.perm_middle

theorem ladderGet_ladderAdd_other {ls : List PriceLevel} {p q : Nat}
    {o : Order} (hne : q ≠ p) :
    ladderGet (ladderAdd ls p o) q = ladderGet ls q := by
  have hpq : p ≠ q := fun h => hne h.symm
  induction ls with
  | nil =>
    simp [ladderAdd, ladderGet, PriceLevel.add_order, PriceLevel.new, hpq]
  | cons a as iha =>
    by_cases hlt : p < a.price
    · simp only [ladderAdd, if_pos hlt]
      have : (PriceLevel.add_order (PriceLevel.new p) o).price = p := by
        simp [PriceLevel.add_order, PriceLevel.new]
      simp [ladderGet, this, hpq]
    · by_cases heq : a.price = p
      · simp only [ladderAdd, if_neg hlt, if_pos heq]
        have h1 : (PriceLevel.add_order a o).price = a.price := by
          simp [PriceLevel.add_order]
        have h2 : a.price ≠ q := by rw [heq]; exact fun h => hne h.symm
        simp [ladderGet, h1, h2]
      · simp only [ladderAdd, if_neg hlt, if_neg heq]
        by_cases haq : a.price = q
        · simp [ladderGet, haq]
        · simp [ladderGet, haq, iha]

theorem ladderGet_ladderAdd_self_none {ls : List PriceLevel} {p : Nat}
    {o : Order} (hs : ladderSorted ls) (hget : ladderGet ls p = none) :
    ladderGet (ladderAdd ls p o) p =
      some ((PriceLevel.new p).add_order o) := by
  induction ls with
  | nil => simp [ladderAdd, ladderGet, PriceLevel.add_order, PriceLevel.new]
  | cons a as iha =>
    have hap : a.price ≠ p := by
      intro hh
      simp [ladderGet, hh] at hget
    by_cases hlt : p < a.price
    · simp only [ladderAdd, if_pos hlt]
      have : (PriceLevel.add_order (PriceLevel.new p) o).price = p := by
        simp [PriceLevel.add_order, PriceLevel.new]
      simp [ladderGet, this]
    · simp only [ladderAdd, if_neg hlt, if_neg hap]
      simp [ladderGet, hap] at hget
      simp [ladderGet, hap]
      exact iha (List.pairwise_cons.mp hs).2 hget

theorem ladderAdd_length_none {ls : List PriceLevel} {p : Nat} {o : Order}
    (hget : ladderGet ls p = none) :
    (ladderAdd ls p o).length = ls.length + 1 := by
  induction ls with
  | nil => simp [ladderAdd]
  | cons a as iha =>
    have hap : a.price ≠ p := by
      intro hh
      simp [ladderGet, hh] at hget
    simp [ladderGet, hap] at hget
    by_cases hlt : p < a.price
    · simp [ladderAdd, if_pos hlt]
    · simp [ladderAdd, if_neg hlt, hap, iha hget]

theorem ladderGet_ladderAdd_merge {ls : List PriceLevel} {p : Nat} {o : Order}
    {l : PriceLevel} (hs : ladderSorted ls) (hget : ladderGet ls p = some l) :
    ladderAdd ls p o = ladderSet ls p (l.add_order o) := by
  induction ls with
  | nil => simp [ladderGet] at hget
  | cons a as iha =>
    obtain ⟨hrel, htail⟩ := List.pairwise_cons.mp hs
    by_cases hap : a.price = p
    · simp [ladderGet, hap] at hget
      subst hget
      have hnlt : ¬ p < a.price := by omega
      simp [ladderAdd, hnlt, hap, ladderSet]
    · simp [ladderGet, hap] at hget
      have hmem := (ladderGet_mem hget).1
      have hpr := (ladderGet_mem hget).2
      have hnlt : ¬ p < a.price := by
        intro hh
        have := hrel l hmem
        omega
      simp [ladderAdd, hnlt, hap, ladderSet, iha htail hget]

theorem mem_ladderOrders {ls : List PriceLevel} {o : Order} :
    o ∈ ladderOrders ls ↔ ∃ l ∈ ls, o ∈ l.orders := by
  simp [ladderOrders, List.mem_flatten]

theorem ladderGet_isSome_of_mem {ls : List PriceLevel} {l : PriceLevel}
    (hm : l ∈ ls) : (ladderGet ls l.price).isSome := by
  induction ls with
  | nil => simp at hm
  | cons a as iha =>
    by_cases ha : a.price = l.price
    · simp [ladderGet, ha]
    · rcases List.mem_cons.mp hm with h | h
      · subst h
        simp at ha
      · simp [ladderGet, ha]
        exact iha h

theorem ladderSorted_unique {ls : List PriceLevel} {l₁ l₂ : PriceLevel}
    (hs : ladderSorted ls) (h1 : l₁ ∈ ls) (h2 : l₂ ∈ ls)
    (hp : l₁.price = l₂.price) : l₁ = l₂ := by
  induction ls with
  | nil => simp at h1
  | cons a as iha =>
    obtain ⟨hrel, htail⟩ := List.pairwise_cons.mp hs
    rcases List.mem_cons.mp h1 with h1 | h1
    · rcases List.mem_cons.mp h2 with h2 | h2
      · rw [h1, h2]
      · exfalso
        rw [h1] at hp
        have := hrel l₂ h2
        omega
    · rcases List.mem_cons.mp h2 with h2 | h2
      · exfalso
        rw [h2] at hp
        have := hrel l₁ h1
        omega
      · exact iha htail h1 h2

theorem removeFirstById_none {os : List Order} {i : Nat} {os' : List Order}
    (h : removeFirstById os i = (none, os')) :
    os' = os ∧ ∀ o ∈ os, o.id ≠ i := by
  induction os generalizing os' with
  | nil =>
    simp [removeFirstById] at h
    exact ⟨h, by simp [h]⟩
  | cons a as iha =>
    by_cases ha : a.id = i
    · simp [removeFirstById, ha] at h
    · simp [removeFirstById, ha] at h
      cases hr : removeFirstById as i with
      | mk ro ros =>
        rw [hr] at h
        simp at h
        obtain ⟨h1, h2⟩ := h
        obtain ⟨hos, hall⟩ := iha (by rw [hr, h1])
        constructor
        · rw [← h2, hos]
        · intro o ho
          rcases List.mem_cons.mp ho with rfl | ho
          · exact ha
          · exact hall o ho

theorem removeFirstById_some {os : List Order} {i : Nat} {o : Order}
    {os' : List Order} (h : removeFirstById os i = (some o, os')) :
    o ∈ os ∧ o.id = i ∧ os'.Sublist os ∧
    sumRem os' + o.remaining_quantity = sumRem os ∧
    os'.countP (fun x => x.id == i) + 1 = os.countP (fun x => x.id == i) := by
  induction os generalizing os' with
  | nil => simp [removeFirstById] at h
  | cons a as iha =>
    by_cases ha : a.id = i
    · simp [removeFirstById, ha] at h
      obtain ⟨h1, h2⟩ := h
      subst h1
      subst h2
      refine ⟨by simp, ha, List.sublist_cons_self _ _, ?_, ?_⟩
      · simp [sumRem_cons]
        omega
      · simp [List.countP_cons, ha]
    · simp [removeFirstById, ha] at h
      cases hr : removeFirstById as i with
      | mk ro ros =>
        rw [hr] at h
        simp at h
        obtain ⟨h1, h2⟩ := h
        obtain ⟨hm, hid, hsub, hsum, hcnt⟩ := iha (by rw [hr, h1])
        subst h2
        refine ⟨by simp [hm], hid, List.Sublist.cons₂ _ hsub, ?_, ?_⟩
        · simp [sumRem_cons]
          omega
        · simp [List.countP_cons, ha]
          omega

theorem idxGet_not_mem {m : List (Nat × Order)} {i : Nat}
    (h : ¬ i ∈ m.map Prod.fst) : idxGet m i = none := by
  induction m with
  | nil => simp [idxGet]
  | cons kv m ihm =>
    cases kv with
    | mk k v =>
      simp only [List.map_cons, List.mem_cons] at h
      push_neg at h
      obtain ⟨h1, h2⟩ := h
      have hki : ¬ k = i := Ne.symm h1
      simp [idxGet, hki, ihm h2]

theorem idxGet_insert_self (m : List (Nat × Order)) (i : Nat) (o : Order) :
    idxGet (idxInsert m i o) i = some o := by
  induction m with
  | nil => simp [idxInsert, idxGet]
  | cons kv m ihm =>
    cases kv with
    | mk k v =>
      by_cases hk : k = i
      · simp [idxInsert, hk, idxGet]
      · simp [idxInsert, hk, idxGet, ihm]

theorem idxGet_insert_other {m : List (Nat × Order)} {i j : Nat} {o : Order}
    (h : j ≠ i) : idxGet (idxInsert m i o) j = idxGet m j := by
  have hij : i ≠ j := Ne.symm h
  induction m with
  | nil => simp [idxInsert, idxGet, hij]
  | cons kv m ihm =>
    cases kv with
    | mk k v =>
      by_cases hk : k = i
      · subst hk
        simp [idxInsert, idxGet, hij]
      · simp [idxInsert, hk, idxGet, ihm]

theorem idxGet_remove_self {m : List (Nat × Order)} {i : Nat}
    (hnod : (m.map Prod.fst).Nodup) : idxGet (idxRemove m i) i = none := by
  induction m with
  | nil => simp [idxRemove, idxGet]
  | cons kv m ihm =>
    cases kv with
    | mk k v =>
      rw [List.map_cons, List.nodup_cons] at hnod
      by_cases hk : k = i
      · subst hk
        simp [idxRemove]
        exact idxGet_not_mem hnod.1
      · simp [idxRemove, hk, idxGet, hk, ihm hnod.2]

theorem idxGet_remove_other {m : List (Nat × Order)} {i j : Nat}
    (h : j ≠ i) : idxGet (idxRemove m i) j = idxGet m j := by
  induction m with
  | nil => simp [idxRemove, idxGet]
  | cons kv m ihm =>
    cases kv with
    | mk k v =>
      by_cases hk : k = i
      · subst hk
        have hkj : ¬ k = j := fun hh => h hh.symm
        simp [idxRemove, idxGet, hkj]
      · simp [idxRemove, hk, idxGet, ihm]

theorem remove_order_eq_none {l : PriceLevel} {i : Nat} {os' : List Order}
    (hr : removeFirstById l.orders i = (none, os')) :
    l.remove_order i = (none, l) := by
  unfold PriceLevel.remove_order
  rw [hr]

theorem remove_order_eq_some {l : PriceLevel} {i : Nat} {o : Order}
    {os' : List Order} (hr : removeFirstById l.orders i = (some o, os')) :
    l.remove_order i = (some o,
      { l with orders := os',
               total_quantity := l.total_quantity - o.remaining_quantity }) := by
  unfold PriceLevel.remove_order
  rw [hr]

theorem ladderCancel_eq_none {ls : List PriceLevel} {p i : Nat}
    (hget : ladderGet ls p = none) : ladderCancel ls p i = ls := by
  unfold ladderCancel
  rw [hget]

theorem ladderCancel_eq_some {ls : List PriceLevel} {p i : Nat}
    {l : PriceLevel} (hget : ladderGet ls p = some l) :
    ladderCancel ls p i =
      (if (l.remove_order i).2.orders.isEmpty then ladderRemoveLevel ls p
       else ladderSet ls p (l.remove_order i).2) := by
  unfold ladderCancel
  rw [hget]

theorem ladderCancel_wf {ls : List PriceLevel} {p i : Nat}
    (hwf : LadderWF ls) : LadderWF (ladderCancel ls p i) := by
  cases hget : ladderGet ls p with
  | none =>
    rw [ladderCancel_eq_none hget]
    exact hwf
  | some l =>
    obtain ⟨hmem, hpr⟩ := ladderGet_mem hget
    have hlwf : LevelWF l := hwf.2 l hmem
    rw [ladderCancel_eq_some hget]
    have hrml : LadderWF (ladderRemoveLevel ls p) :=
      ⟨List.Pairwise.sublist (ladderRemoveLevel_sublist ls p) hwf.1,
        fun x hx => hwf.2 x ((ladderRemoveLevel_sublist ls p).mem hx)⟩
    cases hr : removeFirstById l.orders i with
    | mk ro os' =>
      cases ro with
      | none =>
        rw [remove_order_eq_none hr]
        by_cases hempty : l.orders.isEmpty
        · rw [if_pos hempty]
          exact hrml
        · rw [if_neg hempty]
          refine ⟨ladderSet_sorted hwf.1 hget rfl, ?_⟩
          intro x hx
          rcases ladderSet_mem hx with hx | hx
          · subst hx
            exact hlwf
          · exact hwf.2 x hx
      | some o =>
        obtain ⟨hom, hoid, hsub, hsum, hcnt⟩ := removeFirstById_some hr
        rw [remove_order_eq_some hr]
        by_cases hempty : os'.isEmpty
        · rw [if_pos (by simpa using hempty)]
          exact hrml
        · rw [if_neg (by simpa using hempty)]
          refine ⟨ladderSet_sorted hwf.1 hget rfl, ?_⟩
          intro x hx
          rcases ladderSet_mem hx with hx | hx
          · subst hx
            refine ⟨?_, ?_, ?_, ?_⟩
            · show l.total_quantity - o.remaining_quantity = sumRem os'
              have := hlwf.qty
              omega
            · intro y hy
              exact hlwf.prices y (hsub.mem hy)
            · simpa [List.isEmpty_iff] using hempty
            · intro y hy
              exact hlwf.pos y (hsub.mem hy)
          · exact hwf.2 x hx

theorem ladderCancel_orders {ls : List PriceLevel} {p i : Nat} :
    ∀ o ∈ ladderOrders (ladderCancel ls p i), o ∈ ladderOrders ls := by
  intro o ho
  cases hget : ladderGet ls p with
  | none =>
    rw [ladderCancel_eq_none hget] at ho
    exact ho
  | some l =>
    obtain ⟨hmem, hpr⟩ := ladderGet_mem hget
    rw [ladderCancel_eq_some hget] at ho
    have hrml : ∀ x ∈ ladderOrders (ladderRemoveLevel ls p),
        x ∈ ladderOrders ls := by
      intro x hx
      obtain ⟨lx, hlx, hox⟩ := mem_ladderOrders.mp hx
      exact mem_ladderOrders.mpr
        ⟨lx, (ladderRemoveLevel_sublist ls p).mem hlx, hox⟩
    cases hr : removeFirstById l.orders i with
    | mk ro os' =>
      cases ro with
      | none =>
        rw [remove_order_eq_none hr] at ho
        split at ho
        · exact hrml o ho
        · obtain ⟨lx, hlx, hox⟩ := mem_ladderOrders.mp ho
          rcases ladderSet_mem hlx with hx | hx
          · have hxl : lx = l := hx
            exact mem_ladderOrders.mpr ⟨l, hmem, hxl ▸ hox⟩
          · exact mem_ladderOrders.mpr ⟨lx, hx, hox⟩
      | some oo =>
        obtain ⟨hom, hoid, hsub, _, _⟩ := removeFirstById_some hr
        rw [remove_order_eq_some hr] at ho
        split at ho
        · exact hrml o ho
        · obtain ⟨lx, hlx, hox⟩ := mem_ladderOrders.mp ho
          rcases ladderSet_mem hlx with hx | hx
          · refine mem_ladderOrders.mpr ⟨l, hmem, hsub.mem ?_⟩
            have : lx.orders = os' := by rw [hx]
            rw [← this]
            exact hox
          · exact mem_ladderOrders.mpr ⟨lx, hx, hox⟩

theorem ladderCancel_levels {ls : List PriceLevel} {p i : Nat} :
    ∀ l' ∈ ladderCancel ls p i, ∃ l ∈ ls, l'.price = l.price := by
  intro l' hl'
  cases hget : ladderGet ls p with
  | none =>
    rw [ladderCancel_eq_none hget] at hl'
    exact ⟨l', hl', rfl⟩
  | some l =>
    obtain ⟨hmem, hpr⟩ := ladderGet_mem hget
    rw [ladderCancel_eq_some hget] at hl'
    cases hr : removeFirstById l.orders i with
    | mk ro os' =>
      cases ro with
      | none =>
        rw [remove_order_eq_none hr] at hl'
        split at hl'
        · exact ⟨l', (ladderRemoveLevel_sublist ls p).mem hl', rfl⟩
        · rcases ladderSet_mem hl' with hx | hx
          · exact ⟨l, hmem, by rw [hx]⟩
          · exact ⟨l', hx, rfl⟩
      | some oo =>
        rw [remove_order_eq_some hr] at hl'
        split at hl'
        · exact ⟨l', (ladderRemoveLevel_sublist ls p).mem hl', rfl⟩
        · rcases ladderSet_mem hl' with hx | hx
          · exact ⟨l, hmem, by rw [hx]⟩
          · exact ⟨l', hx, rfl⟩

theorem match_orders_spec {b : OrderBook} {incoming : Order}
    {r : Except OrderBookError (List Trade)} {b' : OrderBook}
    (hwf : BookWF b) (h : b.match_orders incoming = (r, b')) :
    BookWF b' ∧ b'.orders = b.orders ∧
    b'.stats = b.stats ∧ b'.last_sequence_number = b.last_sequence_number ∧
    b'.nextId = b.nextId ∧
    (incoming.side = Side.Buy → b'.bids = b.bids) ∧
    (incoming.side = Side.Sell → b'.asks = b.asks) ∧
    (∀ o ∈ ladderOrders b'.bids ++ ladderOrders b'.asks,
      ∃ o₀ ∈ ladderOrders b.bids ++ ladderOrders b.asks,
        o₀.id = o.id ∧ o₀.price = o.price) ∧
    ∃ ts, r = Except.ok ts ∧ sumQ ts ≤ incoming.remaining_quantity := by
  cases hside : incoming.side with
  | Buy =>
    cases hl : matchLoopAsks incoming
        (ordersCountLs b.asks + incoming.remaining_quantity)
        b.asks incoming.remaining_quantity with
    | mk rr asks' =>
      have hob : b.match_orders incoming = (rr, { b with asks := asks' }) := by
        unfold OrderBook.match_orders
        rw [hside, hl]
      rw [hob] at h
      injection h with h1 h2
      subst h1
      subst h2
      obtain ⟨hwfA, hcorr, hlev, hbest, ts, hts, hsum, htr⟩ :=
        matchLoopAsks_main incoming _ b.asks incoming.remaining_quantity
          rr asks' ⟨hwf.asksSorted, hwf.asksWF⟩ hl
      refine ⟨⟨hwf.bidsSorted, hwfA.1, hwf.bidsWF, hwfA.2, ?_⟩,
        rfl, rfl, rfl, rfl, fun _ => rfl, ?_, ?_, ts, hts, hsum⟩
      · intro lb hlb la hla
        obtain ⟨la₀, h₀, hp⟩ := hlev la hla
        rw [hp]
        exact hwf.uncrossed lb hlb la₀ h₀
      · intro hs
        exact absurd hs (by decide)
      · intro o ho
        rcases List.mem_append.mp ho with ho | ho
        · exact ⟨o, List.mem_append_left _ ho, rfl, rfl⟩
        · obtain ⟨o₀, h₀, hid, hpr⟩ := hcorr o ho
          exact ⟨o₀, List.mem_append_right _ h₀, hid, hpr⟩
  | Sell =>
    cases hl : matchLoopBids incoming
        (ordersCountLs b.bids + incoming.remaining_quantity)
        b.bids incoming.remaining_quantity with
    | mk rr bids' =>
      have hob : b.match_orders incoming = (rr, { b with bids := bids' }) := by
        unfold OrderBook.match_orders
        rw [hside, hl]
      rw [hob] at h
      injection h with h1 h2
      subst h1
      subst h2
      obtain ⟨hwfB, hcorr, hlev, ts, hts, hsum, htr⟩ :=
        matchLoopBids_main incoming _ b.bids incoming.remaining_quantity
          rr bids' ⟨hwf.bidsSorted, hwf.bidsWF⟩ hl
      refine ⟨⟨hwfB.1, hwf.asksSorted, hwfB.2, hwf.asksWF, ?_⟩,
        rfl, rfl, rfl, rfl, ?_, fun _ => rfl, ?_, ts, hts, hsum⟩
      · intro lb hlb la hla
        obtain ⟨lb₀, h₀, hp⟩ := hlev lb hlb
        rw [hp]
        exact hwf.uncrossed lb₀ h₀ la hla
      · intro hs
        exact absurd hs (by decide)
      · intro o ho
        rcases List.mem_append.mp ho with ho | ho
        · obtain ⟨o₀, h₀, hid, hpr⟩ := hcorr o ho
          exact ⟨o₀, List.mem_append_left _ h₀, hid, hpr⟩
        · exact ⟨o, List.mem_append_right _ ho, rfl, rfl⟩

theorem match_orders_trades {b : OrderBook} {incoming : Order}
    {ts : List Trade} {b' : OrderBook} (hwf : BookWF b)
    (h : b.match_orders incoming = (Except.ok ts, b')) :
    ∀ t ∈ ts,
      (incoming.side = Side.Buy →
        t.buy_order_id = incoming.id ∧
        (t.price ≤ incoming.price ∨
          incoming.order_type = OrderType.Market) ∧
        ∃ maker ∈ ladderOrders b.asks,
          maker.id = t.sell_order_id ∧ maker.price = t.price) ∧
      (incoming.side = Side.Sell →
        t.sell_order_id = incoming.id ∧
        (incoming.price ≤ t.price ∨
          incoming.order_type = OrderType.Market) ∧
        ∃ maker ∈ ladderOrders b.bids,
          maker.id = t.buy_order_id ∧ maker.price = t.price) := by
  intro t ht
  cases hside : incoming.side with
  | Buy =>
    cases hl : matchLoopAsks incoming
        (ordersCountLs b.asks + incoming.remaining_quantity)
        b.asks incoming.remaining_quantity with
    | mk rr asks' =>
      have hob : b.match_orders incoming = (rr, { b with asks := asks' }) := by
        unfold OrderBook.match_orders
        rw [hside, hl]
      rw [hob] at h
      injection h with h1 h2
      obtain ⟨hwfA, hcorr, hlev, hbest, ts0, hts, hsum, htr⟩ :=
        matchLoopAsks_main incoming _ b.asks incoming.remaining_quantity
          rr asks' ⟨hwf.asksSorted, hwf.asksWF⟩ hl
      rw [h1] at hts
      injection hts with hts
      subst hts
      obtain ⟨hbid, hbound, maker, hmm, hmid, hmpr⟩ := htr t ht
      refine ⟨fun _ => ⟨hbid, hbound, maker, hmm, hmid, hmpr⟩, ?_⟩
      intro hs
      exact absurd hs (by decide)
  | Sell =>
    cases hl : matchLoopBids incoming
        (ordersCountLs b.bids + incoming.remaining_quantity)
        b.bids incoming.remaining_quantity with
    | mk rr bids' =>
      have hob : b.match_orders incoming = (rr, { b with bids := bids' }) := by
        unfold OrderBook.match_orders
        rw [hside, hl]
      rw [hob] at h
      injection h with h1 h2
      obtain ⟨hwfB, hcorr, hlev, ts0, hts, hsum, htr⟩ :=
        matchLoopBids_main incoming _ b.bids incoming.remaining_quantity
          rr bids' ⟨hwf.bidsSorted, hwf.bidsWF⟩ hl
      rw [h1] at hts
      injection hts with hts
      subst hts
      obtain ⟨hsid, hbound, maker, hmm, hmid, hmpr⟩ := htr t ht
      refine ⟨?_, fun _ => ⟨hsid, hbound, maker, hmm, hmid, hmpr⟩⟩
      intro hs
      exact absurd hs (by decide)

theorem match_orders_post {b : OrderBook} {incoming : Order}
    {ts : List Trade} {b' : OrderBook} (hwf : BookWF b)
    (hmkt : incoming.order_type ≠ OrderType.Market)
    (h : b.match_orders incoming = (Except.ok ts, b')) :
    (incoming.side = Side.Buy →
      availAsks b'.asks incoming.price + sumQ ts =
        availAsks b.asks incoming.price ∧
      (sumQ ts = incoming.remaining_quantity ∨ b'.asks = [] ∨
        ∃ l, b'.asks.head? = some l ∧ incoming.price < l.price)) ∧
    (incoming.side = Side.Sell →
      availBids b'.bids incoming.price + sumQ ts =
        availBids b.bids incoming.price ∧
      (sumQ ts = incoming.remaining_quantity ∨ b'.bids = [] ∨
        ∃ l, b'.bids.getLast? = some l ∧ l.price < incoming.price)) := by
  cases hside : incoming.side with
  | Buy =>
    cases hl : matchLoopAsks incoming
        (ordersCountLs b.asks + incoming.remaining_quantity)
        b.asks incoming.remaining_quantity with
    | mk rr asks' =>
      have hob : b.match_orders incoming = (rr, { b with asks := asks' }) := by
        unfold OrderBook.match_orders
        rw [hside, hl]
      rw [hob] at h
      injection h with h1 h2
      subst h1
      subst h2
      obtain ⟨havail, hpost⟩ := matchLoopAsks_fuelPost incoming _ b.asks
        incoming.remaining_quantity ts asks' hmkt
        ⟨hwf.asksSorted, hwf.asksWF⟩ (le_refl _) hl
      refine ⟨fun _ => ⟨havail, hpost⟩, ?_⟩
      intro hs
      exact absurd hs (by decide)
  | Sell =>
    cases hl : matchLoopBids incoming
        (ordersCountLs b.bids + incoming.remaining_quantity)
        b.bids incoming.remaining_quantity with
    | mk rr bids' =>
      have hob : b.match_orders incoming = (rr, { b with bids := bids' }) := by
        unfold OrderBook.match_orders
        rw [hside, hl]
      rw [hob] at h
      injection h with h1 h2
      subst h1
      subst h2
      obtain ⟨havail, hpost⟩ := matchLoopBids_fuelPost incoming _ b.bids
        incoming.remaining_quantity ts bids' hmkt
        ⟨hwf.bidsSorted, hwf.bidsWF⟩ (le_refl _) hl
      refine ⟨?_, fun _ => ⟨havail, hpost⟩⟩
      intro hs
      exact absurd hs (by decide)

theorem price_le_getLast {ls : List PriceLevel} {l last : PriceLevel}
    (hs : ladderSorted ls) (hm : l ∈ ls) (hl : ls.getLast? = some last) :
    l.price ≤ last.price := by
  obtain ⟨init, rfl⟩ := List.getLast?_eq_some_iff.mp hl
  obtain ⟨_, _, hrel⟩ := List.pairwise_append.mp hs
  rcases List.mem_append.mp hm with hm | hm
  · exact le_of_lt (hrel l hm last (by simp))
  · rcases List.mem_singleton.mp hm with rfl
    exact le_refl _

theorem head_le_price {ls : List PriceLevel} {l h : PriceLevel}
    (hs : ladderSorted ls) (hm : l ∈ ls) (hh : ls.head? = some h) :
    h.price ≤ l.price := by
  cases ls with
  | nil => simp at hm
  | cons a as =>
    simp at hh
    subst hh
    rcases List.mem_cons.mp hm with rfl | hm
    · exact le_refl _
    · exact le_of_lt ((List.pairwise_cons.mp hs).1 l hm)

theorem add_to_book_fields (b : OrderBook) (o : Order) :
    (b.add_to_book o).orders = idxInsert b.orders o.id o ∧
    (b.add_to_book o).stats = b.stats ∧
    (b.add_to_book o).last_sequence_number = b.last_sequence_number ∧
    (b.add_to_book o).nextId = b.nextId ∧
    (o.side = Side.Buy →
      (b.add_to_book o).bids = ladderAdd b.bids o.price o ∧
      (b.add_to_book o).asks = b.asks) ∧
    (o.side = Side.Sell →
      (b.add_to_book o).asks = ladderAdd b.asks o.price o ∧
      (b.add_to_book o).bids = b.bids) := by
  cases hside : o.side <;>
    simp [OrderBook.add_to_book, hside]

theorem add_to_book_wf {b : OrderBook} {o : Order} (hwf : BookWF b)
    (hq : 0 < o.remaining_quantity)
    (hcrossB : o.side = Side.Buy → ∀ la ∈ b.asks, o.price < la.price)
    (hcrossS : o.side = Side.Sell → ∀ lb ∈ b.bids, lb.price < o.price) :
    BookWF (b.add_to_book o) := by
  obtain ⟨hord, hst, hseq, hnext, hbuy, hsell⟩ := add_to_book_fields b o
  cases hside : o.side with
  | Buy =>
    obtain ⟨hb, ha⟩ := hbuy hside
    refine ⟨?_, ?_, ?_, ?_, ?_⟩
    · rw [hb]
      exact ladderAdd_sorted hwf.bidsSorted
    · rw [ha]
      exact hwf.asksSorted
    · rw [hb]
      exact ladderAdd_levelWF hwf.bidsWF hq rfl
    · rw [ha]
      exact hwf.asksWF
    · intro lb hlb la hla
      rw [hb] at hlb
      rw [ha] at hla
      rcases ladderAdd_mem hlb with hp | hp
      · rw [hp]
        exact hcrossB hside la hla
      · exact hwf.uncrossed lb hp la hla
  | Sell =>
    obtain ⟨ha, hb⟩ := hsell hside
    refine ⟨?_, ?_, ?_, ?_, ?_⟩
    · rw [hb]
      exact hwf.bidsSorted
    · rw [ha]
      exact ladderAdd_sorted hwf.asksSorted
    · rw [hb]
      exact hwf.bidsWF
    · rw [ha]
      exact ladderAdd_levelWF hwf.asksWF hq rfl
    · intro lb hlb la hla
      rw [hb] at hlb
      rw [ha] at hla
      rcases ladderAdd_mem hla with hp | hp
      · rw [hp]
        exact hcrossS hside lb hlb
      · exact hwf.uncrossed lb hlb la hp

theorem add_to_book_and_match_wf {b : OrderBook} {o : Order}
    {r : Except OrderBookError (List Trade)} {b' : OrderBook}
    (hwf : BookWF b) (hmkt : o.order_type ≠ OrderType.Market)
    (h : b.add_to_book_and_match o = (r, b')) :
    BookWF b' ∧ b'.last_sequence_number = b.last_sequence_number ∧
    b'.nextId = b.nextId := by
  cases hmo : b.match_orders o with
  | mk r1 b1 =>
    obtain ⟨hwf1, hord1, hst1, hseq1, hnext1, hbuy1, hsell1, hcorr1, ts,
      hts, hsum⟩ := match_orders_spec hwf hmo
    subst hts
    unfold OrderBook.add_to_book_and_match at h
    rw [hmo] at h
    simp only at h
    by_cases hres : o.remaining_quantity - sumQ ts > 0
    · rw [if_pos hres] at h
      injection h with h1 h2
      subst h1
      subst h2
      obtain ⟨hpostB, hpostS⟩ := match_orders_post hwf hmkt hmo
      set oRes : Order :=
        { o with remaining_quantity := o.remaining_quantity - sumQ ts }
      obtain ⟨hord2, hst2, hseq2, hnext2, _, _⟩ := add_to_book_fields b1 oRes
      refine ⟨?_, by rw [hseq2, hseq1], by rw [hnext2, hnext1]⟩
      refine add_to_book_wf hwf1 hres ?_ ?_
      · intro hside la hla
        obtain ⟨_, hpost⟩ := hpostB hside
        rcases hpost with hfull | hempty | ⟨lh, hlh, hlt⟩
        · omega
        · rw [hempty] at hla
          simp at hla
        · have := head_le_price hwf1.asksSorted hla hlh
          show o.price < la.price
          omega
      · intro hside lb hlb
        obtain ⟨_, hpost⟩ := hpostS hside
        rcases hpost with hfull | hempty | ⟨lh, hlh, hlt⟩
        · omega
        · rw [hempty] at hlb
          simp at hlb
        · have := price_le_getLast hwf1.bidsSorted hlb hlh
          show lb.price < o.price
          omega
    · rw [if_neg hres] at h
      injection h with h1 h2
      subst h1
      subst h2
      exact ⟨hwf1, hseq1, hnext1⟩

theorem add_order_inv {b : OrderBook} {o : Order}
    {r : Except OrderBookError (List Trade)} {b' : OrderBook}
    (h : b.add_order o = (r, b')) :
    (idxContains b.orders o.id = true ∧
      r = Except.error (OrderBookError.OrderAlreadyExists o.id) ∧ b' = b) ∨
    (idxContains b.orders o.id = false ∧
      (o.price = 0 ∧ o.order_type ≠ OrderType.Market) ∧
      r = Except.error (OrderBookError.InvalidPrice o.price) ∧ b' = b) ∨
    (idxContains b.orders o.id = false ∧
      ¬(o.price = 0 ∧ o.order_type ≠ OrderType.Market) ∧ o.quantity = 0 ∧
      r = Except.error (OrderBookError.InvalidQuantity o.quantity) ∧
      b' = b) ∨
    (idxContains b.orders o.id = false ∧
      ¬(o.price = 0 ∧ o.order_type ≠ OrderType.Market) ∧ o.quantity ≠ 0 ∧
      ∃ r1 b1,
        (match o.order_type with
         | OrderType.Market => b.match_market_order o
         | OrderType.FillOrKill => b.match_fill_or_kill o
         | OrderType.ImmediateOrCancel => b.match_immediate_or_cancel o
         | _ => b.add_to_book_and_match o) = (r1, b1) ∧
        ((∃ e, r1 = Except.error e ∧ r = r1 ∧ b' = b1) ∨
         (∃ ts, r1 = Except.ok ts ∧ r = r1 ∧
           b' = { b1 with stats :=
             { b1.stats with new_orders := b1.stats.new_orders + 1 } }))) := by
  unfold OrderBook.add_order at h
  by_cases h1 : idxContains b.orders o.id
  · rw [if_pos h1] at h
    injection h with ha hb
    exact Or.inl ⟨h1, ha.symm, hb.symm⟩
  · rw [if_neg h1] at h
    by_cases h2 : o.price = 0 ∧ o.order_type ≠ OrderType.Market
    · rw [if_pos h2] at h
      injection h with ha hb
      exact Or.inr (Or.inl ⟨Bool.not_eq_true _ ▸ by simpa using h1, h2,
        ha.symm, hb.symm⟩)
    · rw [if_neg h2] at h
      by_cases h3 : o.quantity = 0
      · rw [if_pos h3] at h
        injection h with ha hb
        exact Or.inr (Or.inr (Or.inl ⟨by simpa using h1, h2, h3,
          ha.symm, hb.symm⟩))
      · rw [if_neg h3] at h
        refine Or.inr (Or.inr (Or.inr ⟨by simpa using h1, h2, h3, ?_⟩))
        cases hd : (match o.order_type with
          | OrderType.Market => b.match_market_order o
          | OrderType.FillOrKill => b.match_fill_or_kill o
          | OrderType.ImmediateOrCancel => b.match_immediate_or_cancel o
          | _ => b.add_to_book_and_match o) with
        | mk r1 b1 =>
          rw [hd] at h
          refine ⟨r1, b1, rfl, ?_⟩
          cases r1 with
          | error e =>
            simp only at h
            injection h with ha hb
            exact Or.inl ⟨e, rfl, ha.symm, hb.symm⟩
          | ok ts =>
            simp only at h
            injection h with ha hb
            exact Or.inr ⟨ts, rfl, ha.symm, hb.symm⟩

theorem cancel_order_inv {b : OrderBook} {i : Nat}
    {r : Except OrderBookError Unit} {b' : OrderBook}
    (h : b.cancel_order i = (r, b')) :
    (idxGet b.orders i = none ∧
      r = Except.error (OrderBookError.OrderNotFound i) ∧ b' = b) ∨
    (∃ O, idxGet b.orders i = some O ∧ r = Except.ok () ∧
      ((O.side = Side.Buy ∧
        b' = { b with orders := idxRemove b.orders i,
                      bids := ladderCancel b.bids O.price i,
                      stats := { b.stats with
                        cancellations := b.stats.cancellations + 1 } }) ∨
       (O.side = Side.Sell ∧
        b' = { b with orders := idxRemove b.orders i,
                      asks := ladderCancel b.asks O.price i,
                      stats := { b.stats with
                        cancellations := b.stats.cancellations + 1 } }))) := by
  unfold OrderBook.cancel_order at h
  cases hg : idxGet b.orders i with
  | none =>
    rw [hg] at h
    simp only at h
    injection h with ha hb
    exact Or.inl ⟨rfl, ha.symm, hb.symm⟩
  | some O =>
    rw [hg] at h
    simp only at h
    cases hside : O.side with
    | Buy =>
      rw [hside] at h
      simp only at h
      injection h with ha hb
      exact Or.inr ⟨O, rfl, ha.symm, Or.inl ⟨hside, hb.symm⟩⟩
    | Sell =>
      rw [hside] at h
      simp only at h
      injection h with ha hb
      exact Or.inr ⟨O, rfl, ha.symm, Or.inr ⟨hside, hb.symm⟩⟩

theorem cancel_order_wf {b : OrderBook} {i : Nat}
    {r : Except OrderBookError Unit} {b' : OrderBook}
    (hwf : BookWF b) (h : b.cancel_order i = (r, b')) :
    BookWF b' ∧ b'.last_sequence_number = b.last_sequence_number ∧
    b'.nextId = b.nextId := by
  rcases cancel_order_inv h with ⟨_, _, rfl⟩ | ⟨O, hg, hr, hcase⟩
  · exact ⟨hwf, rfl, rfl⟩
  · rcases hcase with ⟨hside, rfl⟩ | ⟨hside, rfl⟩
    · refine ⟨⟨ladderCancel_wf ⟨hwf.bidsSorted, hwf.bidsWF⟩ |>.1,
        hwf.asksSorted,
        ladderCancel_wf ⟨hwf.bidsSorted, hwf.bidsWF⟩ |>.2,
        hwf.asksWF, ?_⟩, rfl, rfl⟩
      intro lb hlb la hla
      obtain ⟨lb₀, h₀, hp⟩ := ladderCancel_levels lb hlb
      rw [hp]
      exact hwf.uncrossed lb₀ h₀ la hla
    · refine ⟨⟨hwf.bidsSorted,
        ladderCancel_wf ⟨hwf.asksSorted, hwf.asksWF⟩ |>.1,
        hwf.bidsWF,
        ladderCancel_wf ⟨hwf.asksSorted, hwf.asksWF⟩ |>.2, ?_⟩, rfl, rfl⟩
      intro lb hlb la hla
      obtain ⟨la₀, h₀, hp⟩ := ladderCancel_levels la hla
      rw [hp]
      exact hwf.uncrossed lb hlb la₀ h₀

theorem bookWF_of_fields {b b' : OrderBook} (hwf : BookWF b)
    (hb : b'.bids = b.bids) (ha : b'.asks = b.asks) : BookWF b' :=
  ⟨by rw [hb]; exact hwf.bidsSorted, by rw [ha]; exact hwf.asksSorted,
   by rw [hb]; exact hwf.bidsWF, by rw [ha]; exact hwf.asksWF,
   by rw [hb, ha]; exact hwf.uncrossed⟩

theorem match_market_order_wf {b : OrderBook} {o : Order}
    {r : Except OrderBookError (List Trade)} {b' : OrderBook}
    (hwf : BookWF b) (h : b.match_market_order o = (r, b')) :
    BookWF b' ∧ b'.last_sequence_number = b.last_sequence_number ∧
    b'.nextId = b.nextId := by
  unfold OrderBook.match_market_order at h
  obtain ⟨hwf', _, _, hseq, hnext, _⟩ := match_orders_spec hwf h
  exact ⟨hwf', hseq, hnext⟩

theorem match_fill_or_kill_wf {b : OrderBook} {o : Order}
    {r : Except OrderBookError (List Trade)} {b' : OrderBook}
    (hwf : BookWF b) (h : b.match_fill_or_kill o = (r, b')) :
    BookWF b' ∧ b'.last_sequence_number = b.last_sequence_number ∧
    b'.nextId = b.nextId := by
  unfold OrderBook.match_fill_or_kill at h
  by_cases hav : b.get_available_quantity_for_order o ≥ o.quantity
  · rw [if_pos hav] at h
    obtain ⟨hwf', _, _, hseq, hnext, _⟩ := match_orders_spec hwf h
    exact ⟨hwf', hseq, hnext⟩
  · rw [if_neg hav] at h
    injection h with h1 h2
    subst h2
    exact ⟨hwf, rfl, rfl⟩

theorem add_order_wf {b : OrderBook} {o : Order}
    {r : Except OrderBookError (List Trade)} {b' : OrderBook}
    (hwf : BookWF b) (h : b.add_order o = (r, b')) :
    BookWF b' ∧ b'.last_sequence_number = b.last_sequence_number ∧
    b'.nextId = b.nextId := by
  rcases add_order_inv h with ⟨_, _, rfl⟩ | ⟨_, _, _, rfl⟩ |
    ⟨_, _, _, _, rfl⟩ | ⟨_, _, _, r1, b1, hd, hres⟩
  · exact ⟨hwf, rfl, rfl⟩
  · exact ⟨hwf, rfl, rfl⟩
  · exact ⟨hwf, rfl, rfl⟩
  · have hstep : BookWF b1 ∧ b1.last_sequence_number = b.last_sequence_number ∧
        b1.nextId = b.nextId := by
      cases htyp : o.order_type with
      | Market =>
        rw [htyp] at hd
        exact match_market_order_wf hwf hd
      | FillOrKill =>
        rw [htyp] at hd
        exact match_fill_or_kill_wf hwf hd
      | ImmediateOrCancel =>
        rw [htyp] at hd
        unfold OrderBook.match_immediate_or_cancel at hd
        obtain ⟨hwf', _, _, hseq, hnext, _⟩ := match_orders_spec hwf hd
        exact ⟨hwf', hseq, hnext⟩
      | Limit =>
        rw [htyp] at hd
        exact add_to_book_and_match_wf hwf (by rw [htyp]; simp) hd
      | GoodTillCancel =>
        rw [htyp] at hd
        exact add_to_book_and_match_wf hwf (by rw [htyp]; simp) hd
      | GoodForDay =>
        rw [htyp] at hd
        exact add_to_book_and_match_wf hwf (by rw [htyp]; simp) hd
    obtain ⟨hwf1, hseq1, hnext1⟩ := hstep
    rcases hres with ⟨e, _, _, rfl⟩ | ⟨ts, _, _, rfl⟩
    · exact ⟨hwf1, hseq1, hnext1⟩
    · exact ⟨bookWF_of_fields hwf1 rfl rfl, hseq1, hnext1⟩

theorem modify_order_inv {b : OrderBook} {i : Nat} {np : Option Nat}
    {nq : Option Nat} {r : Except OrderBookError (List Trade)}
    {b' : OrderBook} (h : b.modify_order i np nq = (r, b')) :
    (idxGet b.orders i = none ∧
      r = Except.error (OrderBookError.OrderNotFound i) ∧ b' = b) ∨
    (∃ old_order, idxGet b.orders i = some old_order ∧
      ∃ b1, b.cancel_order i = (Except.ok (), b1) ∧
      ∃ r2 b2, ({ b1 with nextId := b1.nextId + 1 } : OrderBook).add_order
          { old_order with
             price := np.getD old_order.price,
             remaining_quantity := nq.getD old_order.remaining_quantity,
             id := b1.nextId } = (r2, b2) ∧
        ((∃ e, r2 = Except.error e ∧ r = r2 ∧ b' = b2) ∨
         (∃ ts, r2 = Except.ok ts ∧ r = r2 ∧
           b' = { b2 with stats := { b2.stats with
             modifications := b2.stats.modifications + 1 } }))) := by
  unfold OrderBook.modify_order at h
  cases hg : idxGet b.orders i with
  | none =>
    rw [hg] at h
    simp only at h
    injection h with ha hb
    exact Or.inl ⟨rfl, ha.symm, hb.symm⟩
  | some old_order =>
    rw [hg] at h
    simp only at h
    cases hc : b.cancel_order i with
    | mk rc b1 =>
      rw [hc] at h
      have hrc : rc = Except.ok () := by
        rcases cancel_order_inv hc with ⟨hn, _, _⟩ | ⟨O, _, hok, _⟩
        · rw [hg] at hn
          cases hn
        · exact hok
      subst hrc
      simp only at h
      cases ha : ({ b1 with nextId := b1.nextId + 1 } : OrderBook).add_order
          { old_order with
             price := np.getD old_order.price,
             remaining_quantity := nq.getD old_order.remaining_quantity,
             id := b1.nextId } with
      | mk r2 b2 =>
        rw [ha] at h
        refine Or.inr ⟨old_order, rfl, b1, rfl, r2, b2, ha, ?_⟩
        cases r2 with
        | error e =>
          simp only at h
          injection h with h1 h2
          exact Or.inl ⟨e, rfl, h1.symm, h2.symm⟩
        | ok ts =>
          simp only at h
          injection h with h1 h2
          exact Or.inr ⟨ts, rfl, h1.symm, h2.symm⟩

theorem modify_order_wf {b : OrderBook} {i : Nat} {np nq : Option Nat}
    {r : Except OrderBookError (List Trade)} {b' : OrderBook}
    (hwf : BookWF b) (h : b.modify_order i np nq = (r, b')) :
    BookWF b' := by
  rcases modify_order_inv h with ⟨_, _, rfl⟩ |
    ⟨old_order, hg, b1, hc, r2, b2, ha, hres⟩
  · exact hwf
  · obtain ⟨hwf1, _, _⟩ := cancel_order_wf hwf hc
    have hwf1' : BookWF ({ b1 with nextId := b1.nextId + 1 } : OrderBook) :=
      bookWF_of_fields hwf1 rfl rfl
    obtain ⟨hwf2, _, _⟩ := add_order_wf hwf1' ha
    rcases hres with ⟨e, _, _, rfl⟩ | ⟨ts, _, _, rfl⟩
    · exact hwf2
    · exact bookWF_of_fields hwf2 rfl rfl

theorem matchLevelAsk_err_shape {asks : List PriceLevel} {price : Nat}
    {incoming : Order} {maxq : Nat} {e : OrderBookError}
    {asks' : List PriceLevel}
    (h : matchLevelAsk asks price incoming maxq = (Except.error e, asks')) :
    e = OrderBookError.OrderNotFound incoming.id := by
  unfold matchLevelAsk at h
  cases hget : ladderGet asks price with
  | none =>
    rw [hget] at h
    injection h with h1 _
    injection h1 with h1
    exact h1.symm
  | some level =>
    rw [hget] at h
    simp only at h
    cases horders : level.orders with
    | nil =>
      rw [horders] at h
      simp only at h
      injection h with h1 _
      injection h1 with h1
      exact h1.symm
    | cons resting rest =>
      rw [horders] at h
      simp only at h
      split at h <;> (try split at h) <;> simp at h

theorem matchLevelBid_err_shape {bids : List PriceLevel} {price : Nat}
    {incoming : Order} {maxq : Nat} {e : OrderBookError}
    {bids' : List PriceLevel}
    (h : matchLevelBid bids price incoming maxq = (Except.error e, bids')) :
    e = OrderBookError.OrderNotFound incoming.id := by
  unfold matchLevelBid at h
  cases hget : ladderGet bids price with
  | none =>
    rw [hget] at h
    injection h with h1 _
    injection h1 with h1
    exact h1.symm
  | some level =>
    rw [hget] at h
    simp only at h
    cases horders : level.orders with
    | nil =>
      rw [horders] at h
      simp only at h
      injection h with h1 _
      injection h1 with h1
      exact h1.symm
    | cons resting rest =>
      rw [horders] at h
      simp only at h
      split at h <;> (try split at h) <;> simp at h

theorem matchLoopAsks_err (incoming : Order) :
    ∀ (fuel : Nat) (asks : List PriceLevel) (remaining : Nat)
      (e : OrderBookError) (asks' : List PriceLevel),
      matchLoopAsks incoming fuel asks remaining = (Except.error e, asks') →
      e = OrderBookError.OrderNotFound incoming.id := by
  intro fuel
  induction fuel with
  | zero =>
    intro asks remaining e asks' h
    simp [matchLoopAsks] at h
  | succ fuel ih =>
    intro asks remaining e asks' h
    by_cases hrem : remaining > 0
    · cases hhead : asks.head? with
      | none => simp [matchLoopAsks, hrem, hhead] at h
      | some level =>
        simp only [matchLoopAsks, if_pos hrem, hhead] at h
        by_cases hguard : incoming.price ≥ level.price ∨
            incoming.order_type = OrderType.Market
        · rw [if_pos hguard] at h
          cases hm : matchLevelAsk asks level.price incoming remaining with
          | mk res asks1 =>
            rw [hm] at h
            cases res with
            | error e1 =>
              simp only at h
              injection h with h1 _
              injection h1 with h1
              rw [← h1]
              exact matchLevelAsk_err_shape hm
            | ok trade =>
              simp only at h
              cases hrec : matchLoopAsks incoming fuel asks1
                  (remaining - trade.quantity) with
              | mk res2 asks2 =>
                rw [hrec] at h
                cases res2 with
                | error e2 =>
                  simp only at h
                  injection h with h1 _
                  injection h1 with h1
                  rw [← h1]
                  exact ih asks1 (remaining - trade.quantity) e2 asks2 hrec
                | ok ts2 => simp at h
        · rw [if_neg hguard] at h
          simp at h
    · simp [matchLoopAsks, hrem] at h

theorem matchLoopBids_err (incoming : Order) :
    ∀ (fuel : Nat) (bids : List PriceLevel) (remaining : Nat)
      (e : OrderBookError) (bids' : List PriceLevel),
      matchLoopBids incoming fuel bids remaining = (Except.error e, bids') →
      e = OrderBookError.OrderNotFound incoming.id := by
  intro fuel
  induction fuel with
  | zero =>
    intro bids remaining e bids' h
    simp [matchLoopBids] at h
  | succ fuel ih =>
    intro bids remaining e bids' h
    by_cases hrem : remaining > 0
    · cases hlast : bids.getLast? with
      | none => simp [matchLoopBids, hrem, hlast] at h
      | some level =>
        simp only [matchLoopBids, if_pos hrem, hlast] at h
        by_cases hguard : incoming.price ≤ level.price ∨
            incoming.order_type = OrderType.Market
        · rw [if_pos hguard] at h
          cases hm : matchLevelBid bids level.price incoming remaining with
          | mk res bids1 =>
            rw [hm] at h
            cases res with
            | error e1 =>
              simp only at h
              injection h with h1 _
              injection h1 with h1
              rw [← h1]
              exact matchLevelBid_err_shape hm
            | ok trade =>
              simp only at h
              cases hrec : matchLoopBids incoming fuel bids1
                  (remaining - trade.quantity) with
              | mk res2 bids2 =>
                rw [hrec] at h
                cases res2 with
                | error e2 =>
                  simp only at h
                  injection h with h1 _
                  injection h1 with h1
                  rw [← h1]
                  exact ih bids1 (remaining - trade.quantity) e2 bids2 hrec
                | ok ts2 => simp at h
        · rw [if_neg hguard] at h
          simp at h
    · simp [matchLoopBids, hrem] at h

theorem match_orders_err {b : OrderBook} {incoming : Order}
    {e : OrderBookError} {b' : OrderBook}
    (h : b.match_orders incoming = (Except.error e, b')) :
    e = OrderBookError.OrderNotFound incoming.id := by
  unfold OrderBook.match_orders at h
  cases hside : incoming.side with
  | Buy =>
    rw [hside] at h
    cases hl : matchLoopAsks incoming
        (ordersCountLs b.asks + incoming.remaining_quantity)
        b.asks incoming.remaining_quantity with
    | mk rr asks' =>
      rw [hl] at h
      simp only at h
      injection h with h1 _
      rw [h1] at hl
      exact matchLoopAsks_err incoming _ _ _ _ _ hl
  | Sell =>
    rw [hside] at h
    cases hl : matchLoopBids incoming
        (ordersCountLs b.bids + incoming.remaining_quantity)
        b.bids incoming.remaining_quantity with
    | mk rr bids' =>
      rw [hl] at h
      simp only at h
      injection h with h1 _
      rw [h1] at hl
      exact matchLoopBids_err incoming _ _ _ _ _ hl

theorem add_order_err {b : OrderBook} {o : Order} {e : OrderBookError}
    {b' : OrderBook} (h : b.add_order o = (Except.error e, b')) :
    ¬ isSeqGap e := by
  rcases add_order_inv h with ⟨_, he, _⟩ | ⟨_, _, he, _⟩ |
    ⟨_, _, _, he, _⟩ | ⟨_, _, _, r1, b1, hd, hres⟩
  · injection he with he
    rw [he]
    simp [isSeqGap]
  · injection he with he
    rw [he]
    simp [isSeqGap]
  · injection he with he
    rw [he]
    simp [isSeqGap]
  · rcases hres with ⟨e1, he1, hr, _⟩ | ⟨ts, hts, hr, _⟩
    · have hee : e = e1 := Except.error.inj (hr.trans he1)
      rw [he1, ← hee] at hd
      cases htyp : o.order_type with
      | Market =>
        rw [htyp] at hd
        simp only at hd
        unfold OrderBook.match_market_order at hd
        simp only at hd
        rw [match_orders_err hd]
        simp [isSeqGap]
      | FillOrKill =>
        rw [htyp] at hd
        simp only at hd
        unfold OrderBook.match_fill_or_kill at hd
        by_cases hav : b.get_available_quantity_for_order o ≥ o.quantity
        · rw [if_pos hav] at hd
          rw [match_orders_err hd]
          simp [isSeqGap]
        · rw [if_neg hav] at hd
          simp at hd
      | ImmediateOrCancel =>
        rw [htyp] at hd
        simp only at hd
        unfold OrderBook.match_immediate_or_cancel at hd
        rw [match_orders_err hd]
        simp [isSeqGap]
      | Limit =>
        rw [htyp] at hd
        simp only at hd
        unfold OrderBook.add_to_book_and_match at hd
        cases hmo : b.match_orders o with
        | mk rm bm =>
          rw [hmo] at hd
          cases rm with
          | error em =>
            simp only at hd
            injection hd with hd1 _
            injection hd1 with hd1
            rw [← hd1, match_orders_err hmo]
            simp [isSeqGap]
          | ok tsm =>
            simp only at hd
            split at hd <;> simp at hd
      | GoodTillCancel =>
        rw [htyp] at hd
        simp only at hd
        unfold OrderBook.add_to_book_and_match at hd
        cases hmo : b.match_orders o with
        | mk rm bm =>
          rw [hmo] at hd
          cases rm with
          | error em =>
            simp only at hd
            injection hd with hd1 _
            injection hd1 with hd1
            rw [← hd1, match_orders_err hmo]
            simp [isSeqGap]
          | ok tsm =>
            simp only at hd
            split at hd <;> simp at hd
      | GoodForDay =>
        rw [htyp] at hd
        simp only at hd
        unfold OrderBook.add_to_book_and_match at hd
        cases hmo : b.match_orders o with
        | mk rm bm =>
          rw [hmo] at hd
          cases rm with
          | error em =>
            simp only at hd
            injection hd with hd1 _
            injection hd1 with hd1
            rw [← hd1, match_orders_err hmo]
            simp [isSeqGap]
          | ok tsm =>
            simp only at hd
            split at hd <;> simp at hd
    · rw [hts] at hr
      cases hr

theorem cancel_order_err {b : OrderBook} {i : Nat} {e : OrderBookError}
    {b' : OrderBook} (h : b.cancel_order i = (Except.error e, b')) :
    e = OrderBookError.OrderNotFound i := by
  rcases cancel_order_inv h with ⟨_, he, _⟩ | ⟨O, _, hok, _⟩
  · exact Except.error.inj he
  · cases hok

theorem modify_order_err {b : OrderBook} {i : Nat} {np nq : Option Nat}
    {e : OrderBookError} {b' : OrderBook}
    (h : b.modify_order i np nq = (Except.error e, b')) :
    ¬ isSeqGap e := by
  rcases modify_order_inv h with ⟨_, he, _⟩ |
    ⟨old_order, _, b1, _, r2, b2, ha, hres⟩
  · rw [Except.error.inj he]
    simp [isSeqGap]
  · rcases hres with ⟨e2, he2, hr, _⟩ | ⟨ts, hts, hr, _⟩
    · have hee : e = e2 := Except.error.inj (hr.trans he2)
      rw [he2, ← hee] at ha
      exact add_order_err ha
    · rw [hts] at hr
      cases hr

theorem clear_all_orders_wf (b : OrderBook) :
    BookWF b.clear_all_orders := by
  refine ⟨?_, ?_, ?_, ?_, ?_⟩ <;>
    simp [OrderBook.clear_all_orders, ladderSorted]

theorem addSnapshotOrders_wf (side : Side) :
    ∀ (lvs : List LevelInfo) (b : OrderBook) (i : Nat)
      (r : Except OrderBookError Unit) (b' : OrderBook),
      BookWF b →
      addSnapshotOrders side b lvs i = (r, b') →
      BookWF b' := by
  intro lvs
  induction lvs with
  | nil =>
    intro b i r b' hwf h
    simp [addSnapshotOrders] at h
    rw [← h.2]
    exact hwf
  | cons lv rest ihl =>
    intro b i r b' hwf h
    unfold addSnapshotOrders at h
    simp only at h
    cases ha : ({ b with nextId := b.nextId + 1 } : OrderBook).add_order
        { id := b.nextId, side := side, order_type := OrderType.Limit,
          price := lv.price, quantity := lv.quantity,
          remaining_quantity := lv.quantity,
          user_id := some (snapshotUserTag side i) } with
    | mk r1 b1 =>
      rw [ha] at h
      have hwfx : BookWF ({ b with nextId := b.nextId + 1 } : OrderBook) :=
        bookWF_of_fields hwf rfl rfl
      have hwf1 : BookWF b1 := (add_order_wf hwfx ha).1
      cases r1 with
      | error e =>
        simp only at h
        injection h with h1 h2
        rw [← h2]
        exact hwf1
      | ok u =>
        simp only at h
        exact ihl b1 (i + 1) r b' hwf1 h

theorem addSnapshotOrders_err (side : Side) :
    ∀ (lvs : List LevelInfo) (b : OrderBook) (i : Nat)
      (e : OrderBookError) (b' : OrderBook),
      addSnapshotOrders side b lvs i = (Except.error e, b') →
      ¬ isSeqGap e := by
  intro lvs
  induction lvs with
  | nil =>
    intro b i e b' h
    simp [addSnapshotOrders] at h
  | cons lv rest ihl =>
    intro b i e b' h
    unfold addSnapshotOrders at h
    simp only at h
    cases ha : ({ b with nextId := b.nextId + 1 } : OrderBook).add_order
        { id := b.nextId, side := side, order_type := OrderType.Limit,
          price := lv.price, quantity := lv.quantity,
          remaining_quantity := lv.quantity,
          user_id := some (snapshotUserTag side i) } with
    | mk r1 b1 =>
      rw [ha] at h
      cases r1 with
      | error e1 =>
        simp only at h
        injection h with h1 h2
        rw [← Except.error.inj h1]
        exact add_order_err ha
      | ok u =>
        simp only at h
        exact ihl b1 (i + 1) e b' h

theorem update_orderbook_with_snapshot_wf {b : OrderBook}
    {snapshot : BookSnapshotMessage} {r : Except OrderBookError Unit}
    {b' : OrderBook}
    (h : update_orderbook_with_snapshot b snapshot = (r, b')) :
    BookWF b' := by
  unfold update_orderbook_with_snapshot at h
  simp only at h
  cases hb : addSnapshotOrders Side.Buy b.clear_all_orders snapshot.bids 0 with
  | mk r1 b1 =>
    rw [hb] at h
    have hwf1 : BookWF b1 :=
      addSnapshotOrders_wf Side.Buy snapshot.bids b.clear_all_orders 0 r1 b1
        (clear_all_orders_wf b) hb
    cases r1 with
    | error e =>
      simp only at h
      injection h with _ h2
      rw [← h2]
      exact hwf1
    | ok u =>
      simp only at h
      exact addSnapshotOrders_wf Side.Sell snapshot.asks b1 0 r b' hwf1 h

theorem update_orderbook_with_snapshot_err {b : OrderBook}
    {snapshot : BookSnapshotMessage} {e : OrderBookError} {b' : OrderBook}
    (h : update_orderbook_with_snapshot b snapshot = (Except.error e, b')) :
    ¬ isSeqGap e := by
  unfold update_orderbook_with_snapshot at h
  simp only at h
  cases hb : addSnapshotOrders Side.Buy b.clear_all_orders snapshot.bids 0 with
  | mk r1 b1 =>
    rw [hb] at h
    cases r1 with
    | error e1 =>
      simp only at h
      injection h with h1 h2
      rw [← Except.error.inj h1]
      exact addSnapshotOrders_err Side.Buy snapshot.bids b.clear_all_orders
        0 e1 b1 hb
    | ok u =>
      simp only at h
      exact addSnapshotOrders_err Side.Sell snapshot.asks b1 0 e b' h

theorem match_orders_fields {b : OrderBook} {incoming : Order}
    {r : Except OrderBookError (List Trade)} {b' : OrderBook}
    (h : b.match_orders incoming = (r, b')) :
    b'.orders = b.orders ∧ b'.stats = b.stats ∧
    b'.last_sequence_number = b.last_sequence_number ∧
    b'.nextId = b.nextId := by
  unfold OrderBook.match_orders at h
  cases hside : incoming.side with
  | Buy =>
    rw [hside] at h
    simp only at h
    injection h with _ h2
    rw [← h2]
    exact ⟨rfl, rfl, rfl, rfl⟩
  | Sell =>
    rw [hside] at h
    simp only at h
    injection h with _ h2
    rw [← h2]
    exact ⟨rfl, rfl, rfl, rfl⟩

theorem add_order_seq {b : OrderBook} {o : Order}
    {r : Except OrderBookError (List Trade)} {b' : OrderBook}
    (h : b.add_order o = (r, b')) :
    b'.last_sequence_number = b.last_sequence_number ∧
    b'.nextId = b.nextId := by
  rcases add_order_inv h with ⟨_, _, rfl⟩ | ⟨_, _, _, rfl⟩ |
    ⟨_, _, _, _, rfl⟩ | ⟨_, _, _, r1, b1, hd, hres⟩
  · exact ⟨rfl, rfl⟩
  · exact ⟨rfl, rfl⟩
  · exact ⟨rfl, rfl⟩
  · have hstep : b1.last_sequence_number = b.last_sequence_number ∧
        b1.nextId = b.nextId := by
      cases htyp : o.order_type with
      | Market =>
        rw [htyp] at hd
        simp only at hd
        unfold OrderBook.match_market_order at hd
        simp only at hd
        exact ⟨(match_orders_fields hd).2.2.1, (match_orders_fields hd).2.2.2⟩
      | FillOrKill =>
        rw [htyp] at hd
        simp only at hd
        unfold OrderBook.match_fill_or_kill at hd
        by_cases hav : b.get_available_quantity_for_order o ≥ o.quantity
        · rw [if_pos hav] at hd
          exact ⟨(match_orders_fields hd).2.2.1,
            (match_orders_fields hd).2.2.2⟩
        · rw [if_neg hav] at hd
          injection hd with _ h2
          rw [← h2]
          exact ⟨rfl, rfl⟩
      | ImmediateOrCancel =>
        rw [htyp] at hd
        simp only at hd
        unfold OrderBook.match_immediate_or_cancel at hd
        exact ⟨(match_orders_fields hd).2.2.1, (match_orders_fields hd).2.2.2⟩
      | Limit =>
        rw [htyp] at hd
        simp only at hd
        unfold OrderBook.add_to_book_and_match at hd
        cases hmo : b.match_orders o with
        | mk rm bm =>
          rw [hmo] at hd
          cases rm with
          | error em =>
            simp only at hd
            injection hd with _ h2
            rw [← h2]
            exact ⟨(match_orders_fields hmo).2.2.1,
              (match_orders_fields hmo).2.2.2⟩
          | ok tsm =>
            simp only at hd
            split at hd <;>
            · injection hd with _ h2
              rw [← h2]
              obtain ⟨_, _, hs, hn⟩ := match_orders_fields hmo
              first
              | exact ⟨hs, hn⟩
              | (obtain ⟨_, _, hseq2, hnext2, _, _⟩ := add_to_book_fields bm _
                 exact ⟨hseq2.trans hs, hnext2.trans hn⟩)
      | GoodTillCancel =>
        rw [htyp] at hd
        simp only at hd
        unfold OrderBook.add_to_book_and_match at hd
        cases hmo : b.match_orders o with
        | mk rm bm =>
          rw [hmo] at hd
          cases rm with
          | error em =>
            simp only at hd
            injection hd with _ h2
            rw [← h2]
            exact ⟨(match_orders_fields hmo).2.2.1,
              (match_orders_fields hmo).2.2.2⟩
          | ok tsm =>
            simp only at hd
            split at hd <;>
            · injection hd with _ h2
              rw [← h2]
              obtain ⟨_, _, hs, hn⟩ := match_orders_fields hmo
              first
              | exact ⟨hs, hn⟩
              | (obtain ⟨_, _, hseq2, hnext2, _, _⟩ := add_to_book_fields bm _
                 exact ⟨hseq2.trans hs, hnext2.trans hn⟩)
      | GoodForDay =>
        rw [htyp] at hd
        simp only at hd
        unfold OrderBook.add_to_book_and_match at hd
        cases hmo : b.match_orders o with
        | mk rm bm =>
          rw [hmo] at hd
          cases rm with
          | error em =>
            simp only at hd
            injection hd with _ h2
            rw [← h2]
            exact ⟨(match_orders_fields hmo).2.2.1,
              (match_orders_fields hmo).2.2.2⟩
          | ok tsm =>
            simp only at hd
            split at hd <;>
            · injection hd with _ h2
              rw [← h2]
              obtain ⟨_, _, hs, hn⟩ := match_orders_fields hmo
              first
              | exact ⟨hs, hn⟩
              | (obtain ⟨_, _, hseq2, hnext2, _, _⟩ := add_to_book_fields bm _
                 exact ⟨hseq2.trans hs, hnext2.trans hn⟩)
    rcases hres with ⟨e, _, _, rfl⟩ | ⟨ts, _, _, rfl⟩
    · exact hstep
    · exact hstep

theorem cancel_order_seq {b : OrderBook} {i : Nat}
    {r : Except OrderBookError Unit} {b' : OrderBook}
    (h : b.cancel_order i = (r, b')) :
    b'.last_sequence_number = b.last_sequence_number ∧
    b'.nextId = b.nextId := by
  rcases cancel_order_inv h with ⟨_, _, rfl⟩ | ⟨O, _, _, hcase⟩
  · exact ⟨rfl, rfl⟩
  · rcases hcase with ⟨_, rfl⟩ | ⟨_, rfl⟩ <;> exact ⟨rfl, rfl⟩

theorem modify_order_seq {b : OrderBook} {i : Nat} {np nq : Option Nat}
    {r : Except OrderBookError (List Trade)} {b' : OrderBook}
    (h : b.modify_order i np nq = (r, b')) :
    b'.last_sequence_number = b.last_sequence_number := by
  rcases modify_order_inv h with ⟨_, _, rfl⟩ |
    ⟨old_order, _, b1, hc, r2, b2, ha, hres⟩
  · rfl
  · have h1 := (cancel_order_seq hc).1
    have h2 := (add_order_seq ha).1
    rcases hres with ⟨e, _, _, rfl⟩ | ⟨ts, _, _, rfl⟩
    · rw [h2]
      exact h1
    · show b2.last_sequence_number = b.last_sequence_number
      rw [h2]
      exact h1

theorem addSnapshotOrders_seq (side : Side) :
    ∀ (lvs : List LevelInfo) (b : OrderBook) (i : Nat)
      (r : Except OrderBookError Unit) (b' : OrderBook),
      addSnapshotOrders side b lvs i = (r, b') →
      b'.last_sequence_number = b.last_sequence_number := by
  intro lvs
  induction lvs with
  | nil =>
    intro b i r b' h
    simp [addSnapshotOrders] at h
    rw [← h.2]
  | cons lv rest ihl =>
    intro b i r b' h
    unfold addSnapshotOrders at h
    simp only at h
    cases ha : ({ b with nextId := b.nextId + 1 } : OrderBook).add_order
        { id := b.nextId, side := side, order_type := OrderType.Limit,
          price := lv.price, quantity := lv.quantity,
          remaining_quantity := lv.quantity,
          user_id := some (snapshotUserTag side i) } with
    | mk r1 b1 =>
      rw [ha] at h
      have hs : b1.last_sequence_number = b.last_sequence_number :=
        (add_order_seq ha).1
      cases r1 with
      | error e =>
        simp only at h
        injection h with _ h2
        rw [← h2]
        exact hs
      | ok u =>
        simp only at h
        rw [ihl b1 (i + 1) r b' h]
        exact hs

theorem update_orderbook_with_snapshot_seq {b : OrderBook}
    {snapshot : BookSnapshotMessage} {r : Except OrderBookError Unit}
    {b' : OrderBook}
    (h : update_orderbook_with_snapshot b snapshot = (r, b')) :
    b'.last_sequence_number = b.last_sequence_number := by
  unfold update_orderbook_with_snapshot at h
  simp only at h
  cases hb : addSnapshotOrders Side.Buy b.clear_all_orders snapshot.bids 0 with
  | mk r1 b1 =>
    rw [hb] at h
    have hs1 : b1.last_sequence_number = b.last_sequence_number :=
      addSnapshotOrders_seq Side.Buy snapshot.bids b.clear_all_orders 0 r1 b1 hb
    cases r1 with
    | error e =>
      simp only at h
      injection h with _ h2
      rw [← h2]
      exact hs1
    | ok u =>
      simp only at h
      rw [addSnapshotOrders_seq Side.Sell snapshot.asks b1 0 r b' h]
      exact hs1

theorem process_gap {p : MarketDataProcessor} {b : OrderBook}
    {m : MarketDataMessage}
    (hle : m.sequence_number ≤ b.last_sequence_number) :
    p.process_market_data b m =
      (Except.error (OrderBookError.SequenceGap
          (b.last_sequence_number + 1) m.sequence_number),
       { p with stats := { p.stats with
          sequence_gaps := p.stats.sequence_gaps + 1 } },
       b) := by
  unfold MarketDataProcessor.process_market_data
  rw [if_pos hle]

theorem process_spec {p : MarketDataProcessor} {b : OrderBook}
    {m : MarketDataMessage} {r : Except OrderBookError Bool}
    {p' : MarketDataProcessor} {b' : OrderBook}
    (hwf : BookWF b)
    (h : p.process_market_data b m = (r, p', b')) :
    BookWF b' ∧
    b.last_sequence_number ≤ b'.last_sequence_number ∧
    (m.sequence_number ≤ b.last_sequence_number →
      r = Except.error (OrderBookError.SequenceGap
        (b.last_sequence_number + 1) m.sequence_number) ∧
      p'.stats.sequence_gaps = p.stats.sequence_gaps + 1 ∧ b' = b) ∧
    (b.last_sequence_number < m.sequence_number →
      b'.last_sequence_number = m.sequence_number ∧
      p'.stats.sequence_gaps = p.stats.sequence_gaps ∧
      ∀ e, r = Except.error e → ¬ isSeqGap e) := by
  by_cases hle : m.sequence_number ≤ b.last_sequence_number
  · rw [process_gap hle] at h
    injection h with h1 h2
    injection h2 with h2 h3
    subst h1
    subst h2
    subst h3
    refine ⟨hwf, le_refl _, fun _ => ⟨rfl, rfl, rfl⟩, fun hlt => ?_⟩
    omega
  · have hlt : b.last_sequence_number < m.sequence_number := by omega
    unfold MarketDataProcessor.process_market_data at h
    rw [if_neg hle] at h
    simp only at h
    have hwf1 : BookWF ({ b with
        last_sequence_number := m.sequence_number } : OrderBook) :=
      bookWF_of_fields hwf rfl rfl
    have key : BookWF b' ∧ b'.last_sequence_number = m.sequence_number ∧
        p'.stats.sequence_gaps = p.stats.sequence_gaps ∧
        (∀ e, r = Except.error e → ¬ isSeqGap e) := by
      cases m with
      | NewOrder msg =>
        simp only [MarketDataMessage.sequence_number] at h hwf1 ⊢
        cases ha : ({ b with
            last_sequence_number := msg.sequence_number,
            nextId := b.nextId + 1 } : OrderBook).add_order
            { id := b.nextId, side := msg.side, order_type := msg.order_type,
              price := msg.price, quantity := msg.quantity,
              remaining_quantity := msg.quantity, user_id := none } with
        | mk r1 b1 =>
          rw [ha] at h
          have hwf2 : BookWF ({ b with
              last_sequence_number := msg.sequence_number,
              nextId := b.nextId + 1 } : OrderBook) :=
            bookWF_of_fields hwf rfl rfl
          have hseq1 : b1.last_sequence_number = msg.sequence_number :=
            (add_order_seq ha).1
          have hbwf1 : BookWF b1 := (add_order_wf hwf2 ha).1
          cases r1 with
          | error e =>
            simp only at h
            injection h with h1 h2
            injection h2 with h2 h3
            subst h2
            subst h3
            refine ⟨hbwf1, hseq1, rfl, fun e1 he1 => ?_⟩
            rw [← Except.error.inj (h1.trans he1)]
            exact add_order_err ha
          | ok ts =>
            simp only at h
            injection h with h1 h2
            injection h2 with h2 h3
            subst h2
            subst h3
            exact ⟨hbwf1, hseq1, rfl,
              fun e1 he1 => Except.noConfusion (h1.trans he1)⟩
      | CancelOrder msg =>
        simp only [MarketDataMessage.sequence_number] at h hwf1 ⊢
        cases hc : ({ b with
            last_sequence_number := msg.sequence_number } : OrderBook).cancel_order
            msg.order_id with
        | mk r1 b1 =>
          rw [hc] at h
          have hseq1 : b1.last_sequence_number = msg.sequence_number :=
            (cancel_order_seq hc).1
          have hbwf1 : BookWF b1 := (cancel_order_wf hwf1 hc).1
          cases r1 with
          | error e =>
            simp only at h
            injection h with h1 h2
            injection h2 with h2 h3
            subst h2
            subst h3
            refine ⟨hbwf1, hseq1, rfl, fun e1 he1 => ?_⟩
            rw [← Except.error.inj (h1.trans he1), cancel_order_err hc]
            simp [isSeqGap]
          | ok u =>
            simp only at h
            injection h with h1 h2
            injection h2 with h2 h3
            subst h2
            subst h3
            exact ⟨hbwf1, hseq1, rfl,
              fun e1 he1 => Except.noConfusion (h1.trans he1)⟩
      | ModifyOrder msg =>
        simp only [MarketDataMessage.sequence_number] at h hwf1 ⊢
        cases hc : ({ b with
            last_sequence_number := msg.sequence_number } : OrderBook).modify_order
            msg.order_id (some (msg.new_price.getD 0)) msg.new_quantity with
        | mk r1 b1 =>
          rw [hc] at h
          have hseq1 : b1.last_sequence_number = msg.sequence_number :=
            modify_order_seq hc
          have hbwf1 : BookWF b1 := modify_order_wf hwf1 hc
          cases r1 with
          | error e =>
            simp only at h
            injection h with h1 h2
            injection h2 with h2 h3
            subst h2
            subst h3
            refine ⟨hbwf1, hseq1, rfl, fun e1 he1 => ?_⟩
            rw [← Except.error.inj (h1.trans he1)]
            exact modify_order_err hc
          | ok ts =>
            simp only at h
            injection h with h1 h2
            injection h2 with h2 h3
            subst h2
            subst h3
            exact ⟨hbwf1, hseq1, rfl,
              fun e1 he1 => Except.noConfusion (h1.trans he1)⟩
      | Trade msg =>
        simp only [MarketDataMessage.sequence_number] at h hwf1 ⊢
        injection h with h1 h2
        injection h2 with h2 h3
        subst h2
        subst h3
        exact ⟨hwf1, rfl, rfl,
          fun e1 he1 => Except.noConfusion (h1.trans he1)⟩
      | BookSnapshot msg =>
        simp only [MarketDataMessage.sequence_number] at h hwf1 ⊢
        cases hu : update_orderbook_with_snapshot ({ b with
            last_sequence_number := msg.sequence_number } : OrderBook) msg with
        | mk r1 b1 =>
          rw [hu] at h
          have hseq1 : b1.last_sequence_number = msg.sequence_number :=
            update_orderbook_with_snapshot_seq hu
          have hbwf1 : BookWF b1 := update_orderbook_with_snapshot_wf hu
          cases r1 with
          | error e =>
            simp only at h
            injection h with h1 h2
            injection h2 with h2 h3
            subst h2
            subst h3
            refine ⟨hbwf1, hseq1, rfl, fun e1 he1 => ?_⟩
            rw [← Except.error.inj (h1.trans he1)]
            exact update_orderbook_with_snapshot_err hu
          | ok u =>
            simp only at h
            injection h with h1 h2
            injection h2 with h2 h3
            subst h2
            subst h3
            exact ⟨hbwf1, hseq1, rfl,
              fun e1 he1 => Except.noConfusion (h1.trans he1)⟩
    exact ⟨key.1, by rw [key.2.1]; omega, fun hc => absurd hc hle,
      fun _ => ⟨key.2.1, key.2.2.1, key.2.2.2⟩⟩

theorem matchLoopAsks_nil (incoming : Order) (fuel : Nat) (remaining : Nat) :
    matchLoopAsks incoming fuel [] remaining = (Except.ok [], []) := by
  cases fuel with
  | zero => simp [matchLoopAsks]
  | succ fuel =>
    by_cases hrem : remaining > 0 <;> simp [matchLoopAsks, hrem]

theorem matchLoopBids_nil (incoming : Order) (fuel : Nat) (remaining : Nat) :
    matchLoopBids incoming fuel [] remaining = (Except.ok [], []) := by
  cases fuel with
  | zero => simp [matchLoopBids]
  | succ fuel =>
    by_cases hrem : remaining > 0 <;> simp [matchLoopBids, hrem]

theorem ladderGet_eq_none {ls : List PriceLevel} {p : Nat}
    (h : ∀ l ∈ ls, l.price ≠ p) : ladderGet ls p = none := by
  induction ls with
  | nil => simp [ladderGet]
  | cons a as iha =>
    simp only [ladderGet, if_neg (h a (by simp))]
    exact iha (fun l hl => h l (by simp [hl]))

theorem availAsks_zero {asks : List PriceLevel} {p : Nat} {lh : PriceLevel}
    (hs : ladderSorted asks) (hh : asks.head? = some lh) (hp : p < lh.price) :
    availAsks asks p = 0 := by
  have hnil : asks.filter (fun l => l.price ≤ p) = [] := by
    rw [List.filter_eq_nil_iff]
    intro l hl
    have := head_le_price hs hl hh
    simp only [decide_eq_true_eq]
    omega
  simp [availAsks, hnil]

theorem availBids_zero {bids : List PriceLevel} {p : Nat} {lh : PriceLevel}
    (hs : ladderSorted bids) (hh : bids.getLast? = some lh) (hp : lh.price < p) :
    availBids bids p = 0 := by
  have hnil : bids.filter (fun l => p ≤ l.price) = [] := by
    rw [List.filter_eq_nil_iff]
    intro l hl
    have := price_le_getLast hs hl hh
    simp only [decide_eq_true_eq]
    omega
  simp [availBids, hnil]

theorem get_available_buy {b : OrderBook} {o : Order}
    (hside : o.side = Side.Buy) :
    b.get_available_quantity_for_order o = availAsks b.asks o.price := by
  unfold OrderBook.get_available_quantity_for_order
  rw [hside]
  rfl

theorem get_available_sell {b : OrderBook} {o : Order}
    (hside : o.side = Side.Sell) :
    b.get_available_quantity_for_order o = availBids b.bids o.price := by
  unfold OrderBook.get_available_quantity_for_order
  rw [hside]
  rfl

theorem orders_sublist_ladderOrders {ls : List PriceLevel} {l : PriceLevel}
    (hm : l ∈ ls) : l.orders.Sublist (ladderOrders ls) := by
  induction ls with
  | nil => simp at hm
  | cons a as iha =>
    rcases List.mem_cons.mp hm with rfl | hm
    · rw [ladderOrders_cons]
      exact List.sublist_append_left _ _
    · rw [ladderOrders_cons]
      exact (iha hm).trans (List.sublist_append_right _ _)

theorem ladderRemoveLevel_price_ne {ls : List PriceLevel} {p : Nat}
    (hs : ladderSorted ls) :
    ∀ lx ∈ ladderRemoveLevel ls p, lx.price ≠ p := by
  induction ls with
  | nil => simp [ladderRemoveLevel]
  | cons a as iha =>
    obtain ⟨hrel, htail⟩ := List.pairwise_cons.mp hs
    intro lx hlx
    by_cases ha : a.price = p
    · rw [ladderRemoveLevel, if_pos ha] at hlx
      have := hrel lx hlx
      omega
    · rw [ladderRemoveLevel, if_neg ha] at hlx
      rcases List.mem_cons.mp hlx with rfl | hlx
      · exact ha
      · exact iha htail lx hlx

theorem ladderSet_mem_ne {ls : List PriceLevel} {p : Nat} {lnew : PriceLevel}
    (hs : ladderSorted ls) :
    ∀ lx ∈ ladderSet ls p lnew, lx = lnew ∨ (lx ∈ ls ∧ lx.price ≠ p) := by
  induction ls with
  | nil => simp [ladderSet]
  | cons a as iha =>
    obtain ⟨hrel, htail⟩ := List.pairwise_cons.mp hs
    intro lx hlx
    by_cases ha : a.price = p
    · rw [ladderSet, if_pos ha] at hlx
      rcases List.mem_cons.mp hlx with rfl | hlx
      · exact Or.inl rfl
      · have := hrel lx hlx
        exact Or.inr ⟨by simp [hlx], by omega⟩
    · rw [ladderSet, if_neg ha] at hlx
      rcases List.mem_cons.mp hlx with rfl | hlx
      · exact Or.inr ⟨by simp, ha⟩
      · rcases iha htail lx hlx with h | ⟨hm, hp⟩
        · exact Or.inl h
        · exact Or.inr ⟨by simp [hm], hp⟩

theorem ladderCancel_idFree {ls : List PriceLevel} {p i : Nat}
    (hs : ladderSorted ls)
    (hloc : ∀ l ∈ ls, ∀ o ∈ l.orders, o.id = i → l.price = p)
    (hcnt : (ladderOrders ls).countP (fun o => o.id == i) ≤ 1) :
    ∀ o ∈ ladderOrders (ladderCancel ls p i), o.id ≠ i := by
  cases hget : ladderGet ls p with
  | none =>
    rw [ladderCancel_eq_none hget]
    intro o ho hid
    obtain ⟨l, hl, hol⟩ := mem_ladderOrders.mp ho
    have hp := hloc l hl o hol hid
    have hsome := ladderGet_isSome_of_mem hl
    rw [hp, hget] at hsome
    simp at hsome
  | some l =>
    obtain ⟨hmem, hpr⟩ := ladderGet_mem hget
    have hrml : ∀ o ∈ ladderOrders (ladderRemoveLevel ls p), o.id ≠ i := by
      intro o ho hid
      obtain ⟨lx, hlx, hox⟩ := mem_ladderOrders.mp ho
      have hlx' := (ladderRemoveLevel_sublist ls p).mem hlx
      exact ladderRemoveLevel_price_ne hs lx hlx (hloc lx hlx' o hox hid)
    rw [ladderCancel_eq_some hget]
    cases hr : removeFirstById l.orders i with
    | mk ro os' =>
      cases ro with
      | none =>
        obtain ⟨hos, hnone⟩ := removeFirstById_none hr
        rw [remove_order_eq_none hr]
        intro o ho hid
        split at ho
        · exact hrml o ho hid
        · obtain ⟨lx, hlx, hox⟩ := mem_ladderOrders.mp ho
          rcases ladderSet_mem_ne hs lx hlx with hx | ⟨hm, hp⟩
          · subst hx
            exact hnone o hox hid
          · exact hp (hloc lx hm o hox hid)
      | some oo =>
        obtain ⟨hom, hoid, hsub, hsum, hcnt1⟩ := removeFirstById_some hr
        have hcnt_l : l.orders.countP (fun o => o.id == i) ≤ 1 :=
          le_trans ((orders_sublist_ladderOrders hmem).countP_le _) hcnt
        have hcnt0 : os'.countP (fun o => o.id == i) = 0 := by omega
        rw [remove_order_eq_some hr]
        intro o ho hid
        split at ho
        · exact hrml o ho hid
        · obtain ⟨lx, hlx, hox⟩ := mem_ladderOrders.mp ho
          rcases ladderSet_mem_ne hs lx hlx with hx | ⟨hm, hp⟩
          · have hxo : lx.orders = os' := by rw [hx]
            rw [hxo] at hox
            have hpos : 0 < os'.countP (fun o => o.id == i) :=
              List.countP_pos_iff.mpr ⟨o, hox, by simp [hid]⟩
            omega
          · exact hp (hloc lx hm o hox hid)

theorem idxContains_false_iff {m : List (Nat × Order)} {i : Nat} :
    idxContains m i = false ↔ idxGet m i = none := by
  unfold idxContains
  cases idxGet m i <;> simp

theorem idxGet_remove_none {m : List (Nat × Order)} {i k : Nat}
    (h : idxGet m k = none) : idxGet (idxRemove m i) k = none := by
  induction m with
  | nil => simp [idxRemove, idxGet]
  | cons kv m ihm =>
    cases kv with
    | mk a v =>
      by_cases hak : a = k
      · simp [idxGet, hak] at h
      · simp only [idxGet, if_neg hak] at h
        by_cases hai : a = i
        · simpa [idxRemove, hai] using h
        · simp [idxRemove, hai, idxGet, hak, ihm h]

theorem ladderGet_ladderSet_self {ls : List PriceLevel} {p : Nat}
    {l lnew : PriceLevel} (hget : ladderGet ls p = some l)
    (hp : lnew.price = p) :
    ladderGet (ladderSet ls p lnew) p = some lnew := by
  induction ls with
  | nil => simp [ladderGet] at hget
  | cons a as iha =>
    by_cases hap : a.price = p
    · simp [ladderSet, hap, ladderGet, hp]
    · simp only [ladderGet, if_neg hap] at hget
      simp [ladderSet, hap, ladderGet, iha hget]

theorem sumRem_perm {l1 l2 : List Order} (h : l1.Perm l2) :
    sumRem l1 = sumRem l2 := by
  unfold sumRem
  exact (h.map (fun o => o.remaining_quantity)).sum_eq

theorem filter_id_eq_nil {l : List Order} {i : Nat}
    (h : ∀ o ∈ l, o.id ≠ i) : l.filter (fun o => o.id == i) = [] :=
  List.filter_eq_nil_iff.mpr (fun o ho => by simp [h o ho])

theorem idQty_zero_of_free {b : OrderBook} {i : Nat}
    (h : ∀ o ∈ ladderOrders b.bids ++ ladderOrders b.asks, o.id ≠ i) :
    idQty b i = 0 := by
  unfold idQty
  rw [filter_id_eq_nil h]
  rfl

theorem bestBid_lt_bestAsk_of_wf {b : OrderBook} (hwf : BookWF b)
    {pb pa : Nat} (hb : b.get_best_bid = some pb)
    (ha : b.get_best_ask = some pa) : pb < pa := by
  unfold OrderBook.get_best_bid at hb
  unfold OrderBook.get_best_ask at ha
  cases hlast : b.bids.getLast? with
  | none => rw [hlast] at hb; simp at hb
  | some lb =>
    rw [hlast] at hb
    simp at hb
    cases hask : b.asks with
    | nil => rw [hask] at ha; simp at ha
    | cons la t =>
      rw [hask] at ha
      simp at ha
      have hmb : lb ∈ b.bids := by
        obtain ⟨init, hin⟩ := List.getLast?_eq_some_iff.mp hlast
        rw [hin]
        simp
      have hma : la ∈ b.asks := by rw [hask]; simp
      have := hwf.uncrossed lb hmb la hma
      omega

theorem add_order_ok_inv {b : OrderBook} {o : Order} {ts : List Trade}
    {b' : OrderBook} (h : b.add_order o = (Except.ok ts, b')) :
    idxContains b.orders o.id = false ∧
    ¬(o.price = 0 ∧ o.order_type ≠ OrderType.Market) ∧ o.quantity ≠ 0 ∧
    ∃ b1,
      (match o.order_type with
       | OrderType.Market => b.match_market_order o
       | OrderType.FillOrKill => b.match_fill_or_kill o
       | OrderType.ImmediateOrCancel => b.match_immediate_or_cancel o
       | _ => b.add_to_book_and_match o) = (Except.ok ts, b1) ∧
      b' = { b1 with stats :=
        { b1.stats with new_orders := b1.stats.new_orders + 1 } } := by
  rcases add_order_inv h with ⟨_, he, _⟩ | ⟨_, _, he, _⟩ |
    ⟨_, _, _, he, _⟩ | ⟨hc, hp, hq, r1, b1, hd, hres⟩
  · cases he
  · cases he
  · cases he
  · rcases hres with ⟨e, he1, hr, _⟩ | ⟨ts1, hts, hr, hb'⟩
    · exact Except.noConfusion (hr.trans he1)
    · have hts1 : ts = ts1 := Except.ok.inj (hr.trans hts)
      subst hts1
      refine ⟨hc, hp, hq, b1, ?_, hb'⟩
      rw [hts] at hd
      exact hd

theorem add_to_book_and_match_inv {b : OrderBook} {o : Order}
    {r : Except OrderBookError (List Trade)} {b' : OrderBook}
    (h : b.add_to_book_and_match o = (r, b')) :
    ∃ rm bm, b.match_orders o = (rm, bm) ∧
      ((∃ e, rm = Except.error e ∧ r = rm ∧ b' = bm) ∨
       (∃ ts, rm = Except.ok ts ∧ r = rm ∧
         ((o.remaining_quantity - sumQ ts > 0 ∧
           b' = bm.add_to_book
             { o with remaining_quantity :=
                 o.remaining_quantity - sumQ ts }) ∨
          (o.remaining_quantity - sumQ ts = 0 ∧ b' = bm)))) := by
  unfold OrderBook.add_to_book_and_match at h
  cases hmo : b.match_orders o with
  | mk rm bm =>
    rw [hmo] at h
    refine ⟨rm, bm, rfl, ?_⟩
    cases rm with
    | error e =>
      simp only at h
      injection h with h1 h2
      exact Or.inl ⟨e, rfl, h1.symm, h2.symm⟩
    | ok ts =>
      simp only at h
      by_cases hrq : o.remaining_quantity - sumQ ts > 0
      · rw [if_pos hrq] at h
        injection h with h1 h2
        exact Or.inr ⟨ts, rfl, h1.symm, Or.inl ⟨hrq, h2.symm⟩⟩
      · rw [if_neg hrq] at h
        injection h with h1 h2
        exact Or.inr ⟨ts, rfl, h1.symm, Or.inr ⟨by omega, h2.symm⟩⟩

theorem add_order_ok_trades {b : OrderBook} {o : Order} {ts : List Trade}
    {b' : OrderBook} (h : b.add_order o = (Except.ok ts, b')) :
    ts = [] ∨ ∃ inc b1, inc.side = o.side ∧ inc.order_type = o.order_type ∧
      inc.id = o.id ∧ inc.remaining_quantity = o.remaining_quantity ∧
      (inc.price = o.price ∨ o.order_type = OrderType.Market) ∧
      b.match_orders inc = (Except.ok ts, b1) := by
  obtain ⟨_, _, _, b1, hd, _⟩ := add_order_ok_inv h
  cases htyp : o.order_type with
  | Market =>
    rw [htyp] at hd
    unfold OrderBook.match_market_order at hd
    refine Or.inr ⟨{ o with price :=
      match o.side with | Side.Buy => U64_MAX | Side.Sell => 0 }, b1,
      rfl, htyp, rfl, rfl, Or.inr rfl, hd⟩
  | FillOrKill =>
    rw [htyp] at hd
    unfold OrderBook.match_fill_or_kill at hd
    by_cases hav : b.get_available_quantity_for_order o ≥ o.quantity
    · rw [if_pos hav] at hd
      exact Or.inr ⟨o, b1, rfl, htyp, rfl, rfl, Or.inl rfl, hd⟩
    · rw [if_neg hav] at hd
      injection hd with h1 _
      exact Or.inl (Except.ok.inj h1).symm
  | ImmediateOrCancel =>
    rw [htyp] at hd
    unfold OrderBook.match_immediate_or_cancel at hd
    exact Or.inr ⟨o, b1, rfl, htyp, rfl, rfl, Or.inl rfl, hd⟩
  | Limit =>
    rw [htyp] at hd
    obtain ⟨rm, bm, hmo, hcase⟩ := add_to_book_and_match_inv hd
    rcases hcase with ⟨e, hrm, hr, _⟩ | ⟨ts1, hrm, hr, _⟩
    · rw [hrm] at hr
      cases hr
    · rw [hrm] at hr
      have hts1 : ts = ts1 := Except.ok.inj hr
      subst hts1
      rw [hrm] at hmo
      exact Or.inr ⟨o, bm, rfl, htyp, rfl, rfl, Or.inl rfl, hmo⟩
  | GoodTillCancel =>
    rw [htyp] at hd
    obtain ⟨rm, bm, hmo, hcase⟩ := add_to_book_and_match_inv hd
    rcases hcase with ⟨e, hrm, hr, _⟩ | ⟨ts1, hrm, hr, _⟩
    · rw [hrm] at hr
      cases hr
    · rw [hrm] at hr
      have hts1 : ts = ts1 := Except.ok.inj hr
      subst hts1
      rw [hrm] at hmo
      exact Or.inr ⟨o, bm, rfl, htyp, rfl, rfl, Or.inl rfl, hmo⟩
  | GoodForDay =>
    rw [htyp] at hd
    obtain ⟨rm, bm, hmo, hcase⟩ := add_to_book_and_match_inv hd
    rcases hcase with ⟨e, hrm, hr, _⟩ | ⟨ts1, hrm, hr, _⟩
    · rw [hrm] at hr
      cases hr
    · rw [hrm] at hr
      have hts1 : ts = ts1 := Except.ok.inj hr
      subst hts1
      rw [hrm] at hmo
      exact Or.inr ⟨o, bm, rfl, htyp, rfl, rfl, Or.inl rfl, hmo⟩

theorem match_orders_free_bound {b : OrderBook} {inc : Order}
    {ts : List Trade} {b1 : OrderBook} {i : Nat} (hwf : BookWF b)
    (hfree : idFree b i) (h : b.match_orders inc = (Except.ok ts, b1)) :
    idFree b1 i ∧ sumQ ts ≤ inc.remaining_quantity := by
  obtain ⟨_, _, _, _, _, _, _, hcorr, ts1, hts, hsum⟩ :=
    match_orders_spec hwf h
  have hts1 : ts1 = ts := Except.ok.inj hts.symm
  subst hts1
  refine ⟨?_, hsum⟩
  intro o ho hid
  obtain ⟨o₀, ho₀, hid₀, _⟩ := hcorr o ho
  exact hfree o₀ ho₀ (by rw [hid₀, hid])

theorem bookWF_exBook : BookWF exBook := by
  refine ⟨?_, ?_, ?_, ?_, ?_⟩
  · simp [ladderSorted, exBook]
  · simp [ladderSorted, exBook]
  · intro l hl
    simp [exBook] at hl
    subst hl
    exact ⟨by decide, by decide, by decide, by decide⟩
  · intro l hl
    simp [exBook] at hl
    subst hl
    exact ⟨by decide, by decide, by decide, by decide⟩
  · decide

theorem bookWF_exPrioBook : BookWF exPrioBook := by
  refine ⟨?_, ?_, ?_, ?_, ?_⟩
  · simp [ladderSorted, exPrioBook]
  · simp [ladderSorted, exPrioBook]
  · intro l hl
    simp [exPrioBook] at hl
    subst hl
    exact ⟨by decide, by decide, by decide, by decide⟩
  · intro l hl
    simp [exPrioBook] at hl
  · decide

theorem bookWF_new : BookWF OrderBook.new := by
  refine ⟨?_, ?_, ?_, ?_, ?_⟩ <;> simp [OrderBook.new, ladderSorted]

/-- C1: every trade returned by a successful `add_order` is priced at the
resting (maker) order's price: an incoming Buy trades against a maker on
the ask ladder whose price equals the trade price, bounded by the incoming
limit price unless the order is a Market order; symmetrically an incoming
Sell trades at a maker bid price, at or above its limit price. -/
theorem C1_trade_price_is_maker_price {b : OrderBook} {o : Order}
    {ts : List Trade} {b' : OrderBook} (hwf : BookWF b)
    (h : b.add_order o = (Except.ok ts, b')) :
    ∀ t ∈ ts,
      (o.side = Side.Buy →
        t.buy_order_id = o.id ∧
        (∃ maker ∈ ladderOrders b.asks,
          maker.id = t.sell_order_id ∧ t.price = maker.price) ∧
        (t.price ≤ o.price ∨ o.order_type = OrderType.Market)) ∧
      (o.side = Side.Sell →
        t.sell_order_id = o.id ∧
        (∃ maker ∈ ladderOrders b.bids,
          maker.id = t.buy_order_id ∧ t.price = maker.price) ∧
        (o.price ≤ t.price ∨ o.order_type = OrderType.Market)) := by
  intro t ht
  rcases add_order_ok_trades h with rfl |
    ⟨inc, b1, hside, htyp, hid, hrem, hpr, hmo⟩
  · simp at ht
  · have htr := match_orders_trades hwf hmo t ht
    constructor
    · intro hbuy
      have hsideB : inc.side = Side.Buy := by rw [hside, hbuy]
      obtain ⟨hbid, hbound, maker, hmm, hmid, hmpr⟩ := htr.1 hsideB
      refine ⟨by rw [hbid, hid], ⟨maker, hmm, hmid, hmpr.symm⟩, ?_⟩
      rcases hpr with hpr | hpr
      · rcases hbound with hb | hb
        · exact Or.inl (by rw [← hpr]; exact hb)
        · exact Or.inr (by rw [← htyp]; exact hb)
      · exact Or.inr hpr
    · intro hsell
      have hsideS : inc.side = Side.Sell := by rw [hside, hsell]
      obtain ⟨hsid, hbound, maker, hmm, hmid, hmpr⟩ := htr.2 hsideS
      refine ⟨by rw [hsid, hid], ⟨maker, hmm, hmid, hmpr.symm⟩, ?_⟩
      rcases hpr with hpr | hpr
      · rcases hbound with hb | hb
        · exact Or.inl (by rw [← hpr]; exact hb)
        · exact Or.inr (by rw [← htyp]; exact hb)
      · exact Or.inr hpr

theorem C1_witness :
    BookWF exBook ∧
    ∀ t ∈ [Trade.new 10 1 105 5],
      (exTaker.side = Side.Buy →
        t.buy_order_id = exTaker.id ∧
        (∃ maker ∈ ladderOrders exBook.asks,
          maker.id = t.sell_order_id ∧ t.price = maker.price) ∧
        (t.price ≤ exTaker.price ∨
          exTaker.order_type = OrderType.Market)) ∧
      (exTaker.side = Side.Sell →
        t.sell_order_id = exTaker.id ∧
        (∃ maker ∈ ladderOrders exBook.bids,
          maker.id = t.buy_order_id ∧ t.price = maker.price) ∧
        (exTaker.price ≤ t.price ∨
          exTaker.order_type = OrderType.Market)) :=
  ⟨bookWF_exBook, C1_trade_price_is_maker_price bookWF_exBook rfl⟩

/-- C3: a FillOrKill order that passes validation is rejected with `Ok []`
and untouched ladders and index when the eligible opposite-side liquidity
(the filtered level sum the code computes in
`get_available_quantity_for_order`, spelled `availAsks`/`availBids`) is
strictly below its quantity; otherwise the FillOrKill path coincides with
the ImmediateOrCancel path and the trades sum to the full quantity. -/
theorem C3_fill_or_kill {b : OrderBook} {o : Order}
    {r : Except OrderBookError (List Trade)} {b' : OrderBook}
    (hwf : BookWF b) (htyp : o.order_type = OrderType.FillOrKill)
    (hfresh : o.remaining_quantity = o.quantity)
    (hid : idxContains b.orders o.id = false)
    (hprice : o.price ≠ 0)
    (hqty : o.quantity ≠ 0)
    (h : b.add_order o = (r, b')) :
    (o.side = Side.Buy →
      b.get_available_quantity_for_order o = availAsks b.asks o.price) ∧
    (o.side = Side.Sell →
      b.get_available_quantity_for_order o = availBids b.bids o.price) ∧
    (b.get_available_quantity_for_order o < o.quantity →
      r = Except.ok [] ∧ b'.bids = b.bids ∧ b'.asks = b.asks ∧
      b'.orders = b.orders) ∧
    (o.quantity ≤ b.get_available_quantity_for_order o →
      b.match_fill_or_kill o = b.match_immediate_or_cancel o ∧
      ∃ ts, r = Except.ok ts ∧ sumQ ts = o.quantity) := by
  refine ⟨fun hs => get_available_buy hs, fun hs => get_available_sell hs,
    ?_, ?_⟩
  · -- rejection: not enough eligible liquidity
    intro hlt
    rcases add_order_inv h with ⟨hct, _, _⟩ | ⟨_, hpp, _, _⟩ |
      ⟨_, _, hq0, _, _⟩ | ⟨_, _, _, r1, b1, hd, hres⟩
    · rw [hid] at hct
      exact Bool.noConfusion hct
    · exact absurd hpp.1 hprice
    · exact absurd hq0 hqty
    · rw [htyp] at hd
      unfold OrderBook.match_fill_or_kill at hd
      have hav : ¬ (b.get_available_quantity_for_order o ≥ o.quantity) := by
        omega
      rw [if_neg hav] at hd
      injection hd with hr1 hb1
      rcases hres with ⟨e, he1, hr, _⟩ | ⟨ts2, hts2, hr, hb'⟩
      · exact Except.noConfusion (hr1.trans he1)
      · have hts0 : ts2 = [] := (Except.ok.inj (hr1.trans hts2)).symm
        subst hts0
        subst hb'
        refine ⟨by rw [hr, hts2], ?_, ?_, ?_⟩ <;> rw [← hb1]
  · -- enough liquidity: the IOC path runs and fills completely
    intro hge
    rcases add_order_inv h with ⟨hct, _, _⟩ | ⟨_, hpp, _, _⟩ |
      ⟨_, _, hq0, _, _⟩ | ⟨_, _, _, r1, b1, hd, hres⟩
    · rw [hid] at hct
      exact Bool.noConfusion hct
    · exact absurd hpp.1 hprice
    · exact absurd hq0 hqty
    · rw [htyp] at hd
      have hioc : b.match_fill_or_kill o = b.match_immediate_or_cancel o := by
        unfold OrderBook.match_fill_or_kill
          OrderBook.match_immediate_or_cancel
        rw [if_pos hge]
      have hdm : b.match_orders o = (r1, b1) := by
        unfold OrderBook.match_fill_or_kill at hd
        rw [if_pos hge] at hd
        exact hd
      obtain ⟨hwf1, _, _, _, _, _, _, _, ts, hts, hsum⟩ :=
        match_orders_spec hwf hdm
      refine ⟨hioc, ts, ?_, ?_⟩
      · rcases hres with ⟨e, he1, hr, _⟩ | ⟨ts2, hts2, hr, _⟩
        · exact Except.noConfusion (hts.symm.trans he1)
        · rw [hr, hts]
      · have hmkt : o.order_type ≠ OrderType.Market := by
          rw [htyp]
          simp
        rw [hts] at hdm
        have hpost := match_orders_post hwf hmkt hdm
        cases hsideo : o.side with
        | Buy =>
          obtain ⟨havail, hcase⟩ := hpost.1 hsideo
          rw [get_available_buy hsideo] at hge
          rcases hcase with hc | hc | ⟨l, hl, hlp⟩
          · omega
          · have h0 : availAsks ([] : List PriceLevel) o.price = 0 := rfl
            rw [hc, h0] at havail
            omega
          · have h0 := availAsks_zero hwf1.asksSorted hl hlp
            omega
        | Sell =>
          obtain ⟨havail, hcase⟩ := hpost.2 hsideo
          rw [get_available_sell hsideo] at hge
          rcases hcase with hc | hc | ⟨l, hl, hlp⟩
          · omega
          · have h0 : availBids ([] : List PriceLevel) o.price = 0 := rfl
            rw [hc, h0] at havail
            omega
          · have h0 := availBids_zero hwf1.bidsSorted hl hlp
            omega

theorem C3_witness :
    exBook.get_available_quantity_for_order exFok < exFok.quantity ∧
    ((exBook.add_order exFok).1 = Except.ok [] ∧
     (exBook.add_order exFok).2.bids = exBook.bids ∧
     (exBook.add_order exFok).2.asks = exBook.asks ∧
     (exBook.add_order exFok).2.orders = exBook.orders) :=
  ⟨by decide,
   (C3_fill_or_kill bookWF_exBook
     (rfl : exFok.order_type = OrderType.FillOrKill) rfl (by decide)
     (by decide) (by decide) rfl).2.2.1 (by decide)⟩

/-- C2: the index-iff-resting invariant FAILS in the code: in the concrete
run where a resting maker (id 1) is fully filled by an incoming taker, the
maker's id is still present in the orders index afterwards although no
order with that id rests at any price level — the matching loop pops the
filled maker from its level but never removes it from `orders`. -/
theorem C2_filled_maker_stays_indexed :
    idxContains exBookC2.orders 1 = true ∧
    (∀ o ∈ ladderOrders exBookC2.bids ++ ladderOrders exBookC2.asks,
      o.id ≠ 1) := by
  constructor
  · decide
  · decide

/-- C5: `process_market_data` fails with `SequenceGap(last+1, seq)` and
bumps the `sequence_gaps` counter exactly when the message's sequence
number is at most the book's `last_sequence_number` (leaving the book
untouched); otherwise `last_sequence_number` becomes the message's
sequence number; in either case it never decreases. -/
theorem C5_sequence_gap {p : MarketDataProcessor} {b : OrderBook}
    {m : MarketDataMessage} {r : Except OrderBookError Bool}
    {p' : MarketDataProcessor} {b' : OrderBook} (hwf : BookWF b)
    (h : p.process_market_data b m = (r, p', b')) :
    ((m.sequence_number ≤ b.last_sequence_number) ↔
      ∃ e, r = Except.error e ∧ isSeqGap e) ∧
    (m.sequence_number ≤ b.last_sequence_number →
      r = Except.error (OrderBookError.SequenceGap
        (b.last_sequence_number + 1) m.sequence_number) ∧
      p'.stats.sequence_gaps = p.stats.sequence_gaps + 1 ∧ b' = b) ∧
    (b.last_sequence_number < m.sequence_number →
      b'.last_sequence_number = m.sequence_number ∧
      p'.stats.sequence_gaps = p.stats.sequence_gaps) ∧
    b.last_sequence_number ≤ b'.last_sequence_number := by
  obtain ⟨hwf', hmono, hgap, hnogap⟩ := process_spec hwf h
  refine ⟨⟨?_, ?_⟩, fun hle => hgap hle,
    fun hlt => ⟨(hnogap hlt).1, (hnogap hlt).2.1⟩, hmono⟩
  · intro hle
    obtain ⟨hr, _, _⟩ := hgap hle
    exact ⟨_, hr, trivial⟩
  · intro he
    obtain ⟨e, hre, hse⟩ := he
    by_cases hle : m.sequence_number ≤ b.last_sequence_number
    · exact hle
    · exfalso
      have hlt : b.last_sequence_number < m.sequence_number := by omega
      exact (hnogap hlt).2.2 e hre hse

theorem C5_witness :
    exGapMsg.sequence_number ≤ exBook.last_sequence_number ∧
    ((exProc.process_market_data exBook exGapMsg).1 =
      Except.error (OrderBookError.SequenceGap 1 0) ∧
     (exProc.process_market_data exBook exGapMsg).2.1.stats.sequence_gaps =
       exProc.stats.sequence_gaps + 1 ∧
     (exProc.process_market_data exBook exGapMsg).2.2 = exBook) := by
  have h : exProc.process_market_data exBook exGapMsg =
      ((exProc.process_market_data exBook exGapMsg).1,
       (exProc.process_market_data exBook exGapMsg).2.1,
       (exProc.process_market_data exBook exGapMsg).2.2) := rfl
  exact ⟨by decide, (C5_sequence_gap bookWF_exBook h).2.1 (by decide)⟩

/-- C8: after any public book operation (`add_order`, `cancel_order`,
`modify_order`) on a well-formed book, the best bid price is strictly
below the best ask price whenever both exist. -/
theorem C8_uncrossed_best {b b' : OrderBook} (hwf : BookWF b)
    (hop : (∃ o r, b.add_order o = (r, b')) ∨
           (∃ i r, b.cancel_order i = (r, b')) ∨
           (∃ i np nq r, b.modify_order i np nq = (r, b')))
    {pb pa : Nat} (hb : b'.get_best_bid = some pb)
    (ha : b'.get_best_ask = some pa) : pb < pa := by
  have hwf' : BookWF b' := by
    rcases hop with ⟨o, r, h⟩ | ⟨i, r, h⟩ | ⟨i, np, nq, r, h⟩
    · exact (add_order_wf hwf h).1
    · exact (cancel_order_wf hwf h).1
    · exact modify_order_wf hwf h
  exact bestBid_lt_bestAsk_of_wf hwf' hb ha

theorem C8_witness :
    (exBook.add_order exBid96).2.get_best_bid = some 96 ∧
    (exBook.add_order exBid96).2.get_best_ask = some 105 ∧ 96 < 105 := by
  refine ⟨by decide, by decide, ?_⟩
  exact C8_uncrossed_best bookWF_exBook
    (Or.inl ⟨exBid96, (exBook.add_order exBid96).1, rfl⟩)
    (by decide : (exBook.add_order exBid96).2.get_best_bid = some 96)
    (by decide : (exBook.add_order exBid96).2.get_best_ask = some 105)

/-- C9: every mutation of a well-formed book — add, cancel, modify, raw
matching, or processing a market-data message (snapshot rebuild included)
— keeps every price level's cached `total_quantity` equal to the sum of
the remaining quantities of its queued orders. -/
theorem C9_level_totals {b b' : OrderBook} (hwf : BookWF b)
    (hop : (∃ o r, b.add_order o = (r, b')) ∨
           (∃ i r, b.cancel_order i = (r, b')) ∨
           (∃ i np nq r, b.modify_order i np nq = (r, b')) ∨
           (∃ o r, b.match_orders o = (r, b')) ∨
           (∃ p m r p', MarketDataProcessor.process_market_data p b m =
             (r, p', b'))) :
    ∀ l ∈ b'.bids ++ b'.asks, l.total_quantity = sumRem l.orders := by
  have hwf' : BookWF b' := by
    rcases hop with ⟨o, r, h⟩ | ⟨i, r, h⟩ | ⟨i, np, nq, r, h⟩ |
      ⟨o, r, h⟩ | ⟨p, m, r, p', h⟩
    · exact (add_order_wf hwf h).1
    · exact (cancel_order_wf hwf h).1
    · exact modify_order_wf hwf h
    · exact (match_orders_spec hwf h).1
    · exact (process_spec hwf h).1
  intro l hl
  rcases List.mem_append.mp hl with hl | hl
  · exact (hwf'.bidsWF l hl).qty
  · exact (hwf'.asksWF l hl).qty

theorem C9_witness :
    ({ price := 95, orders := [exBidOrder],
       total_quantity := 7 } : PriceLevel).total_quantity =
      sumRem
        ({ price := 95, orders := [exBidOrder],
           total_quantity := 7 } : PriceLevel).orders :=
  C9_level_totals bookWF_exBook
    (Or.inl ⟨exTaker, (exBook.add_order exTaker).1, rfl⟩)
    { price := 95, orders := [exBidOrder], total_quantity := 7 }
    (by decide)

theorem idQty_rest {bm : OrderBook} {oRes : Order} {i : Nat}
    (hfree : idFree bm i) (hid : oRes.id = i) :
    idQty (bm.add_to_book oRes) i = oRes.remaining_quantity := by
  obtain ⟨_, _, _, _, hbuy, hsell⟩ := add_to_book_fields bm oRes
  have key : ∀ (ls : List Order),
      ls.Perm (oRes :: (ladderOrders bm.bids ++ ladderOrders bm.asks)) →
      sumRem (ls.filter (fun o => o.id == i)) = oRes.remaining_quantity := by
    intro ls hp
    rw [sumRem_perm (hp.filter _)]
    rw [List.filter_cons_of_pos (by simp [hid])]
    rw [filter_id_eq_nil hfree]
    simp [sumRem]
  cases hside : oRes.side with
  | Buy =>
    obtain ⟨hb, ha⟩ := hbuy hside
    unfold idQty
    rw [hb, ha]
    refine key _ ?_
    have h1 := (ladderOrders_ladderAdd_perm bm.bids oRes.price
      oRes).append_right (ladderOrders bm.asks)
    simpa using h1
  | Sell =>
    obtain ⟨ha, hb⟩ := hsell hside
    unfold idQty
    rw [hb, ha]
    refine key _ ?_
    have h1 := (ladderOrders_ladderAdd_perm bm.asks oRes.price
      oRes).append_left (ladderOrders bm.bids)
    exact h1.trans List.perm_middle

/-- C4: for a freshly submitted order (remaining = original quantity) whose
id does not yet rest in the book and that `add_order` accepts, the trades
returned plus any residual quantity rested under the order's id add up to
the original quantity when the order type rests (Limit, GoodTillCancel,
GoodForDay); for the non-resting types (Market, ImmediateOrCancel,
FillOrKill) nothing rests under the id and the fill is the trade sum,
bounded by the original quantity. -/
theorem C4_quantity_conservation {b : OrderBook} {o : Order}
    {ts : List Trade} {b' : OrderBook} (hwf : BookWF b)
    (hfresh : o.remaining_quantity = o.quantity)
    (hfree : idFree b o.id)
    (h : b.add_order o = (Except.ok ts, b')) :
    ((o.order_type = OrderType.Limit ∨
      o.order_type = OrderType.GoodTillCancel ∨
      o.order_type = OrderType.GoodForDay) →
      sumQ ts + idQty b' o.id = o.quantity) ∧
    ((o.order_type = OrderType.Market ∨
      o.order_type = OrderType.ImmediateOrCancel ∨
      o.order_type = OrderType.FillOrKill) →
      idQty b' o.id = 0 ∧ sumQ ts ≤ o.quantity) := by
  obtain ⟨_, _, _, b1, hd, hb'⟩ := add_order_ok_inv h
  have hqeq : idQty b' o.id = idQty b1 o.id := by
    rw [hb']
    rfl
  constructor
  · intro htys
    have hd' : b.add_to_book_and_match o = (Except.ok ts, b1) := by
      rcases htys with ht | ht | ht <;> rw [ht] at hd <;> exact hd
    obtain ⟨rm, bm, hmo, hcase⟩ := add_to_book_and_match_inv hd'
    rcases hcase with ⟨e, hrm, hr, _⟩ | ⟨ts1, hrm, hr, hrest⟩
    · rw [hrm] at hr
      exact Except.noConfusion hr
    · rw [hrm] at hr
      have hts1 : ts = ts1 := Except.ok.inj hr
      subst hts1
      rw [hrm] at hmo
      obtain ⟨hfree1, hsum⟩ := match_orders_free_bound hwf hfree hmo
      rcases hrest with ⟨hpos, hb1⟩ | ⟨hzero, hb1⟩
      · have hres := idQty_rest hfree1
          (show ({ o with remaining_quantity :=
            o.remaining_quantity - sumQ ts } : Order).id = o.id from rfl)
        rw [hqeq, hb1, hres]
        show sumQ ts + (o.remaining_quantity - sumQ ts) = o.quantity
        omega
      · rw [hqeq, hb1, idQty_zero_of_free hfree1]
        omega
  · intro htys
    rcases htys with ht | ht | ht
    · rw [ht] at hd
      unfold OrderBook.match_market_order at hd
      obtain ⟨hfree1, hsum⟩ := match_orders_free_bound hwf hfree hd
      have hr : ({ o with price :=
          match o.side with
          | Side.Buy => U64_MAX
          | Side.Sell => 0 } : Order).remaining_quantity =
          o.remaining_quantity := rfl
      rw [hr] at hsum
      exact ⟨by rw [hqeq, idQty_zero_of_free hfree1], by omega⟩
    · rw [ht] at hd
      unfold OrderBook.match_immediate_or_cancel at hd
      obtain ⟨hfree1, hsum⟩ := match_orders_free_bound hwf hfree hd
      exact ⟨by rw [hqeq, idQty_zero_of_free hfree1], by omega⟩
    · rw [ht] at hd
      unfold OrderBook.match_fill_or_kill at hd
      by_cases hav : b.get_available_quantity_for_order o ≥ o.quantity
      · rw [if_pos hav] at hd
        obtain ⟨hfree1, hsum⟩ := match_orders_free_bound hwf hfree hd
        exact ⟨by rw [hqeq, idQty_zero_of_free hfree1], by omega⟩
      · rw [if_neg hav] at hd
        injection hd with h1 h2
        have hts : ts = [] := (Except.ok.inj h1).symm
        subst hts
        subst h2
        exact ⟨by rw [hqeq, idQty_zero_of_free hfree], by simp [sumQ]⟩

theorem C4_witness :
    idFree exBook exRester.id ∧
    sumQ [] + idQty (exBook.add_order exRester).2 exRester.id =
      exRester.quantity := by
  have h : exBook.add_order exRester =
      (Except.ok [], (exBook.add_order exRester).2) := rfl
  have hf : idFree exBook exRester.id := by
    unfold idFree
    decide
  exact ⟨hf,
    (C4_quantity_conservation bookWF_exBook rfl hf h).1 (Or.inl rfl)⟩

/-- C10: `modify_order` is not atomic on failure: when the indexed order is
non-Market and resting (uniquely, at the level its index entry names) and
the caller passes `new_price = some 0`, the re-add fails validation with
`InvalidPrice 0` — but the original order has by then been removed from
both the index and its price level, so the error return leaves the book
mutated and the order lost. -/
theorem C10_modify_not_atomic {b : OrderBook} {i : Nat} {O : Order}
    {nq : Option Nat} {r : Except OrderBookError (List Trade)}
    {b' : OrderBook} (hwf : BookWF b)
    (hnod : (b.orders.map Prod.fst).Nodup)
    (hO : idxGet b.orders i = some O)
    (hmkt : O.order_type ≠ OrderType.Market)
    (hfreshIds : ∀ k, b.nextId ≤ k → idxContains b.orders k = false)
    (hlocB : ∀ l ∈ b.bids, ∀ o ∈ l.orders, o.id = i →
      O.side = Side.Buy ∧ l.price = O.price)
    (hlocA : ∀ l ∈ b.asks, ∀ o ∈ l.orders, o.id = i →
      O.side = Side.Sell ∧ l.price = O.price)
    (hcntB : (ladderOrders b.bids).countP (fun o => o.id == i) ≤ 1)
    (hcntA : (ladderOrders b.asks).countP (fun o => o.id == i) ≤ 1)
    (h : b.modify_order i (some 0) nq = (r, b')) :
    r = Except.error (OrderBookError.InvalidPrice 0) ∧
    idxGet b'.orders i = none ∧
    (∀ o ∈ ladderOrders b'.bids ++ ladderOrders b'.asks, o.id ≠ i) := by
  rcases modify_order_inv h with ⟨hn, _, _⟩ |
    ⟨old_order, hg, b1, hc, r2, b2', ha, hres⟩
  · rw [hO] at hn
    exact Option.noConfusion hn
  · have hold : O = old_order := Option.some.inj (hO.symm.trans hg)
    subst hold
    -- the cancel step
    rcases cancel_order_inv hc with ⟨hn, _, _⟩ | ⟨O2, hg2, _, hcase⟩
    · rw [hO] at hn
      exact Option.noConfusion hn
    · have hO2 : O = O2 := Option.some.inj (hO.symm.trans hg2)
      subst hO2
      -- the failing re-add
      have hcont : idxContains
          ({ b1 with nextId := b1.nextId + 1 } : OrderBook).orders
          b1.nextId = false := by
        have hb1o : b1.orders = idxRemove b.orders i := by
          rcases hcase with ⟨_, hb1⟩ | ⟨_, hb1⟩ <;> rw [hb1]
        have hb1n : b1.nextId = b.nextId := by
          rcases hcase with ⟨_, hb1⟩ | ⟨_, hb1⟩ <;> rw [hb1]
        show idxContains b1.orders b1.nextId = false
        rw [hb1o, hb1n, idxContains_false_iff]
        exact idxGet_remove_none
          (idxContains_false_iff.mp (hfreshIds b.nextId (le_refl _)))
      have hr2 : r2 = Except.error (OrderBookError.InvalidPrice 0) ∧
          b2' = ({ b1 with nextId := b1.nextId + 1 } : OrderBook) := by
        rcases add_order_inv ha with ⟨hct, _, _⟩ | ⟨_, _, he2, hb2⟩ |
          ⟨_, hnp, _, _, _⟩ | ⟨_, hnp, _, _, _, _, _⟩
        · rw [hcont] at hct
          exact Bool.noConfusion hct
        · exact ⟨he2, hb2⟩
        · exact absurd ⟨rfl, hmkt⟩ hnp
        · exact absurd ⟨rfl, hmkt⟩ hnp
      rcases hres with ⟨e, he2, hr, hb'⟩ | ⟨ts2, hts2, _, _⟩
      · have he : e = OrderBookError.InvalidPrice 0 :=
          Except.error.inj (he2.symm.trans hr2.1)
        subst he
        refine ⟨by rw [hr, he2], ?_, ?_⟩
        · rw [hb', hr2.2]
          show idxGet b1.orders i = none
          have hb1o : b1.orders = idxRemove b.orders i := by
            rcases hcase with ⟨_, hb1⟩ | ⟨_, hb1⟩ <;> rw [hb1]
          rw [hb1o]
          exact idxGet_remove_self hnod
        · rw [hb', hr2.2]
          rcases hcase with ⟨hside, hb1⟩ | ⟨hside, hb1⟩
          · -- Buy: bids cancelled, asks untouched
            intro o ho hid
            have hbids : ({ b1 with nextId := b1.nextId + 1 } :
                OrderBook).bids = ladderCancel b.bids O.price i := by
              rw [hb1]
            have hasks : ({ b1 with nextId := b1.nextId + 1 } :
                OrderBook).asks = b.asks := by
              rw [hb1]
            rw [hbids, hasks] at ho
            rcases List.mem_append.mp ho with ho | ho
            · exact ladderCancel_idFree hwf.bidsSorted
                (fun l hl o2 ho2 hid2 => (hlocB l hl o2 ho2 hid2).2)
                hcntB o ho hid
            · obtain ⟨l, hl, hol⟩ := mem_ladderOrders.mp ho
              have := (hlocA l hl o hol hid).1
              rw [hside] at this
              exact Side.noConfusion this
          · -- Sell: asks cancelled, bids untouched
            intro o ho hid
            have hasks : ({ b1 with nextId := b1.nextId + 1 } :
                OrderBook).asks = ladderCancel b.asks O.price i := by
              rw [hb1]
            have hbids : ({ b1 with nextId := b1.nextId + 1 } :
                OrderBook).bids = b.bids := by
              rw [hb1]
            rw [hbids, hasks] at ho
            rcases List.mem_append.mp ho with ho | ho
            · obtain ⟨l, hl, hol⟩ := mem_ladderOrders.mp ho
              have := (hlocB l hl o hol hid).1
              rw [hside] at this
              exact Side.noConfusion this
            · exact ladderCancel_idFree hwf.asksSorted
                (fun l hl o2 ho2 hid2 => (hlocA l hl o2 ho2 hid2).2)
                hcntA o ho hid
      · have := hts2.symm.trans hr2.1
        exact Except.noConfusion this

theorem C10_witness :
    idxGet exBook.orders 1 = some exAskOrder ∧
    ((exBook.modify_order 1 (some 0) none).1 =
      Except.error (OrderBookError.InvalidPrice 0) ∧
     idxGet (exBook.modify_order 1 (some 0) none).2.orders 1 = none ∧
     (∀ o ∈ ladderOrders (exBook.modify_order 1 (some 0) none).2.bids ++
         ladderOrders (exBook.modify_order 1 (some 0) none).2.asks,
       o.id ≠ 1)) := by
  have h : exBook.modify_order 1 (some 0) none =
      ((exBook.modify_order 1 (some 0) none).1,
       (exBook.modify_order 1 (some 0) none).2) := rfl
  have hfr : ∀ k, exBook.nextId ≤ k → idxContains exBook.orders k = false := by
    intro k hk
    have hk3 : 3 ≤ k := hk
    have h1 : ¬ (1 = k) := by omega
    have h2 : ¬ (2 = k) := by omega
    simp [exBook, idxContains, idxGet, h1, h2]
  exact ⟨rfl, C10_modify_not_atomic bookWF_exBook (by decide)
    (rfl : idxGet exBook.orders 1 = some exAskOrder) (by decide) hfr
    (by decide) (by decide) (by decide) (by decide) h⟩

theorem match_orders_noCross_buy {bk : OrderBook} {inc : Order}
    (hside : inc.side = Side.Buy)
    (hmkt : inc.order_type ≠ OrderType.Market)
    (hnc : ∀ la ∈ bk.asks, inc.price < la.price) :
    bk.match_orders inc = (Except.ok [], bk) := by
  unfold OrderBook.match_orders
  rw [hside]
  simp only
  rw [matchLoopAsks_noCross inc _ bk.asks inc.remaining_quantity hmkt hnc]

/-- C6: `modify_order` on a resting Buy Limit order decomposes into a
cancel followed by a re-add that carries a fresh identifier (the next
uuid) and the requested price and quantity, returning the re-add's result;
hence time priority is lost: if A rests ahead of B at one price level and
A is modified to the same price and remaining quantity, the level
afterwards queues B first and the replacement of A (fresh id, same price
and quantity) last. -/
theorem C6_modify_resets_priority {b : OrderBook} {A B : Order}
    {L : PriceLevel} {r : Except OrderBookError (List Trade)}
    {b' : OrderBook} (hwf : BookWF b)
    (hgetA : idxGet b.orders A.id = some A)
    (hL : ladderGet b.bids A.price = some L)
    (horders : L.orders = [A, B])
    (hside : A.side = Side.Buy)
    (htyp : A.order_type = OrderType.Limit)
    (hqty : A.quantity ≠ 0)
    (hrem : 0 < A.remaining_quantity)
    (hprice : A.price ≠ 0)
    (hfreshIds : ∀ k, b.nextId ≤ k → idxContains b.orders k = false)
    (h : b.modify_order A.id (some A.price) (some A.remaining_quantity) =
      (r, b')) :
    ∃ b1 r2 b2, b.cancel_order A.id = (Except.ok (), b1) ∧
      ({ b1 with nextId := b1.nextId + 1 } : OrderBook).add_order
        { A with remaining_quantity := A.remaining_quantity,
                 id := b1.nextId } = (r2, b2) ∧ r = r2 ∧
    ∃ L', ladderGet b'.bids A.price = some L' ∧
      L'.orders.head? = some B ∧
      ∃ A', L'.orders = [B, A'] ∧ A'.id = b.nextId ∧ A'.id ≠ A.id ∧
        A'.price = A.price ∧
        A'.remaining_quantity = A.remaining_quantity := by
  rcases modify_order_inv h with ⟨hn, _, _⟩ |
    ⟨old_order, hg, b1, hc, r2, b2, ha, hres⟩
  · rw [hgetA] at hn
    exact Option.noConfusion hn
  · have hold : A = old_order := Option.some.inj (hgetA.symm.trans hg)
    subst hold
    set oN : Order :=
      { A with price := (some A.price).getD A.price,
               remaining_quantity :=
                 (some A.remaining_quantity).getD A.remaining_quantity,
               id := b1.nextId } with hoN
    set bW2 : OrderBook := { b1 with nextId := b1.nextId + 1 } with hbW2
    -- the cancel step: A is a Buy, so the bid ladder is cancelled
    rcases cancel_order_inv hc with ⟨hn, _, _⟩ | ⟨O2, hg2, _, hcase⟩
    · rw [hgetA] at hn
      exact Option.noConfusion hn
    · have hO2 : A = O2 := Option.some.inj (hgetA.symm.trans hg2)
      subst hO2
      rcases hcase with ⟨_, hb1⟩ | ⟨hside2, _⟩
      swap
      · rw [hside] at hside2
        exact Side.noConfusion hside2
      -- the cancelled level keeps only B
      have hLpr : L.price = A.price := (ladderGet_mem hL).2
      have hLmem : L ∈ b.bids := (ladderGet_mem hL).1
      have hrm : removeFirstById L.orders A.id = (some A, [B]) := by
        rw [horders]
        simp [removeFirstById]
      have hro := remove_order_eq_some hrm
      set L2 : PriceLevel :=
        { L with orders := [B],
                 total_quantity :=
                   L.total_quantity - A.remaining_quantity } with hL2
      have hcanc : ladderCancel b.bids A.price A.id =
          ladderSet b.bids A.price L2 := by
        rw [ladderCancel_eq_some hL, hro]
        rfl
      -- facts about the intermediate book
      have hb2asks : bW2.asks = b.asks := by
        show b1.asks = b.asks
        rw [hb1]
      have hb2bids : bW2.bids = ladderSet b.bids A.price L2 := by
        show b1.bids = _
        rw [hb1]
        exact hcanc
      have hb1next : b1.nextId = b.nextId := by
        rw [hb1]
      have hb2orders : bW2.orders = idxRemove b.orders A.id := by
        show b1.orders = _
        rw [hb1]
      refine ⟨b1, r2, b2, hc, ha, ?_, ?_⟩
      · rcases hres with ⟨e, _, hr, _⟩ | ⟨ts2, _, hr, _⟩ <;> exact hr
      -- the failing validations cannot fire
      rcases add_order_inv ha with ⟨hct, _, _⟩ | ⟨_, hpp, _, _⟩ |
        ⟨_, _, hq0, _, _⟩ | ⟨_, _, _, r1, b3, hd, hres2⟩
      · rw [hb2orders] at hct
        have hnone : idxGet (idxRemove b.orders A.id) b.nextId = none :=
          idxGet_remove_none
            (idxContains_false_iff.mp (hfreshIds b.nextId (le_refl _)))
        have hctf : idxContains (idxRemove b.orders A.id) oN.id = false := by
          show idxContains _ b1.nextId = false
          rw [hb1next, idxContains_false_iff]
          exact hnone
        rw [hctf] at hct
        exact Bool.noConfusion hct
      · exact absurd hpp.1 (show oN.price ≠ 0 from hprice)
      · exact absurd hq0 (show oN.quantity ≠ 0 from hqty)
      · -- Limit dispatch: add_to_book_and_match
        have hot : oN.order_type = OrderType.Limit := htyp
        rw [hot] at hd
        -- the re-add cannot match: every ask is above A's price
        have hmo0 : bW2.match_orders oN = (Except.ok [], bW2) := by
          refine match_orders_noCross_buy ?_ ?_ ?_
          · exact hside
          · show A.order_type ≠ OrderType.Market
            rw [htyp]
            simp
          · rw [hb2asks]
            intro la hla
            show A.price < la.price
            rw [← hLpr]
            exact hwf.uncrossed L hLmem la hla
        obtain ⟨rm, bm, hmo1, hcase2⟩ := add_to_book_and_match_inv hd
        have hpair := hmo0.symm.trans hmo1
        injection hpair with hrm0 hbm0
        rcases hcase2 with ⟨e, hrm, _, _⟩ | ⟨ts1, hrm, hr1, hrest⟩
        · rw [hrm] at hrm0
          exact Except.noConfusion hrm0
        · have hts1 : ([] : List Trade) = ts1 := by
            rw [hrm] at hrm0
            exact Except.ok.inj hrm0
          subst hts1
          rcases hrest with ⟨hpos, hb3⟩ | ⟨hzero, _⟩
          swap
          · exfalso
            have hz : A.remaining_quantity - sumQ [] = 0 := hzero
            simp [sumQ] at hz
            omega
          · set oRes : Order :=
              { oN with remaining_quantity :=
                  oN.remaining_quantity - sumQ [] } with hoRes
            -- the ladder after the re-add
            have sortedSet : ladderSorted (ladderSet b.bids A.price L2) :=
              ladderSet_sorted hwf.bidsSorted hL rfl
            have hgetSet : ladderGet (ladderSet b.bids A.price L2)
                A.price = some L2 :=
              ladderGet_ladderSet_self hL hLpr
            obtain ⟨_, _, _, _, hbuyf, _⟩ := add_to_book_fields bm oRes
            obtain ⟨hb3bids, _⟩ := hbuyf (show oRes.side = Side.Buy from hside)
            have hoprR : oRes.price = A.price := rfl
            rw [← hbm0] at hb3bids
            rw [← hbm0] at hb3
            rw [hoprR, hb2bids,
              ladderGet_ladderAdd_merge sortedSet hgetSet] at hb3bids
            -- project through the statistics wrappers
            rcases hres2 with ⟨e, he, _, _⟩ | ⟨ts3, hts3, hr2eq, hb2p⟩
            · rw [hr1, hrm] at he
              exact Except.noConfusion he
            · rcases hres with ⟨e, he2, hr, hb'⟩ | ⟨ts4, hts4, hr, hb'⟩
              · rw [hr2eq, hr1, hrm] at he2
                exact Except.noConfusion he2
              · have hfb : b'.bids =
                    ladderSet (ladderSet b.bids A.price L2) A.price
                      (L2.add_order oRes) := by
                  rw [hb']
                  show b2.bids = _
                  rw [hb2p]
                  show b3.bids = _
                  rw [hb3]
                  exact hb3bids
                refine ⟨L2.add_order oRes, ?_, rfl, oRes, rfl, ?_, ?_,
                  rfl, rfl⟩
                · rw [hfb]
                  exact ladderGet_ladderSet_self hgetSet hLpr
                · exact hb1next
                · intro hEq
                  have hbn : b.nextId = A.id := by
                    rw [← hb1next]
                    exact hEq
                  have hcontA : idxContains b.orders A.id = true := by
                    unfold idxContains
                    rw [hgetA]
                    rfl
                  have hfalse := hfreshIds A.id (by omega)
                  rw [hfalse] at hcontA
                  exact Bool.noConfusion hcontA

theorem C6_witness :
    ladderGet exPrioBook.bids 100 = some
      { price := 100, orders := [exPrioA, exPrioB],
        total_quantity := 2000 } ∧
    (∃ b1 r2 b2, exPrioBook.cancel_order exPrioA.id =
        (Except.ok (), b1) ∧
      ({ b1 with nextId := b1.nextId + 1 } : OrderBook).add_order
        { exPrioA with
            remaining_quantity := exPrioA.remaining_quantity,
            id := b1.nextId } = (r2, b2) ∧
      (exPrioBook.modify_order exPrioA.id (some exPrioA.price)
        (some exPrioA.remaining_quantity)).1 = r2 ∧
    ∃ L', ladderGet (exPrioBook.modify_order exPrioA.id
        (some exPrioA.price)
        (some exPrioA.remaining_quantity)).2.bids exPrioA.price =
          some L' ∧
      L'.orders.head? = some exPrioB ∧
      ∃ A', L'.orders = [exPrioB, A'] ∧ A'.id = exPrioBook.nextId ∧
        A'.id ≠ exPrioA.id ∧ A'.price = exPrioA.price ∧
        A'.remaining_quantity = exPrioA.remaining_quantity) := by
  have h : exPrioBook.modify_order exPrioA.id (some exPrioA.price)
      (some exPrioA.remaining_quantity) =
      ((exPrioBook.modify_order exPrioA.id (some exPrioA.price)
        (some exPrioA.remaining_quantity)).1,
       (exPrioBook.modify_order exPrioA.id (some exPrioA.price)
        (some exPrioA.remaining_quantity)).2) := rfl
  have hfr : ∀ k, exPrioBook.nextId ≤ k →
      idxContains exPrioBook.orders k = false := by
    intro k hk
    have hk3 : 3 ≤ k := hk
    have h1 : ¬ (1 = k) := by omega
    have h2 : ¬ (2 = k) := by omega
    simp [exPrioBook, idxContains, idxGet, h1, h2]
  exact ⟨rfl, C6_modify_resets_priority bookWF_exPrioBook
    (rfl : idxGet exPrioBook.orders exPrioA.id = some exPrioA)
    (rfl : ladderGet exPrioBook.bids exPrioA.price = some
      { price := 100, orders := [exPrioA, exPrioB],
        total_quantity := 2000 })
    rfl rfl rfl (by decide) (by decide) (by decide) hfr h⟩

theorem match_orders_noCross_sell {bk : OrderBook} {inc : Order}
    (hside : inc.side = Side.Sell)
    (hmkt : inc.order_type ≠ OrderType.Market)
    (hnc : ∀ lb ∈ bk.bids, lb.price < inc.price) :
    bk.match_orders inc = (Except.ok [], bk) := by
  unfold OrderBook.match_orders
  rw [hside]
  simp only
  rw [matchLoopBids_noCross inc _ bk.bids inc.remaining_quantity hmkt hnc]

theorem add_order_rest_nomatch_buy {bk : OrderBook} {o : Order}
    (hside : o.side = Side.Buy) (htyp : o.order_type = OrderType.Limit)
    (hfree : idxContains bk.orders o.id = false)
    (hprice : o.price ≠ 0) (hqty : o.quantity ≠ 0)
    (hrem : 0 < o.remaining_quantity)
    (hnc : ∀ la ∈ bk.asks, o.price < la.price) :
    ∃ b2, bk.add_order o = (Except.ok [], b2) ∧
      b2.bids = ladderAdd bk.bids o.price
        { o with remaining_quantity := o.remaining_quantity - sumQ [] } ∧
      b2.asks = bk.asks ∧
      b2.orders = idxInsert bk.orders o.id
        { o with remaining_quantity := o.remaining_quantity - sumQ [] } ∧
      b2.nextId = bk.nextId ∧
      b2.last_sequence_number = bk.last_sequence_number := by
  have hdisp : bk.add_to_book_and_match o =
      (Except.ok [], bk.add_to_book
        { o with remaining_quantity := o.remaining_quantity - sumQ [] }) := by
    unfold OrderBook.add_to_book_and_match
    rw [match_orders_noCross_buy hside (by rw [htyp]; simp) hnc]
    simp only
    rw [if_pos (show o.remaining_quantity - sumQ [] > 0 by
      simp [sumQ]; omega)]
  have hadd : bk.add_order o = (Except.ok [],
      { (bk.add_to_book
          { o with remaining_quantity := o.remaining_quantity - sumQ [] })
        with stats :=
          { (bk.add_to_book
              { o with remaining_quantity :=
                  o.remaining_quantity - sumQ [] }).stats
            with new_orders :=
              (bk.add_to_book
                { o with remaining_quantity :=
                    o.remaining_quantity - sumQ [] }).stats.new_orders
                + 1 } }) := by
    unfold OrderBook.add_order
    rw [if_neg (by simp [hfree]),
        if_neg (fun hx => hprice hx.1),
        if_neg hqty, htyp]
    simp only
    rw [htyp] at hdisp
    rw [hdisp]
  obtain ⟨horders, hstats, hseq, hnext, hbuy, _⟩ := add_to_book_fields bk
    { o with remaining_quantity := o.remaining_quantity - sumQ [] }
  obtain ⟨hbids, hasks⟩ := hbuy hside
  exact ⟨_, hadd, hbids, hasks, horders, hnext, hseq⟩

theorem add_order_rest_nomatch_sell {bk : OrderBook} {o : Order}
    (hside : o.side = Side.Sell) (htyp : o.order_type = OrderType.Limit)
    (hfree : idxContains bk.orders o.id = false)
    (hprice : o.price ≠ 0) (hqty : o.quantity ≠ 0)
    (hrem : 0 < o.remaining_quantity)
    (hnc : ∀ lb ∈ bk.bids, lb.price < o.price) :
    ∃ b2, bk.add_order o = (Except.ok [], b2) ∧
      b2.asks = ladderAdd bk.asks o.price
        { o with remaining_quantity := o.remaining_quantity - sumQ [] } ∧
      b2.bids = bk.bids ∧
      b2.orders = idxInsert bk.orders o.id
        { o with remaining_quantity := o.remaining_quantity - sumQ [] } ∧
      b2.nextId = bk.nextId ∧
      b2.last_sequence_number = bk.last_sequence_number := by
  have hdisp : bk.add_to_book_and_match o =
      (Except.ok [], bk.add_to_book
        { o with remaining_quantity := o.remaining_quantity - sumQ [] }) := by
    unfold OrderBook.add_to_book_and_match
    rw [match_orders_noCross_sell hside (by rw [htyp]; simp) hnc]
    simp only
    rw [if_pos (show o.remaining_quantity - sumQ [] > 0 by
      simp [sumQ]; omega)]
  have hadd : bk.add_order o = (Except.ok [],
      { (bk.add_to_book
          { o with remaining_quantity := o.remaining_quantity - sumQ [] })
        with stats :=
          { (bk.add_to_book
              { o with remaining_quantity :=
                  o.remaining_quantity - sumQ [] }).stats
            with new_orders :=
              (bk.add_to_book
                { o with remaining_quantity :=
                    o.remaining_quantity - sumQ [] }).stats.new_orders
                + 1 } }) := by
    unfold OrderBook.add_order
    rw [if_neg (by simp [hfree]),
        if_neg (fun hx => hprice hx.1),
        if_neg hqty, htyp]
    simp only
    rw [htyp] at hdisp
    rw [hdisp]
  obtain ⟨horders, hstats, hseq, hnext, _, hsell⟩ := add_to_book_fields bk
    { o with remaining_quantity := o.remaining_quantity - sumQ [] }
  obtain ⟨hasks, hbids⟩ := hsell hside
  exact ⟨_, hadd, hasks, hbids, horders, hnext, hseq⟩

theorem addSnapshotOrders_buy_step {bk : OrderBook} {lv : LevelInfo}
    (rest : List LevelInfo) (i : Nat) (hwf : BookWF bk)
    (hpos : 0 < lv.price ∧ 0 < lv.quantity)
    (hfresh : idxContains bk.orders bk.nextId = false)
    (hasks : bk.asks = []) :
    ∃ b2, addSnapshotOrders Side.Buy bk (lv :: rest) i =
        addSnapshotOrders Side.Buy b2 rest (i + 1) ∧
      BookWF b2 ∧
      b2.bids = ladderAdd bk.bids lv.price
        { id := bk.nextId, side := Side.Buy,
          order_type := OrderType.Limit, price := lv.price,
          quantity := lv.quantity,
          remaining_quantity := lv.quantity - sumQ [],
          user_id := some (snapshotUserTag Side.Buy i) } ∧
      b2.asks = bk.asks ∧
      b2.orders = idxInsert bk.orders bk.nextId
        { id := bk.nextId, side := Side.Buy,
          order_type := OrderType.Limit, price := lv.price,
          quantity := lv.quantity,
          remaining_quantity := lv.quantity - sumQ [],
          user_id := some (snapshotUserTag Side.Buy i) } ∧
      b2.nextId = bk.nextId + 1 := by
  have hfree1 : idxContains ({ bk with nextId := bk.nextId + 1 } :
      OrderBook).orders
      ({ id := bk.nextId, side := Side.Buy,
         order_type := OrderType.Limit, price := lv.price,
         quantity := lv.quantity, remaining_quantity := lv.quantity,
         user_id := some (snapshotUserTag Side.Buy i) } : Order).id =
      false := hfresh
  obtain ⟨b2, hadd, hbids2, hasks2, horders2, hnext2, _⟩ :=
    add_order_rest_nomatch_buy rfl rfl hfree1
      (by show lv.price ≠ 0; omega)
      (by show lv.quantity ≠ 0; omega)
      (by show 0 < lv.quantity; omega)
      (by intro la hla
          have hla2 : la ∈ bk.asks := hla
          rw [hasks] at hla2
          simp at hla2)
  have hwf1 : BookWF ({ bk with nextId := bk.nextId + 1 } : OrderBook) :=
    bookWF_of_fields hwf rfl rfl
  have hwf2 : BookWF b2 := (add_order_wf hwf1 hadd).1
  refine ⟨b2, ?_, hwf2, hbids2, hasks2, horders2, hnext2⟩
  show (match ({ bk with nextId := bk.nextId + 1 } :
      OrderBook).add_order
      { id := bk.nextId, side := Side.Buy,
        order_type := OrderType.Limit, price := lv.price,
        quantity := lv.quantity, remaining_quantity := lv.quantity,
        user_id := some (snapshotUserTag Side.Buy i) } with
    | (Except.error e, b') => (Except.error e, b')
    | (Except.ok _, b') =>
      addSnapshotOrders Side.Buy b' rest (i + 1)) = _
  rw [hadd]

theorem addSnapshotOrders_sell_step {bk : OrderBook} {lv : LevelInfo}
    (rest : List LevelInfo) (i : Nat) (hwf : BookWF bk)
    (hpos : 0 < lv.price ∧ 0 < lv.quantity)
    (hfresh : idxContains bk.orders bk.nextId = false)
    (hnc : ∀ lb ∈ bk.bids, lb.price < lv.price) :
    ∃ b2, addSnapshotOrders Side.Sell bk (lv :: rest) i =
        addSnapshotOrders Side.Sell b2 rest (i + 1) ∧
      BookWF b2 ∧
      b2.asks = ladderAdd bk.asks lv.price
        { id := bk.nextId, side := Side.Sell,
          order_type := OrderType.Limit, price := lv.price,
          quantity := lv.quantity,
          remaining_quantity := lv.quantity - sumQ [],
          user_id := some (snapshotUserTag Side.Sell i) } ∧
      b2.bids = bk.bids ∧
      b2.orders = idxInsert bk.orders bk.nextId
        { id := bk.nextId, side := Side.Sell,
          order_type := OrderType.Limit, price := lv.price,
          quantity := lv.quantity,
          remaining_quantity := lv.quantity - sumQ [],
          user_id := some (snapshotUserTag Side.Sell i) } ∧
      b2.nextId = bk.nextId + 1 := by
  have hfree1 : idxContains ({ bk with nextId := bk.nextId + 1 } :
      OrderBook).orders
      ({ id := bk.nextId, side := Side.Sell,
         order_type := OrderType.Limit, price := lv.price,
         quantity := lv.quantity, remaining_quantity := lv.quantity,
         user_id := some (snapshotUserTag Side.Sell i) } : Order).id =
      false := hfresh
  obtain ⟨b2, hadd, hasks2, hbids2, horders2, hnext2, _⟩ :=
    add_order_rest_nomatch_sell rfl rfl hfree1
      (by show lv.price ≠ 0; omega)
      (by show lv.quantity ≠ 0; omega)
      (by show 0 < lv.quantity; omega)
      (by intro lb hlb
          show lb.price < lv.price
          exact hnc lb hlb)
  have hwf1 : BookWF ({ bk with nextId := bk.nextId + 1 } : OrderBook) :=
    bookWF_of_fields hwf rfl rfl
  have hwf2 : BookWF b2 := (add_order_wf hwf1 hadd).1
  refine ⟨b2, ?_, hwf2, hasks2, hbids2, horders2, hnext2⟩
  show (match ({ bk with nextId := bk.nextId + 1 } :
      OrderBook).add_order
      { id := bk.nextId, side := Side.Sell,
        order_type := OrderType.Limit, price := lv.price,
        quantity := lv.quantity, remaining_quantity := lv.quantity,
        user_id := some (snapshotUserTag Side.Sell i) } with
    | (Except.error e, b') => (Except.error e, b')
    | (Except.ok _, b') =>
      addSnapshotOrders Side.Sell b' rest (i + 1)) = _
  rw [hadd]

theorem addSnapshotOrders_buy_levels :
    ∀ (lvs : List LevelInfo) (bk : OrderBook) (i : Nat),
      BookWF bk → bk.asks = [] →
      (∀ lv ∈ lvs, 0 < lv.price ∧ 0 < lv.quantity) →
      (∀ lv ∈ lvs, ladderGet bk.bids lv.price = none) →
      lvs.Pairwise (fun a c => a.price ≠ c.price) →
      (∀ k, bk.nextId ≤ k → idxContains bk.orders k = false) →
      ∃ b', addSnapshotOrders Side.Buy bk lvs i = (Except.ok (), b') ∧
        b'.asks = [] ∧ BookWF b' ∧
        (∀ k, b'.nextId ≤ k → idxContains b'.orders k = false) ∧
        (∀ lv ∈ lvs, ∃ L, ladderGet b'.bids lv.price = some L ∧
          L.total_quantity = lv.quantity ∧ L.orders.length = 1) ∧
        (∀ q, (∀ lv ∈ lvs, q ≠ lv.price) →
          ladderGet b'.bids q = ladderGet bk.bids q) ∧
        b'.bids.length = bk.bids.length + lvs.length ∧
        (∀ l ∈ b'.bids, (∃ lv ∈ lvs, l.price = lv.price) ∨ l ∈ bk.bids) := by
  intro lvs
  induction lvs with
  | nil =>
    intro bk i hwf hasks hpos hgets hpw hfresh
    exact ⟨bk, rfl, hasks, hwf, hfresh, by simp, fun q _ => rfl, by simp,
      fun l hl => Or.inr hl⟩
  | cons lv rest ih =>
    intro bk i hwf hasks hpos hgets hpw hfresh
    obtain ⟨hpwrel, hpwtail⟩ := List.pairwise_cons.mp hpw
    obtain ⟨b2, hstep, hwf2, hbids2, hasks2, horders2, hnext2⟩ :=
      addSnapshotOrders_buy_step rest i hwf (hpos lv (by simp))
        (hfresh bk.nextId (le_refl _)) hasks
    have hget0 : ladderGet bk.bids lv.price = none := hgets lv (by simp)
    -- the invariants survive one insertion
    have hasksR : b2.asks = [] := by rw [hasks2, hasks]
    have hposR : ∀ lv2 ∈ rest, 0 < lv2.price ∧ 0 < lv2.quantity :=
      fun lv2 h2 => hpos lv2 (by simp [h2])
    have hgetsR : ∀ lv2 ∈ rest, ladderGet b2.bids lv2.price = none := by
      intro lv2 h2
      rw [hbids2, ladderGet_ladderAdd_other
        (fun hh => hpwrel lv2 h2 hh.symm)]
      exact hgets lv2 (by simp [h2])
    have hfreshR : ∀ k, b2.nextId ≤ k → idxContains b2.orders k = false := by
      intro k hk
      rw [hnext2] at hk
      rw [horders2, idxContains_false_iff,
        idxGet_insert_other (by omega)]
      rw [← idxContains_false_iff]
      exact hfresh k (by omega)
    obtain ⟨b', hrun, hasks', hwf', hfresh', hlvs', hpres', hlen', hmem'⟩ :=
      ih b2 (i + 1) hwf2 hasksR hposR hgetsR hpwtail hfreshR
    refine ⟨b', hstep.trans hrun, hasks', hwf', hfresh', ?_, ?_, ?_, ?_⟩
    · intro lv2 h2
      rcases List.mem_cons.mp h2 with rfl | h2
      · -- the level inserted in this step, untouched by the rest
        have hpr : ladderGet b'.bids lv2.price = ladderGet b2.bids lv2.price :=
          hpres' lv2.price (fun lv3 h3 => hpwrel lv3 h3)
        rw [hpr, hbids2,
          ladderGet_ladderAdd_self_none hwf.bidsSorted hget0]
        refine ⟨_, rfl, ?_, ?_⟩
        · show 0 + (lv2.quantity - sumQ []) = lv2.quantity
          simp [sumQ]
        · rfl
      · exact hlvs' lv2 h2
    · intro q hq
      rw [hpres' q (fun lv2 h2 => hq lv2 (by simp [h2])), hbids2,
        ladderGet_ladderAdd_other (hq lv (by simp))]
    · rw [hlen', hbids2, ladderAdd_length_none hget0]
      simp
      omega
    · intro l hl
      rcases hmem' l hl with ⟨lv2, h2, hp⟩ | hmem
      · exact Or.inl ⟨lv2, by simp [h2], hp⟩
      · rw [hbids2] at hmem
        rcases ladderAdd_mem hmem with hp | hmem
        · exact Or.inl ⟨lv, by simp, hp⟩
        · exact Or.inr hmem

theorem addSnapshotOrders_sell_levels :
    ∀ (lvs : List LevelInfo) (bk : OrderBook) (i : Nat),
      BookWF bk →
      (∀ lv ∈ lvs, 0 < lv.price ∧ 0 < lv.quantity) →
      (∀ lv ∈ lvs, ladderGet bk.asks lv.price = none) →
      lvs.Pairwise (fun a c => a.price ≠ c.price) →
      (∀ k, bk.nextId ≤ k → idxContains bk.orders k = false) →
      (∀ lb ∈ bk.bids, ∀ lv ∈ lvs, lb.price < lv.price) →
      ∃ b', addSnapshotOrders Side.Sell bk lvs i = (Except.ok (), b') ∧
        b'.bids = bk.bids ∧ BookWF b' ∧
        (∀ lv ∈ lvs, ∃ L, ladderGet b'.asks lv.price = some L ∧
          L.total_quantity = lv.quantity ∧ L.orders.length = 1) ∧
        (∀ q, (∀ lv ∈ lvs, q ≠ lv.price) →
          ladderGet b'.asks q = ladderGet bk.asks q) ∧
        b'.asks.length = bk.asks.length + lvs.length := by
  intro lvs
  induction lvs with
  | nil =>
    intro bk i hwf hpos hgets hpw hfresh hnc
    exact ⟨bk, rfl, rfl, hwf, by simp, fun q _ => rfl, by simp⟩
  | cons lv rest ih =>
    intro bk i hwf hpos hgets hpw hfresh hnc
    obtain ⟨hpwrel, hpwtail⟩ := List.pairwise_cons.mp hpw
    obtain ⟨b2, hstep, hwf2, hasks2, hbids2, horders2, hnext2⟩ :=
      addSnapshotOrders_sell_step rest i hwf (hpos lv (by simp))
        (hfresh bk.nextId (le_refl _))
        (fun lb hlb => hnc lb hlb lv (by simp))
    have hget0 : ladderGet bk.asks lv.price = none := hgets lv (by simp)
    have hposR : ∀ lv2 ∈ rest, 0 < lv2.price ∧ 0 < lv2.quantity :=
      fun lv2 h2 => hpos lv2 (by simp [h2])
    have hgetsR : ∀ lv2 ∈ rest, ladderGet b2.asks lv2.price = none := by
      intro lv2 h2
      rw [hasks2, ladderGet_ladderAdd_other
        (fun hh => hpwrel lv2 h2 hh.symm)]
      exact hgets lv2 (by simp [h2])
    have hfreshR : ∀ k, b2.nextId ≤ k → idxContains b2.orders k = false := by
      intro k hk
      rw [hnext2] at hk
      rw [horders2, idxContains_false_iff,
        idxGet_insert_other (by omega)]
      rw [← idxContains_false_iff]
      exact hfresh k (by omega)
    have hncR : ∀ lb ∈ b2.bids, ∀ lv2 ∈ rest, lb.price < lv2.price := by
      intro lb hlb lv2 h2
      rw [hbids2] at hlb
      exact hnc lb hlb lv2 (by simp [h2])
    obtain ⟨b', hrun, hbids', hwf', hlvs', hpres', hlen'⟩ :=
      ih b2 (i + 1) hwf2 hposR hgetsR hpwtail hfreshR hncR
    refine ⟨b', hstep.trans hrun, by rw [hbids', hbids2], hwf', ?_, ?_, ?_⟩
    · intro lv2 h2
      rcases List.mem_cons.mp h2 with rfl | h2
      · have hpr : ladderGet b'.asks lv2.price = ladderGet b2.asks lv2.price :=
          hpres' lv2.price (fun lv3 h3 => hpwrel lv3 h3)
        rw [hpr, hasks2,
          ladderGet_ladderAdd_self_none hwf.asksSorted hget0]
        refine ⟨_, rfl, ?_, ?_⟩
        · show 0 + (lv2.quantity - sumQ []) = lv2.quantity
          simp [sumQ]
        · rfl
      · exact hlvs' lv2 h2
    · intro q hq
      rw [hpres' q (fun lv2 h2 => hq lv2 (by simp [h2])), hasks2,
        ladderGet_ladderAdd_other (hq lv (by simp))]
    · rw [hlen', hasks2, ladderAdd_length_none hget0]
      simp
      omega

/-- C7 (amended): a BookSnapshot accepted by `process` whose stated levels
all have positive price and quantity, pairwise distinct prices within each
side, and every stated bid price strictly below every stated ask price, is
rebuilt exactly: the call returns `Ok(true)` and afterwards each stated
bid (ask) level is one ladder level holding a single synthetic order of
the stated quantity, and the ladders contain nothing else.  The rebuild
inserts the synthetic orders through `add_order`, so without these price
conditions it is not a verbatim reconstruction (a crossed snapshot
matches against itself; see the counterexample). -/
theorem C7_snapshot_rebuild {p : MarketDataProcessor} {b : OrderBook}
    {msg : BookSnapshotMessage} {r : Except OrderBookError Bool}
    {p' : MarketDataProcessor} {b' : OrderBook}
    (hseq : b.last_sequence_number < msg.sequence_number)
    (hposB : ∀ lv ∈ msg.bids, 0 < lv.price ∧ 0 < lv.quantity)
    (hposA : ∀ lv ∈ msg.asks, 0 < lv.price ∧ 0 < lv.quantity)
    (hpwB : msg.bids.Pairwise (fun a c => a.price ≠ c.price))
    (hpwA : msg.asks.Pairwise (fun a c => a.price ≠ c.price))
    (hcross : ∀ lb ∈ msg.bids, ∀ la ∈ msg.asks, lb.price < la.price)
    (h : p.process_market_data b (MarketDataMessage.BookSnapshot msg) =
      (r, p', b')) :
    r = Except.ok true ∧
    (∀ lv ∈ msg.bids, ∃ L, ladderGet b'.bids lv.price = some L ∧
      L.total_quantity = lv.quantity ∧ L.orders.length = 1) ∧
    (∀ lv ∈ msg.asks, ∃ L, ladderGet b'.asks lv.price = some L ∧
      L.total_quantity = lv.quantity ∧ L.orders.length = 1) ∧
    b'.bids.length = msg.bids.length ∧
    b'.asks.length = msg.asks.length := by
  -- the two insertion passes over the cleared book
  obtain ⟨b1, hrun1, hasks1, hwf1, hfresh1, hlvs1, _, hlen1, hmem1⟩ :=
    addSnapshotOrders_buy_levels msg.bids
      (({ b with last_sequence_number := msg.sequence_number } :
        OrderBook).clear_all_orders) 0
      (clear_all_orders_wf _) rfl hposB (fun lv _ => rfl) hpwB
      (fun k _ => rfl)
  obtain ⟨b2, hrun2, hbids2, hwf2, hlvs2, _, hlen2⟩ :=
    addSnapshotOrders_sell_levels msg.asks b1 0 hwf1 hposA
      (fun lv _ => by rw [hasks1]; rfl) hpwA hfresh1
      (by intro lb hlb lv hlv
          rcases hmem1 lb hlb with ⟨lvb, hlvb, hp⟩ | hmem
          · rw [hp]
            exact hcross lvb hlvb lv hlv
          · exact absurd hmem (by
              simp [OrderBook.clear_all_orders]))
  have hupd : update_orderbook_with_snapshot
      ({ b with last_sequence_number := msg.sequence_number } : OrderBook)
      msg = (Except.ok (), b2) := by
    unfold update_orderbook_with_snapshot
    simp only [hrun1]
    exact hrun2
  -- run the processor
  unfold MarketDataProcessor.process_market_data at h
  rw [if_neg (show ¬ (MarketDataMessage.BookSnapshot
      msg).sequence_number ≤ b.last_sequence_number by
    show ¬ msg.sequence_number ≤ b.last_sequence_number
    omega)] at h
  simp only [MarketDataMessage.sequence_number] at h
  rw [hupd] at h
  simp only at h
  injection h with h1 h23
  injection h23 with h2 h3
  refine ⟨h1.symm, ?_, ?_, ?_, ?_⟩
  · intro lv hlv
    rw [← h3, hbids2]
    exact hlvs1 lv hlv
  · intro lv hlv
    rw [← h3]
    exact hlvs2 lv hlv
  · rw [← h3, hbids2, hlen1]
    simp [OrderBook.clear_all_orders]
  · rw [← h3, hlen2, hasks1]
    simp

theorem C7_witness :
    (exProc.process_market_data OrderBook.new
      (MarketDataMessage.BookSnapshot exGoodSnap)).1 = Except.ok true ∧
    (∀ lv ∈ exGoodSnap.bids, ∃ L,
      ladderGet (exProc.process_market_data OrderBook.new
        (MarketDataMessage.BookSnapshot exGoodSnap)).2.2.bids lv.price =
        some L ∧
      L.total_quantity = lv.quantity ∧ L.orders.length = 1) ∧
    (∀ lv ∈ exGoodSnap.asks, ∃ L,
      ladderGet (exProc.process_market_data OrderBook.new
        (MarketDataMessage.BookSnapshot exGoodSnap)).2.2.asks lv.price =
        some L ∧
      L.total_quantity = lv.quantity ∧ L.orders.length = 1) ∧
    (exProc.process_market_data OrderBook.new
      (MarketDataMessage.BookSnapshot exGoodSnap)).2.2.bids.length =
      exGoodSnap.bids.length ∧
    (exProc.process_market_data OrderBook.new
      (MarketDataMessage.BookSnapshot exGoodSnap)).2.2.asks.length =
      exGoodSnap.asks.length := by
  have h : exProc.process_market_data OrderBook.new
      (MarketDataMessage.BookSnapshot exGoodSnap) =
      ((exProc.process_market_data OrderBook.new
        (MarketDataMessage.BookSnapshot exGoodSnap)).1,
       (exProc.process_market_data OrderBook.new
        (MarketDataMessage.BookSnapshot exGoodSnap)).2.1,
       (exProc.process_market_data OrderBook.new
        (MarketDataMessage.BookSnapshot exGoodSnap)).2.2) := rfl
  exact C7_snapshot_rebuild (by decide) (by decide) (by decide)
    (by simp [exGoodSnap]) (by simp [exGoodSnap]) (by decide) h

/-- C7 counterexample to the claim as stated: the crossed snapshot (its
bid at 100 is priced above its ask at 90) is accepted by `process`
(`Ok(true)`), yet the rebuilt book contains neither the stated bid level
at 100 nor the stated ask level at 90 — the two synthetic orders matched
against each other during the rebuild, so the rebuild is not the
unconditional verbatim reconstruction the claim describes. -/
theorem C7_counterexample :
    (exProc.process_market_data OrderBook.new
      (MarketDataMessage.BookSnapshot exCrossedSnap)).1 =
      Except.ok true ∧
    ladderGet (exProc.process_market_data OrderBook.new
      (MarketDataMessage.BookSnapshot exCrossedSnap)).2.2.bids 100 =
      none ∧
    ladderGet (exProc.process_market_data OrderBook.new
      (MarketDataMessage.BookSnapshot exCrossedSnap)).2.2.asks 90 =
      none :=
  ⟨rfl, rfl, rfl⟩

end OrderbookRust
